import Mathlib

/-!
Subdomain indexing, overlap maps and neighbour transfer (`DofMapsDST.cpp`),
and the block auxiliary-space cycle (`BlkAMS.cpp`).

Shallow embedding of the index arithmetic and of the list/vector manipulation
of `examples/maxwell-solver/ParDST/DofMapsDST.cpp` and of the correction cycle
of `examples/Smoother/BlkAMS.cpp`.

Conventions of the embedding.
* `int` is `Int`; `/` and `%` are the truncating `Int.tdiv` and `Int.tmod` of C++.
  In the subdomain id arithmetic (`GetSubdomainijk`, `GetSubdomainId` and the
  neighbour coordinate of `TransferToNeighbor`) every `+`, `-`, `*` of the source
  is followed by the 32-bit wrap-around `wrap32`, and a division by zero is a
  failure (`div32`, `mod32`).  The direction ids are numbers between -1 and 26 and
  are computed without wrap-around.
* `Array<int>` is `List Int`.  The three-entry arrays `nxyz`, `ijk`, `dijk`
  are read with `aget` (an entry past the end reads as `0`).
* Data-dependent accesses (`OvlpTDofs[l][d]`, `x1[k]`, `tdof_marker[dof]`, ...)
  are read and written with `getI?` / `setI?`, which fail (`none`) outside
  `0 .. size-1`, where the source has undefined behaviour.
-/

namespace DofMapsDST

/-! ## Definitions -/

/-- Entry `i` of a short `Array<int>`; an entry past the end reads as `0`. -/
def aget (a : List Int) (i : Nat) : Int := a.getD i 0

/-- The value that a 32-bit `int` holds after an operation whose exact result is `x`:
the representative of `x` modulo `2^32` between `INT_MIN = -2^31` and
`INT_MAX = 2^31 - 1`. -/
def wrap32 (x : Int) : Int := (x + 2147483648) % 4294967296 - 2147483648

/-- The quotient `a / b` of two `int`s, truncated towards zero; it fails for `b == 0` and
for `INT_MIN / -1`. -/
def div32 (a b : Int) : Option Int :=
  if b = 0 ∨ (a = -2147483648 ∧ b = -1) then none else some (Int.tdiv a b)

/-- The remainder `a % b` of two `int`s, with the sign of `a`; it fails for `b == 0` and
for `INT_MIN % -1`. -/
def mod32 (a b : Int) : Option Int :=
  if b = 0 ∨ (a = -2147483648 ∧ b = -1) then none else some (Int.tmod a b)

/-- Source function `GetSubdomainijk(ip, nxyz, ijk)`: the result array is
`[ijk[0], ijk[1], ijk[2]]`; the call fails when one of its divisions does. -/
def GetSubdomainijk (ip : Int) (nxyz : List Int) : Option (List Int) := do
  let ijk2 ← div32 ip (wrap32 (aget nxyz 0 * aget nxyz 1))
  let ijk1 ← div32
    (wrap32 (ip - wrap32 (wrap32 (ijk2 * aget nxyz 0) * aget nxyz 1))) (aget nxyz 0)
  let ijk0 ← mod32
    (wrap32 (ip - wrap32 (wrap32 (ijk2 * aget nxyz 0) * aget nxyz 1))) (aget nxyz 0)
  pure [ijk0, ijk1, ijk2]

/-- In the words of the specification: the inverse of `SubdomainId` by exact integer
division and modulo, over the integers. -/
def specSubdomainijk (ip : Int) (nxyz : List Int) : List Int :=
  let ijk2 := Int.tdiv ip (aget nxyz 0 * aget nxyz 1)
  let ijk1 := Int.tdiv (ip - ijk2 * aget nxyz 0 * aget nxyz 1) (aget nxyz 0)
  let ijk0 := Int.tmod (ip - ijk2 * aget nxyz 0 * aget nxyz 1) (aget nxyz 0)
  [ijk0, ijk1, ijk2]

/-- Source function `GetDirectionijk(id, ijk)` with `n = 3`. -/
def GetDirectionijk (id : Int) : List Int :=
  let n : Int := 3
  let ijk2 := Int.tdiv id (n * n) - 1
  let ijk1 := Int.tdiv (id - (ijk2 + 1) * n * n) n - 1
  let ijk0 := Int.tmod (id - (ijk2 + 1) * n * n) n - 1
  [ijk0, ijk1, ijk2]

/-- Source function `GetSubdomainId(nxyz, ijk)`; `dim` is the size of `ijk`. -/
def GetSubdomainId (nxyz : List Int) (ijk : List Int) : Int :=
  let dim := ijk.length
  let k : Int := if dim = 2 then 0 else aget ijk 2
  wrap32 (wrap32 (wrap32 (wrap32 (k * aget nxyz 1) * aget nxyz 0) +
    wrap32 (aget ijk 1 * aget nxyz 0)) + aget ijk 0)

/-- In the words of the specification:
`SubdomainId(i,j,k) = k*nxyz[1]*nxyz[0] + j*nxyz[0] + i` (`k` forced to 0 in 2D), over
the integers. -/
def specSubdomainId (nxyz : List Int) (ijk : List Int) : Int :=
  let dim := ijk.length
  let k : Int := if dim = 2 then 0 else aget ijk 2
  k * aget nxyz 1 * aget nxyz 0 + aget ijk 1 * aget nxyz 0 + aget ijk 0

/-- Source function `GetDirectionId(ijk)` with `n = 3`; `dim` is the size of `ijk`. -/
def GetDirectionId (ijk : List Int) : Int :=
  let n : Int := 3
  let dim := ijk.length
  let k : Int := if dim = 2 then -1 else aget ijk 2
  (k + 1) * n * n + (aget ijk 1 + 1) * n + aget ijk 0 + 1

/-! ### Arrays indexed by an `int`, and counted loops -/

/-- Read `a[i]` for an `int` index; `none` outside `0 .. a.Size()-1`. -/
def getI? {α : Type} (a : List α) (i : Int) : Option α :=
  if 0 ≤ i then a[i.toNat]? else none

/-- Write `a[i] = v` for an `int` index; `none` outside `0 .. a.Size()-1`. -/
def setI? {α : Type} (a : List α) (i : Int) (v : α) : Option (List α) :=
  if 0 ≤ i ∧ i.toNat < a.length then some (a.set i.toNat v) else none

/-- The loop `for (int i = 0; i < n; i++) s = body(i, s)`, where the body may fail. -/
def forLoop {σ : Type} (n : Nat) (body : Nat → σ → Option σ) (s : σ) : Option σ :=
  (List.range n).foldlM (fun s i => body i s) s

/-- The values `lo, lo+1, ..., hi` taken by `for (int k = lo; k <= hi; k++)`. -/
def intRange (lo hi : Int) : List Int :=
  (List.range (hi - lo + 1).toNat).map (fun t => lo + (t : Int))

/-! ### What `DofMaps` reads of its collaborators -/

/-- The observations the code makes of a subdomain `Mesh`: `GetNE()`, the centre of
each element (`Transform(Geometries.GetCenter(geom), center)`, component `d` of element
`iel`) and the bounding box (`GetBoundingBox(pmin, pmax)`). -/
structure Mesh (K : Type) where
  NE : Nat
  center : Nat → Nat → K
  pmin : Nat → K
  pmax : Nat → K

/-- The members of `DofMaps` (after `Init`) together with the members of
`ParMeshPartition` and of the local spaces `fes[l]` that the code reads.
`TrueVSize l` is `fes[l]->GetTrueVSize()` and `ElementDofs l jel` is the array that
`fes[l]->GetElementDofs(jel, ElemDofs)` returns. -/
structure DofMaps (K : Type) where
  dim : Nat
  myid : Int
  nrsubdomains : Nat
  subdomain_rank : List Int
  nxyz : List Int
  OvlpNlayers : Int
  MeshSize : K
  subdomain_mesh : Nat → Mesh K
  TrueVSize : Int → Nat
  ElementDofs : Nat → Int → List Int
  OvlpTDofs : List (List (List Int))

/-! ### `AddElementToOvlpLists` and `ComputeOvlpElems` -/

/-- The direction ids `DirId` that the three nested loops of `AddElementToOvlpLists`
reach, in the order in which the loops reach them.  A `continue` contributes nothing.
The flag arrays are read with a default of `false` past their end. -/
def AddElementDirIds (dim : Nat) (neg pos : List Bool) : List Int :=
  let kbeg : Int := if dim = 2 then 0 else -1
  let kend : Int := if dim = 2 then 0 else 1
  (intRange kbeg kend).flatMap fun k =>
    if dim = 3 ∧ ((k = -1 ∧ !neg.getD 2 false) ∨ (k = 1 ∧ !pos.getD 2 false)) then []
    else
      (intRange (-1) 1).flatMap fun j =>
        if (j = -1 ∧ !neg.getD 1 false) ∨ (j = 1 ∧ !pos.getD 1 false) then []
        else
          (intRange (-1) 1).flatMap fun i =>
            if (i = -1 ∧ !neg.getD 0 false) ∨ (i = 1 ∧ !pos.getD 0 false) then []
            else if i = 0 ∧ j = 0 ∧ k = 0 then []
            else [GetDirectionId [i, j, if dim = 2 then -1 else k]]

/-- The statement `OvlpElems[l][DirId].Append(iel)` on the buckets of subdomain `l`. -/
def appendAt (buckets : List (List Int)) (DirId : Int) (iel : Int) :
    Option (List (List Int)) := do
  let bucket ← getI? buckets DirId
  setI? buckets DirId (bucket ++ [iel])

/-- Source function `AddElementToOvlpLists(l, iel, neg, pos)` acting on `OvlpElems[l]`. -/
def AddElementToOvlpLists (dim : Nat) (buckets : List (List Int)) (iel : Int)
    (neg pos : List Bool) : Option (List (List Int)) :=
  (AddElementDirIds dim neg pos).foldlM (fun b DirId => appendAt b DirId iel) buckets

/-- The array `neg` that `ComputeOvlpElems` computes for element `iel` of subdomain
`ijk`: entry `d` is set when `ijk[d] > 0 && center[d] < pmin[d] + h*nlayers`. -/
def negFlags {K : Type} [LinearOrderedCommRing K] (M : DofMaps K) (ijk : List Int)
    (mesh : Mesh K) (iel : Nat) : List Bool :=
  let nlayers : Int := 2 * M.OvlpNlayers
  let h := M.MeshSize
  (List.range M.dim).map fun d =>
    decide (aget ijk d > 0 ∧ mesh.center iel d < mesh.pmin d + h * (nlayers : K))

/-- The array `pos` that `ComputeOvlpElems` computes for element `iel` of subdomain
`ijk`: entry `d` is set when `ijk[d] < nxyz[d]-1 && center[d] > pmax[d] - h*nlayers`. -/
def posFlags {K : Type} [LinearOrderedCommRing K] (M : DofMaps K) (ijk : List Int)
    (mesh : Mesh K) (iel : Nat) : List Bool :=
  let nlayers : Int := 2 * M.OvlpNlayers
  let h := M.MeshSize
  (List.range M.dim).map fun d =>
    decide (aget ijk d < aget M.nxyz d - 1 ∧
      mesh.center iel d > mesh.pmax d - h * (nlayers : K))

/-- The coordinate array `ijk` that `ComputeOvlpElems` holds for subdomain `l` after
`GetSubdomainijk(l, nxyz, ijk)` (the empty array when that call fails). -/
def subdomainijk {K : Type} (M : DofMaps K) (l : Nat) : List Int :=
  (GetSubdomainijk (l : Int) M.nxyz).getD []

/-- The direction ids that `AddElementToOvlpLists` reaches for element `iel` of
subdomain `l`, with the flags that `ComputeOvlpElems` computes for that element. -/
def elementDirIds {K : Type} [LinearOrderedCommRing K] (M : DofMaps K) (l iel : Nat) :
    List Int :=
  let ijk := subdomainijk M l
  let mesh := M.subdomain_mesh l
  AddElementDirIds M.dim (negFlags M ijk mesh iel) (posFlags M ijk mesh iel)

/-- The body of the subdomain loop of `ComputeOvlpElems` for an owned subdomain `l`:
`OvlpElems[l]` is resized to `pow(3,dim)` empty buckets and every element of the
subdomain mesh is passed to `AddElementToOvlpLists`. -/
def subdomainOvlpElems {K : Type} [LinearOrderedCommRing K] (M : DofMaps K) (l : Nat) :
    Option (List (List Int)) := do
  let ijk ← GetSubdomainijk (l : Int) M.nxyz
  let mesh := M.subdomain_mesh l
  forLoop mesh.NE
    (fun iel buckets =>
      AddElementToOvlpLists M.dim buckets (iel : Int)
        (negFlags M ijk mesh iel) (posFlags M ijk mesh iel))
    (List.replicate (3 ^ M.dim) [])

/-- Source function `ComputeOvlpElems()`: the table `OvlpElems`, starting from the empty
table of a freshly constructed object.  `OvlpElems.resize(nrsubdomains)` gives every subdomain an
empty entry, which only the subdomains owned by the calling rank fill. -/
def ComputeOvlpElems {K : Type} [LinearOrderedCommRing K] (M : DofMaps K) :
    Option (List (List (List Int))) :=
  (List.range M.nrsubdomains).mapM fun (l : Nat) => do
    let rank ← getI? M.subdomain_rank (l : Int)
    if M.myid = rank then subdomainOvlpElems M l else pure []

/-- In the words of the specification: on axis `a`, element `e` of subdomain `l` is near
the low face and a lower neighbour exists, `ijk[a] > 0` and
`c[a] < pmin[a] + 2*OvlpNlayers*h`. -/
def nearLow {K : Type} [LinearOrderedCommRing K] (M : DofMaps K) (l e a : Nat) : Prop :=
  aget (subdomainijk M l) a > 0 ∧
    (M.subdomain_mesh l).center e a <
      (M.subdomain_mesh l).pmin a + 2 * (M.OvlpNlayers : K) * M.MeshSize

/-- In the words of the specification: on axis `a`, element `e` of subdomain `l` is near
the high face and a higher neighbour exists, `ijk[a] < nxyz[a]-1` and
`c[a] > pmax[a] - 2*OvlpNlayers*h`. -/
def nearHigh {K : Type} [LinearOrderedCommRing K] (M : DofMaps K) (l e a : Nat) : Prop :=
  aget (subdomainijk M l) a < aget M.nxyz a - 1 ∧
    (M.subdomain_mesh l).center e a >
      (M.subdomain_mesh l).pmax a - 2 * (M.OvlpNlayers : K) * M.MeshSize

/-! ### `ComputeOvlpTdofs` -/

/-- The decoding `dof = (dof_ >= 0) ? dof_ : abs(dof_) - 1` of a signed element dof. -/
def decodeDof (dof_ : Int) : Int :=
  if dof_ ≥ 0 then dof_ else |dof_| - 1

/-- The innermost loop of `ComputeOvlpTdofs` over the entries of `ElemDofs`; the state
is the pair `(tdoflist, tdof_marker)`. -/
def markElementDofs (ElemDofs : List Int) (st : List Int × List Int) :
    Option (List Int × List Int) :=
  forLoop ElemDofs.length
    (fun i st => do
      let dof_ ← ElemDofs[i]?
      let dof := decodeDof dof_
      let marked ← getI? st.2 dof
      if marked = 0 then
        let marker ← setI? st.2 dof 1
        pure (st.1 ++ [dof], marker)
      else pure st)
    st

/-- The body of the direction loop of `ComputeOvlpTdofs`: from the elements `Elems` of
one bucket, with `tdof_marker` reset to `0` and `tdoflist` empty, the list assigned to
`OvlpTDofs[l][d]`. -/
def bucketTDofs (ntdofs : Nat) (ElementDofs : Int → List Int) (Elems : List Int) :
    Option (List Int) := do
  let st ← forLoop Elems.length
    (fun iel st => do
      let jel ← Elems[iel]?
      markElementDofs (ElementDofs jel) st)
    (([] : List Int), List.replicate ntdofs (0 : Int))
  pure st.1

/-- The body of the subdomain loop of `ComputeOvlpTdofs` for an owned subdomain `l`. -/
def subdomainOvlpTDofs {K : Type} (M : DofMaps K) (OvlpElems : List (List (List Int)))
    (l : Nat) : Option (List (List Int)) :=
  let ntdofs := M.TrueVSize (l : Int)
  let nrneighbors := 3 ^ M.dim
  (List.range nrneighbors).mapM fun d => do
    let row ← OvlpElems[l]?
    let Elems ← row[d]?
    bucketTDofs ntdofs (M.ElementDofs l) Elems

/-- Source function `ComputeOvlpTdofs()`: the tables `(OvlpElems, OvlpTDofs)` it leaves behind. -/
def ComputeOvlpTdofs {K : Type} [LinearOrderedCommRing K] (M : DofMaps K) :
    Option (List (List (List Int)) × List (List (List Int))) := do
  let OvlpElems ← ComputeOvlpElems M
  let OvlpTDofs ← (List.range M.nrsubdomains).mapM fun (l : Nat) => do
    let rank ← getI? M.subdomain_rank (l : Int)
    if M.myid = rank then subdomainOvlpTDofs M OvlpElems l else pure []
  pure (OvlpElems, OvlpTDofs)

/-- In the words of the specification: a signed element dof `e` decodes to `e` when
`e >= 0` and to `-e-1` when `e < 0`. -/
def specDecode (e : Int) : Int :=
  if e ≥ 0 then e else -e - 1

/-- In the words of the specification: the list that keeps only the first occurrence of
each entry, in the order of the first occurrences. -/
def keepFirst : List Int → List Int
  | [] => []
  | x :: xs => x :: (keepFirst xs).filter (fun y => decide (y ≠ x))

/-! ### `TransferToNeighbor` -/

/-- Modelled from the spec: `Vector::GetSubVector(dofs, elemvect)` of the library, which
is not part of the sources at hand; "pack the source overlap slice": entry `i` of
the result is `x[dofs[i]]`.  The overlap lists hold true-dof indices, so an index
outside `0 .. x.Size()-1` is a failure. -/
def GetSubVector {α : Type} (x : List α) (dofs : List Int) : Option (List α) :=
  dofs.mapM fun j => getI? x j

/-- Modelled from the spec: `Vector::SetSubVector(dofs, elemvect)` of the library, which
is not part of the sources at hand; "scatter into the full destination vector at
those indices": `x[dofs[i]] = elemvect[i]` for `i = 0, 1, ...` in turn. -/
def SetSubVector {α : Type} (x : List α) (dofs : List Int) (elemvect : List α) :
    Option (List α) :=
  forLoop dofs.length
    (fun i x => do
      let k ← dofs[i]?
      let v ← elemvect[i]?
      setI? x k v)
    x

/-- The same-rank branch of `TransferToNeighbor`: `x1.SetSize(n1); x1 = 0.0;` followed by
the loop `x1[tdofs1[i]] = x0[tdofs0[i]]` for `i < tdofs0.Size()`. -/
def sameRankBranch {α : Type} [Zero α] (n1 : Nat) (tdofs0 tdofs1 : List Int)
    (x0 : List α) : Option (List α) :=
  forLoop tdofs0.length
    (fun i x1 => do
      let j ← tdofs0[i]?
      let k ← tdofs1[i]?
      let v ← getI? x0 j
      setI? x1 k v)
    (List.replicate n1 (0 : α))

/-- The sending branch of `TransferToNeighbor`: the buffer `y0` handed to `MPI_Send`
(with `count = tdofs0.Size()`). -/
def sendBranch {α : Type} (tdofs0 : List Int) (x0 : List α) : Option (List α) :=
  GetSubVector x0 tdofs0

/-- The receiving branch of `TransferToNeighbor`, given the content `y1` of the receive
buffer after `MPI_Recv`: `x1.SetSize(n1); x1 = 0.0; x1.SetSubVector(tdofs1, y1)`.  The
buffer has `tdofs1.Size()` entries and the receive asks for as many, so a message of
another length is a failure. -/
def recvBranch {α : Type} [Zero α] (n1 : Nat) (tdofs1 : List Int) (y1 : List α) :
    Option (List α) :=
  if y1.length = tdofs1.length then
    SetSubVector (List.replicate n1 (0 : α)) tdofs1 y1
  else none

/-- What a call of `TransferToNeighbor` did on the communicator. -/
inductive Exchange (α : Type) where
  | copied : Exchange α
  | sent (dest tag : Int) (count : Nat) (data : List α) : Exchange α
  | received (src tag : Int) (count : Nat) : Exchange α
  | idle : Exchange α
deriving DecidableEq, Repr

/-- The coordinate `ijk1` of the neighbour: `0` on every axis, then
`ijk1[d] = ijk0[d] + direction0[d]` for `d < dim`. -/
def neighborijk (dim : Nat) (ijk0 direction0 : List Int) : List Int :=
  (List.range 3).map fun d =>
    if d < dim then wrap32 (aget ijk0 d + aget direction0 d) else 0

/-- The direction `direction1`: `-1` on every axis, then
`direction1[d] = -direction0[d]` for `d < dim`. -/
def oppositeDirection (dim : Nat) (direction0 : List Int) : List Int :=
  (List.range 3).map fun d => if d < dim then wrap32 (- aget direction0 d) else -1

/-- The neighbour id `i1 = GetSubdomainId(nxyz, ijk1)` that `TransferToNeighbor` computes
from `i0` and `direction0`; it fails when `GetSubdomainijk(i0, nxyz, ijk0)` does. -/
def neighborId {K : Type} (M : DofMaps K) (i0 : Int) (direction0 : List Int) :
    Option Int := do
  let ijk0 ← GetSubdomainijk i0 M.nxyz
  let ijk1 := neighborijk M.dim ijk0 direction0
  pure (GetSubdomainId M.nxyz ijk1)

/-- The read `OvlpTDofs[i][d]`. -/
def OvlpTDofsAt {K : Type} (M : DofMaps K) (i d : Int) : Option (List Int) :=
  (getI? M.OvlpTDofs i).bind fun row => getI? row d

/-- Source function `TransferToNeighbor(i0, direction0, x0, x1)`.  `x1` is the value the
output argument holds on entry and `incoming` is the message that `MPI_Recv` delivers when
the receiving branch runs.  The result is the final `x1` and the communication done. -/
def TransferToNeighbor {K α : Type} [Zero α] (M : DofMaps K) (i0 : Int)
    (direction0 : List Int) (x0 x1 incoming : List α) :
    Option (List α × Exchange α) := do
  let i1 ← neighborId M i0 direction0
  let direction1 := oppositeDirection M.dim direction0
  let rank1 ← getI? M.subdomain_rank i1
  let rank0 ← getI? M.subdomain_rank i0
  if M.myid = rank0 then
    let d0 := GetDirectionId direction0
    let tdofs0 ← OvlpTDofsAt M i0 d0
    if M.myid = rank1 then
      let d1 := GetDirectionId direction1
      let tdofs1 ← OvlpTDofsAt M i1 d1
      let x1 ← sameRankBranch (M.TrueVSize i1) tdofs0 tdofs1 x0
      pure (x1, Exchange.copied)
    else
      let y0 ← sendBranch tdofs0 x0
      pure (x1, Exchange.sent rank1 i0 tdofs0.length y0)
  else if M.myid = rank1 then
    let d1 := GetDirectionId direction1
    let tdofs1 ← OvlpTDofsAt M i1 d1
    let x1 ← recvBranch (M.TrueVSize i1) tdofs1 incoming
    pure (x1, Exchange.received rank0 i0 tdofs1.length)
  else pure (x1, Exchange.idle)

/-! ### A small configuration used to exercise the definitions -/

/-- Two subdomains side by side along the first axis of a 2 x 1 x 1 grid in two space
dimensions, both owned by rank 0.  Each subdomain mesh is a row of four unit-wide
elements with centres at 1, 3, 5, 7; one overlap layer, mesh size 1.  The overlap
lists are the ones `ComputeOvlpTdofs` computes for this configuration. -/
def exampleMaps : DofMaps Int where
  dim := 2
  myid := 0
  nrsubdomains := 2
  subdomain_rank := [0, 0]
  nxyz := [2, 1, 1]
  OvlpNlayers := 1
  MeshSize := 1
  subdomain_mesh := fun _ =>
    { NE := 4
      center := fun iel d => if d = 0 then 2 * (iel : Int) + 1 else 1
      pmin := fun _ => 0
      pmax := fun d => if d = 0 then 8 else 2 }
  TrueVSize := fun _ => 10
  ElementDofs := fun _ jel => [jel, jel + 1, -jel - 3]
  OvlpTDofs :=
    [[[], [], [], [], [], [3, 4, 5], [], [], []], [[], [], [], [0, 1, 2], [], [], [], [], []]]

/-- Eight subdomains in a 2 x 2 x 2 grid in three space dimensions, all owned by rank 0.
Each subdomain mesh has the bounding box `[0,8]^3` and eight elements, one per corner,
with centre coordinates 1 or 7; one overlap layer, mesh size 1. -/
def exampleMaps3 : DofMaps Int where
  dim := 3
  myid := 0
  nrsubdomains := 8
  subdomain_rank := [0, 0, 0, 0, 0, 0, 0, 0]
  nxyz := [2, 2, 2]
  OvlpNlayers := 1
  MeshSize := 1
  subdomain_mesh := fun _ =>
    { NE := 8
      center := fun iel d => 6 * (((iel / 2 ^ d) % 2 : Nat) : Int) + 1
      pmin := fun _ => 0
      pmax := fun _ => 8 }
  TrueVSize := fun _ => 27
  ElementDofs := fun _ jel => [jel, jel + 1, -jel - 3]
  OvlpTDofs := []

/-- A true-dof vector of the first subdomain of `exampleMaps`. -/
def exampleVector : List Int := [100, 101, 102, 103, 104, 105, 106, 107, 108, 109]

/-- The number of buckets of a subdomain that hold the element `e`. -/
def bucketsContaining (buckets : List (List Int)) (e : Int) : Nat :=
  buckets.countP fun bucket => decide (e ∈ bucket)

/-- The middle subdomain (id 13, coordinate (1,1,1)) of a 3 x 3 x 3 grid in three space
dimensions, owned by rank 0, the other subdomains being owned by rank 1.  Its mesh is a
2 x 2 x 2 block of elements of size 2 with the bounding box `[0,4]^3` and centre
coordinates 1 or 3; one overlap layer, mesh size 2, so that every centre is within
`2*OvlpNlayers*h = 4` of all six faces. -/
def exampleThin : DofMaps Int where
  dim := 3
  myid := 0
  nrsubdomains := 27
  subdomain_rank :=
    [1, 1, 1, 1, 1, 1, 1, 1, 1, 1, 1, 1, 1, 0, 1, 1, 1, 1, 1, 1, 1, 1, 1, 1, 1, 1, 1]
  nxyz := [3, 3, 3]
  OvlpNlayers := 1
  MeshSize := 2
  subdomain_mesh := fun _ =>
    { NE := 8
      center := fun iel d => 2 * (((iel / 2 ^ d) % 2 : Nat) : Int) + 1
      pmin := fun _ => 0
      pmax := fun _ => 4 }
  TrueVSize := fun _ => 27
  ElementDofs := fun _ jel => [jel, jel + 1, -jel - 3]
  OvlpTDofs := []

/-- The configuration `exampleMaps3` on a grid of 641 x 6700417 x 1 subdomains, of which
the calling rank holds the first two: the product `641 * 6700417 = 2^32 + 1` does not fit
in an `int` and wraps to 1. -/
def exampleOverflow3D : DofMaps Int :=
  { exampleMaps3 with nxyz := [641, 6700417, 1], nrsubdomains := 2, subdomain_rank := [0, 0] }

end DofMapsDST

namespace BlkAMS

open DofMapsDST

/-! ## Definitions: the correction cycle of `Block_AMSSolver` -/

/-- A `BlockOperator` as far as the cycle uses it: `Mult` and `MultTranspose`. -/
structure BlockOperator (V : Type) where
  Mult : V → V
  MultTranspose : V → V

/-- The members of `Block_AMSSolver` that `Mult` and `GetCorrection` read.  `Vector` is
the type `V`, with `Size` for `Vector::Size()`; an operator or preconditioner is its
`Mult`.  `AHeight` is `A->Height()`.  `cg op prec b` is the result of
`CGSolver::Mult(b, x)` started from `x = 0` with operator `op`, preconditioner `prec`
and the fixed tolerances of `GetCorrection`. -/
structure Block_AMSSolver (K V : Type) where
  Size : V → Int
  AHeight : Int
  A : V → V
  D : V → V
  theta : K
  cycle_type : String
  NumberOfCycles : Int
  G : BlockOperator V
  Px : BlockOperator V
  Py : BlockOperator V
  Pz : BlockOperator V
  GtAG : V → V
  PxtAPx : V → V
  PytAPy : V → V
  PztAPz : V → V
  blkAMG_G : V → V
  blkAMG_Px : V → V
  blkAMG_Py : V → V
  blkAMG_Pz : V → V
  cg : (V → V) → (V → V) → V → V

/-- Source function `GetCorrection(Tr, op, prec, r, z)`: restrict with
`Tr->MultTranspose`, solve with the conjugate-gradient solver from a zero initial guess,
prolong with `Tr->Mult`. -/
def GetCorrection {V : Type} (cg : (V → V) → (V → V) → V → V) (Tr : BlockOperator V)
    (op prec : V → V) (r : V) : V :=
  let raux := Tr.MultTranspose r
  let zaux := cg op prec raux
  Tr.Mult zaux

/-- The array `Tr_v` of `Mult`. -/
def Tr_v {K V : Type} (S : Block_AMSSolver K V) : List (BlockOperator V) :=
  [S.G, S.Px, S.Py, S.Pz]

/-- The array `PtAP_v` of `Mult`. -/
def PtAP_v {K V : Type} (S : Block_AMSSolver K V) : List (V → V) :=
  [S.GtAG, S.PxtAPx, S.PytAPy, S.PztAPz]

/-- The array `blkAMG_v` of `Mult`. -/
def blkAMG_v {K V : Type} (S : Block_AMSSolver K V) : List (V → V) :=
  [S.blkAMG_G, S.blkAMG_Px, S.blkAMG_Py, S.blkAMG_Pz]

/-- The array `ii` of `Mult`: `ii[i] = cycle_type[i] - '0'`. -/
def cycleSymbols (cycle_type : String) : List Int :=
  cycle_type.toList.map fun c => (c.toNat : Int) - 48

/-- The body of the inner loop of `Mult` for the symbol `i`, acting on the pair
`(z, res)`.  Reading `Tr_v[i-1]`, `PtAP_v[i-1]` or `blkAMG_v[i-1]` outside `0..3` is a
failure. -/
def cycleStep {K V : Type} [Add V] [Sub V] [SMul K V] (S : Block_AMSSolver K V) (i : Int)
    (st : V × V) : Option (V × V) := do
  let zaux ←
    if i = 0 then some (S.theta • S.D st.2)
    else do
      let Tr ← getI? (Tr_v S) (i - 1)
      let op ← getI? (PtAP_v S) (i - 1)
      let prec ← getI? (blkAMG_v S) (i - 1)
      pure (GetCorrection S.cg Tr op prec st.2)
  let z := st.1 + zaux
  let raux := S.A zaux
  let res := st.2 - raux
  pure (z, res)

/-- Source function `Block_AMSSolver::Mult(r, z)`, where `z` is the value the output
argument holds on entry.  The result is the final `z` and the lines written to `cout`. -/
def Mult {K V : Type} [Zero V] [Add V] [Sub V] [SMul K V] (S : Block_AMSSolver K V)
    (r z : V) : Option (V × List String) := do
  let n := S.Size r
  let m := S.AHeight
  let out := if n ≠ m then ["Size inconsistency"] else []
  let res := r
  let z : V := 0
  let ii := cycleSymbols S.cycle_type
  let len := ii.length
  let st ← forLoop S.NumberOfCycles.toNat
    (fun _ st => forLoop len (fun j st => do
      let i ← ii[j]?
      cycleStep S i st) st)
    (z, res)
  pure (st.1, out)

/-- A one-dimensional instance over the integers: `A` doubles, the smoother is the
identity, the transfer operators and the inner solver are the identity, damping 1,
cycle `"01234"` run twice. -/
def exampleSolver : Block_AMSSolver Int Int where
  Size := fun _ => 1
  AHeight := 1
  A := fun v => 2 * v
  D := fun v => v
  theta := 1
  cycle_type := "01234"
  NumberOfCycles := 2
  G := ⟨fun v => v, fun v => v⟩
  Px := ⟨fun v => v, fun v => v⟩
  Py := ⟨fun v => v, fun v => v⟩
  Pz := ⟨fun v => v, fun v => v⟩
  GtAG := fun v => 2 * v
  PxtAPx := fun v => 2 * v
  PytAPy := fun v => 2 * v
  PztAPz := fun v => 2 * v
  blkAMG_G := fun v => v
  blkAMG_Px := fun v => v
  blkAMG_Py := fun v => v
  blkAMG_Pz := fun v => v
  cg := fun _ prec b => prec b

/-- The symbols that the two nested loops of `Mult` visit, in the order of the visits:
the array `ii`, `NumberOfCycles` times over. -/
def cycleSchedule {K V : Type} (S : Block_AMSSolver K V) : List Int :=
  (List.replicate S.NumberOfCycles.toNat (cycleSymbols S.cycle_type)).flatten

/-- The pair `(z, res)` after the body of the inner loop of `Mult` has run for the
symbols `syms` in turn, starting from `st`. -/
def cycleRun {K V : Type} [Add V] [Sub V] [SMul K V] (S : Block_AMSSolver K V)
    (syms : List Int) (st : V × V) : Option (V × V) :=
  syms.foldlM (fun st i => cycleStep S i st) st

/-- The pair `(z, res)` that `Mult(r, z)` holds after the first `n` passes through the
body of its inner loop (after the initialisation `res = r; z = 0.0` when `n = 0`);
`none` when one of these passes has read `Tr_v[i-1]` out of range. -/
def stateAfter {K V : Type} [Zero V] [Add V] [Sub V] [SMul K V] (S : Block_AMSSolver K V)
    (r : V) (n : Nat) : Option (V × V) :=
  cycleRun S ((cycleSchedule S).take n) ((0 : V), r)

/-- In the words of the specification: the correction `zaux` of a step for the digit
`s`, `theta * D(res)` when `s == 0` and otherwise `Tr(Solve(Tr^T res))`, where the
digits 1, 2, 3, 4 select `(G, GtAG, blkAMG_G)`, `(Px, PxtAPx, blkAMG_Px)`,
`(Py, PytAPy, blkAMG_Py)`, `(Pz, PztAPz, blkAMG_Pz)`. -/
def specCorrection {K V : Type} [SMul K V] (S : Block_AMSSolver K V) (s : Nat) (res : V) : V :=
  match s with
  | 0 => S.theta • S.D res
  | 1 => S.G.Mult (S.cg S.GtAG S.blkAMG_G (S.G.MultTranspose res))
  | 2 => S.Px.Mult (S.cg S.PxtAPx S.blkAMG_Px (S.Px.MultTranspose res))
  | 3 => S.Py.Mult (S.cg S.PytAPy S.blkAMG_Py (S.Py.MultTranspose res))
  | _ => S.Pz.Mult (S.cg S.PztAPz S.blkAMG_Pz (S.Pz.MultTranspose res))

/-- In the words of the specification: one step for the digit `s`, `z += zaux` and
`res -= A*zaux`, on the pair `(z, res)`. -/
def specStep {K V : Type} [Add V] [Sub V] [SMul K V] (S : Block_AMSSolver K V) (s : Nat)
    (st : V × V) : V × V :=
  (st.1 + specCorrection S s st.2, st.2 - S.A (specCorrection S s st.2))

/-- In the words of the specification: the digits of a cycle string. -/
def specDigits (c : String) : List Nat :=
  c.toList.map fun ch => ch.toNat - 48

/-- In the words of the specification: the pair `(z, res)` produced by starting from
`st` and, `k` times over, taking one step for each digit of `digits` in order. -/
def specCycle {K V : Type} [Add V] [Sub V] [SMul K V] (S : Block_AMSSolver K V)
    (digits : List Nat) (k : Nat) (st : V × V) : V × V :=
  Nat.iterate (fun st => digits.foldl (fun st s => specStep S s st) st) k st

/-- The solver `exampleSolver` with the empty cycle string. -/
def exampleEmptyCycle : Block_AMSSolver Int Int :=
  { exampleSolver with cycle_type := "" }

/-- The solver `exampleSolver` with the cycle string `"05"`, whose second symbol is not
one of the digits `0..4`. -/
def exampleBadCycle : Block_AMSSolver Int Int :=
  { exampleSolver with cycle_type := "05" }

/-- The solver `exampleSolver` with an operator of height 3 (the vectors have size 1),
with the cycle string `"0"` run once. -/
def exampleMismatch : Block_AMSSolver Int Int :=
  { exampleSolver with AHeight := 3, cycle_type := "0", NumberOfCycles := 1 }

end BlkAMS

namespace DofMapsDST

/-! ## Theorems -/

/-- Splitting `a = q * b + r` with `0 ≤ r < b` determines the truncating quotient and
remainder of a non-negative `a`. -/
theorem tdiv_tmod_of_split (q r b : Int) (hq : 0 ≤ q) (hr : 0 ≤ r) (hrb : r < b) :
    Int.tdiv (q * b + r) b = q ∧ Int.tmod (q * b + r) b = r := by
  have hb : 0 < b := lt_of_le_of_lt hr hrb
  have ha : 0 ≤ q * b + r := by positivity
  rw [Int.tdiv_eq_ediv ha hb.le, Int.tmod_eq_emod ha hb.le]
  exact (Int.ediv_emod_unique hb).2 ⟨by ring, hr, hrb⟩

/-- The truncating quotient and remainder of a non-negative number by a positive one
satisfy the usual bounds. -/
theorem tdiv_tmod_bounds (a b : Int) (ha : 0 ≤ a) (hb : 0 < b) :
    0 ≤ Int.tdiv a b ∧ 0 ≤ Int.tmod a b ∧ Int.tmod a b < b ∧
      Int.tdiv a b * b + Int.tmod a b = a := by
  rw [Int.tdiv_eq_ediv ha hb.le, Int.tmod_eq_emod ha hb.le]
  refine ⟨Int.ediv_nonneg ha hb.le, Int.emod_nonneg _ hb.ne', Int.emod_lt_of_pos _ hb, ?_⟩
  have := Int.ediv_add_emod a b
  linarith [mul_comm b (a / b)]

/-- Division with remainder behind the inverse of `SubdomainId`: over the integers, for
an id below the number of subdomains the three components are in range and recombine to
the id. -/
theorem specSubdomainijk_spec (nx ny nz id : Int) (hx : 0 < nx) (hy : 0 < ny)
    (h0 : 0 ≤ id) (h1 : id < nx * ny * nz) :
    ∃ i j k : Int, specSubdomainijk id [nx, ny, nz] = [i, j, k] ∧
      (0 ≤ i ∧ i < nx) ∧ (0 ≤ j ∧ j < ny) ∧ (0 ≤ k ∧ k < nz) ∧
      specSubdomainId [nx, ny, nz] (specSubdomainijk id [nx, ny, nz]) = id := by
  have hxy : 0 < nx * ny := mul_pos hx hy
  obtain ⟨hk0, hr0, hr1, hsplit⟩ := tdiv_tmod_bounds id (nx * ny) h0 hxy
  set k := Int.tdiv id (nx * ny) with hk
  set r := Int.tmod id (nx * ny) with hr
  have hrem : id - k * nx * ny = r := by rw [← hsplit]; ring
  obtain ⟨hj0, hi0, hi1, hsplit2⟩ := tdiv_tmod_bounds r nx hr0 hx
  have hkz : k < nz := by
    by_contra hcon
    have hge : nz ≤ k := not_lt.mp hcon
    have : nz * (nx * ny) ≤ k * (nx * ny) := mul_le_mul_of_nonneg_right hge hxy.le
    nlinarith
  have hjy : Int.tdiv r nx < ny := by
    by_contra hcon
    have hge : ny ≤ Int.tdiv r nx := not_lt.mp hcon
    have : ny * nx ≤ Int.tdiv r nx * nx := mul_le_mul_of_nonneg_right hge hx.le
    nlinarith
  refine ⟨Int.tmod r nx, Int.tdiv r nx, k, ?_, ⟨hi0, hi1⟩, ⟨hj0, hjy⟩, ⟨hk0, hkz⟩, ?_⟩
  · simp only [specSubdomainijk, aget, List.getD_cons_zero, List.getD_cons_succ, ← hk, hrem]
  · simp only [specSubdomainijk, specSubdomainId, aget, List.getD_cons_zero,
      List.getD_cons_succ, ← hk, hrem, List.length_cons, List.length_nil]
    norm_num
    have hassoc : k * ny * nx = k * (nx * ny) := by ring
    linarith

/-- Every intermediate value that `GetSubdomainijk` and `GetSubdomainId` compute for an
id below the number of subdomains `nx*ny*nz` lies between `0` and that number: when the
number of subdomains fits in an `int`, so does every intermediate value. -/
theorem GetSubdomainijk_intermediate_bounds (nx ny nz id : Int)
    (hx : 0 < nx) (hy : 0 < ny) (hz : 0 < nz) (h0 : 0 ≤ id) (h1 : id < nx * ny * nz) :
    (0 ≤ nx * ny ∧ nx * ny ≤ nx * ny * nz) ∧
    (0 ≤ Int.tdiv id (nx * ny) * nx ∧ Int.tdiv id (nx * ny) * nx ≤ nx * ny * nz) ∧
    (0 ≤ Int.tdiv id (nx * ny) * nx * ny ∧ Int.tdiv id (nx * ny) * nx * ny ≤ id) ∧
    (0 ≤ id - Int.tdiv id (nx * ny) * nx * ny ∧
      id - Int.tdiv id (nx * ny) * nx * ny < nx * ny) ∧
    (0 ≤ Int.tdiv id (nx * ny) * ny ∧ Int.tdiv id (nx * ny) * ny ≤ nx * ny * nz) ∧
    (0 ≤ Int.tdiv (id - Int.tdiv id (nx * ny) * nx * ny) nx * nx ∧
      Int.tdiv (id - Int.tdiv id (nx * ny) * nx * ny) nx * nx ≤ id) ∧
    (0 ≤ Int.tdiv id (nx * ny) * ny * nx +
        Int.tdiv (id - Int.tdiv id (nx * ny) * nx * ny) nx * nx ∧
      Int.tdiv id (nx * ny) * ny * nx +
        Int.tdiv (id - Int.tdiv id (nx * ny) * nx * ny) nx * nx ≤ id) := by
  have hxy : 0 < nx * ny := mul_pos hx hy
  obtain ⟨hk0, hr0, hr1, hsplit⟩ := tdiv_tmod_bounds id (nx * ny) h0 hxy
  set k := Int.tdiv id (nx * ny) with hk
  set r := Int.tmod id (nx * ny) with hr
  have hrem : id - k * nx * ny = r := by rw [← hsplit]; ring
  rw [hrem]
  obtain ⟨hj0, hi0, hi1, hsplit2⟩ := tdiv_tmod_bounds r nx hr0 hx
  set j := Int.tdiv r nx with hj
  have hknx : 0 ≤ k * nx := mul_nonneg hk0 hx.le
  have hkny : 0 ≤ k * ny := mul_nonneg hk0 hy.le
  have hkxy : k * nx * ny = k * (nx * ny) := by ring
  have hkyx : k * ny * nx = k * (nx * ny) := by ring
  have hle1 : k * nx ≤ k * nx * ny := by nlinarith
  have hle2 : k * ny ≤ k * ny * nx := by nlinarith
  have hjnx : 0 ≤ j * nx := mul_nonneg hj0 hx.le
  refine ⟨⟨hxy.le, by nlinarith⟩, ⟨hknx, by nlinarith⟩, ⟨by nlinarith, by nlinarith⟩,
    ⟨hr0, hr1⟩, ⟨hkny, by nlinarith⟩, ⟨hjnx, by nlinarith⟩, ⟨by nlinarith, by nlinarith⟩⟩

/-- Round trip of the inverse after `SubdomainId`, over the integers, on a
three-component coordinate inside the grid. -/
theorem specSubdomainijk_of_valid (nx ny : Int) (nz : Int) (i j k : Int)
    (hi : 0 ≤ i ∧ i < nx) (hj : 0 ≤ j ∧ j < ny) (hk : 0 ≤ k) :
    specSubdomainijk (specSubdomainId [nx, ny, nz] [i, j, k]) [nx, ny, nz] = [i, j, k] := by
  have hx : 0 < nx := lt_of_le_of_lt hi.1 hi.2
  have hy : 0 < ny := lt_of_le_of_lt hj.1 hj.2
  have hr0 : 0 ≤ j * nx + i := by nlinarith [mul_nonneg hj.1 hx.le]
  have hr1 : j * nx + i < nx * ny := by nlinarith
  have eId : specSubdomainId [nx, ny, nz] [i, j, k] = k * (nx * ny) + (j * nx + i) := by
    simp only [specSubdomainId, aget, List.getD_cons_zero, List.getD_cons_succ,
      List.length_cons, List.length_nil]
    norm_num
    ring
  obtain ⟨e1, e2⟩ := tdiv_tmod_of_split k (j * nx + i) (nx * ny) hk hr0 hr1
  obtain ⟨e3, e4⟩ := tdiv_tmod_of_split j i nx hj.1 hi.1 hi.2
  have hrem : k * (nx * ny) + (j * nx + i) - k * nx * ny = j * nx + i := by ring
  simp only [specSubdomainijk, aget, List.getD_cons_zero, List.getD_cons_succ, eId, e1, hrem,
    e3, e4]

/-- A value between `INT_MIN` and `INT_MAX` is held by an `int` unchanged. -/
theorem wrap32_of_range (x : Int) (h0 : -2147483648 ≤ x) (h1 : x ≤ 2147483647) :
    wrap32 x = x := by
  unfold wrap32
  omega

/-- Division of `int`s by a positive divisor is defined. -/
theorem div32_of_pos (a b : Int) (hb : 0 < b) : div32 a b = some (Int.tdiv a b) := by
  unfold div32
  rw [if_neg]
  omega

/-- The remainder of `int`s by a positive divisor is defined. -/
theorem mod32_of_pos (a b : Int) (hb : 0 < b) : mod32 a b = some (Int.tmod a b) := by
  unfold mod32
  rw [if_neg]
  omega

/-- When the number of subdomains `nx*ny*nz` fits in an `int`, the 32-bit arithmetic of
`GetSubdomainijk` on an id below that number is defined and agrees with exact integer
division and modulo. -/
theorem GetSubdomainijk_eq_spec (nx ny nz id : Int)
    (hx : 0 < nx) (hy : 0 < ny) (hz : 0 < nz) (hprod : nx * ny * nz ≤ 2147483647)
    (h0 : 0 ≤ id) (h1 : id < nx * ny * nz) :
    GetSubdomainijk id [nx, ny, nz] = some (specSubdomainijk id [nx, ny, nz]) := by
  obtain ⟨⟨a0, a1⟩, ⟨b0, b1⟩, ⟨c0, c1⟩, ⟨d0, d1⟩, -, -, -⟩ :=
    GetSubdomainijk_intermediate_bounds nx ny nz id hx hy hz h0 h1
  have hxy : 0 < nx * ny := mul_pos hx hy
  have w1 : wrap32 (nx * ny) = nx * ny := wrap32_of_range _ (by linarith) (by linarith)
  have w2 : wrap32 (Int.tdiv id (nx * ny) * nx) = Int.tdiv id (nx * ny) * nx :=
    wrap32_of_range _ (by linarith) (by linarith)
  have w3 : wrap32 (Int.tdiv id (nx * ny) * nx * ny) = Int.tdiv id (nx * ny) * nx * ny :=
    wrap32_of_range _ (by linarith) (by linarith)
  have w4 : wrap32 (id - Int.tdiv id (nx * ny) * nx * ny)
      = id - Int.tdiv id (nx * ny) * nx * ny :=
    wrap32_of_range _ (by linarith) (by linarith)
  simp only [GetSubdomainijk, specSubdomainijk, aget, List.getD_cons_zero,
    List.getD_cons_succ, w1, div32_of_pos _ _ hxy, Option.bind_eq_bind, Option.some_bind,
    w2, w3, w4, div32_of_pos _ _ hx, mod32_of_pos _ _ hx, Option.pure_def]

/-- When the number of subdomains `nx*ny*nz` fits in an `int`, the 32-bit arithmetic of
`GetSubdomainId` on a coordinate inside the grid agrees with
`k*nxyz[1]*nxyz[0] + j*nxyz[0] + i` over the integers, and the id is below the number
of subdomains. -/
theorem GetSubdomainId_eq_spec (nx ny nz i j k : Int) (hprod : nx * ny * nz ≤ 2147483647)
    (hi : 0 ≤ i ∧ i < nx) (hj : 0 ≤ j ∧ j < ny) (hk : 0 ≤ k ∧ k < nz) :
    GetSubdomainId [nx, ny, nz] [i, j, k] = specSubdomainId [nx, ny, nz] [i, j, k] ∧
      0 ≤ specSubdomainId [nx, ny, nz] [i, j, k] ∧
      specSubdomainId [nx, ny, nz] [i, j, k] < nx * ny * nz := by
  have hx : 0 < nx := lt_of_le_of_lt hi.1 hi.2
  have hy : 0 < ny := lt_of_le_of_lt hj.1 hj.2
  have hkny : 0 ≤ k * ny := mul_nonneg hk.1 hy.le
  have hknyx : 0 ≤ k * ny * nx := mul_nonneg hkny hx.le
  have hjnx : 0 ≤ j * nx := mul_nonneg hj.1 hx.le
  have hk1 : k * ny ≤ (nz - 1) * ny := mul_le_mul_of_nonneg_right (by linarith) hy.le
  have hk2 : k * ny * nx ≤ (nz - 1) * ny * nx := mul_le_mul_of_nonneg_right hk1 hx.le
  have hk3 : k * ny ≤ k * ny * nx := by nlinarith
  have hj1 : j * nx ≤ (ny - 1) * nx := mul_le_mul_of_nonneg_right (by linarith) hx.le
  have e1 : (nz - 1) * ny * nx = nx * ny * nz - nx * ny := by ring
  have e2 : (ny - 1) * nx = nx * ny - nx := by ring
  have w1 : wrap32 (k * ny) = k * ny := wrap32_of_range _ (by linarith) (by linarith)
  have w2 : wrap32 (k * ny * nx) = k * ny * nx :=
    wrap32_of_range _ (by linarith) (by linarith)
  have w3 : wrap32 (j * nx) = j * nx := wrap32_of_range _ (by linarith) (by linarith)
  have w4 : wrap32 (k * ny * nx + j * nx) = k * ny * nx + j * nx :=
    wrap32_of_range _ (by linarith) (by linarith)
  have w5 : wrap32 (k * ny * nx + j * nx + i) = k * ny * nx + j * nx + i :=
    wrap32_of_range _ (by linarith) (by linarith)
  have hlen : ¬ ([i, j, k].length = 2) := by simp
  simp only [GetSubdomainId, specSubdomainId, aget, List.getD_cons_zero,
    List.getD_cons_succ, if_neg hlen, w1, w2, w3, w4, w5]
  exact ⟨trivial, by linarith, by linarith⟩

/-- Division with remainder behind `GetSubdomainijk`: when the number of subdomains fits
in an `int`, for an id below that number the call is defined, the three components are
in range and `GetSubdomainId` recombines them to the id. -/
theorem GetSubdomainijk_spec (nx ny nz id : Int) (hx : 0 < nx) (hy : 0 < ny) (hz : 0 < nz)
    (hprod : nx * ny * nz ≤ 2147483647) (h0 : 0 ≤ id) (h1 : id < nx * ny * nz) :
    ∃ i j k : Int, GetSubdomainijk id [nx, ny, nz] = some [i, j, k] ∧
      (0 ≤ i ∧ i < nx) ∧ (0 ≤ j ∧ j < ny) ∧ (0 ≤ k ∧ k < nz) ∧
      GetSubdomainId [nx, ny, nz] [i, j, k] = id := by
  obtain ⟨i, j, k, hijk, hi, hj, hk, hid⟩ := specSubdomainijk_spec nx ny nz id hx hy h0 h1
  refine ⟨i, j, k, ?_, hi, hj, hk, ?_⟩
  · rw [GetSubdomainijk_eq_spec nx ny nz id hx hy hz hprod h0 h1, hijk]
  · rw [(GetSubdomainId_eq_spec nx ny nz i j k hprod hi hj hk).1, ← hijk]
    exact hid

/-- Round trip of `GetSubdomainijk` after `GetSubdomainId` on a three-component
coordinate inside a grid whose number of subdomains fits in an `int`. -/
theorem GetSubdomainijk_of_valid (nx ny nz i j k : Int) (hprod : nx * ny * nz ≤ 2147483647)
    (hi : 0 ≤ i ∧ i < nx) (hj : 0 ≤ j ∧ j < ny) (hk : 0 ≤ k ∧ k < nz) :
    GetSubdomainijk (GetSubdomainId [nx, ny, nz] [i, j, k]) [nx, ny, nz]
      = some [i, j, k] := by
  have hx : 0 < nx := lt_of_le_of_lt hi.1 hi.2
  have hy : 0 < ny := lt_of_le_of_lt hj.1 hj.2
  have hz : 0 < nz := lt_of_le_of_lt hk.1 hk.2
  obtain ⟨e, e0, e1⟩ := GetSubdomainId_eq_spec nx ny nz i j k hprod hi hj hk
  rw [e, GetSubdomainijk_eq_spec nx ny nz _ hx hy hz hprod e0 e1,
    specSubdomainijk_of_valid nx ny nz i j k hi hj hk.1]

/-- Counterexample to C1 as stated: in the grid 46341 x 46341 x 1 the product
`nxyz[0]*nxyz[1] = 2147488281` does not fit in an `int` and is held as `-2147479015`.
The id `2147479015` satisfies `0 ≤ id < nxyz[0]*nxyz[1]*nxyz[2]`, but `GetSubdomainijk`
returns the coordinate `(0,0,-1)`, which is outside the grid. -/
theorem GetSubdomainijk_outside_grid :
    ((0 : Int) < 46341 ∧ (0 : Int) < 1) ∧
    ((0 : Int) ≤ 2147479015 ∧ (2147479015 : Int) < 46341 * 46341 * 1) ∧
    GetSubdomainijk 2147479015 [46341, 46341, 1] = some [0, 0, -1] ∧
    ¬ ∃ i j k : Int, GetSubdomainijk 2147479015 [46341, 46341, 1] = some [i, j, k] ∧
      (0 ≤ i ∧ i < 46341) ∧ (0 ≤ j ∧ j < 46341) ∧ (0 ≤ k ∧ k < 1) := by
  have h : GetSubdomainijk 2147479015 [46341, 46341, 1] = some [0, 0, -1] := by decide
  refine ⟨by decide, by decide, h, ?_⟩
  rintro ⟨i, j, k, hijk, -, -, hk, -⟩
  rw [h] at hijk
  simp only [Option.some.injEq, List.cons.injEq, and_true] at hijk
  omega

/-- C1 (amended): for a grid shape with three positive entries whose product
`nxyz[0]*nxyz[1]*nxyz[2]` is at most `INT_MAX = 2147483647`, and an id with
`0 ≤ id < nxyz[0]*nxyz[1]*nxyz[2]`, `GetSubdomainijk` returns a coordinate `(i,j,k)`
inside the grid, and `GetSubdomainId` maps that coordinate back to `id`. -/
theorem GetSubdomainId_GetSubdomainijk (nx ny nz id : Int)
    (hx : 0 < nx) (hy : 0 < ny) (hz : 0 < nz) (hprod : nx * ny * nz ≤ 2147483647)
    (h0 : 0 ≤ id) (h1 : id < nx * ny * nz) :
    ∃ i j k : Int, GetSubdomainijk id [nx, ny, nz] = some [i, j, k] ∧
      (0 ≤ i ∧ i < nx) ∧ (0 ≤ j ∧ j < ny) ∧ (0 ≤ k ∧ k < nz) ∧
      GetSubdomainId [nx, ny, nz] [i, j, k] = id := by
  exact GetSubdomainijk_spec nx ny nz id hx hy hz hprod h0 h1

/-- Witness of C1 (amended): id 17 in a 2 x 3 x 4 grid. -/
theorem GetSubdomainId_GetSubdomainijk_witness :
    ∃ i j k : Int, GetSubdomainijk 17 [2, 3, 4] = some [i, j, k] ∧
      (0 ≤ i ∧ i < 2) ∧ (0 ≤ j ∧ j < 3) ∧ (0 ≤ k ∧ k < 4) ∧
      GetSubdomainId [2, 3, 4] [i, j, k] = 17 :=
  GetSubdomainId_GetSubdomainijk 2 3 4 17 (by decide) (by decide) (by decide)
    (by decide) (by decide) (by decide)

/-- Counterexample to C2 as stated: in the grid 65536 x 65536 x 2 the coordinate
`(0,0,1)` is inside the grid, but `GetSubdomainId` returns `0` for it (the exact value
`4294967296` does not fit in an `int`), which is also the id of `(0,0,0)`; and
`GetSubdomainijk` applied to that id divides by `nxyz[0]*nxyz[1]`, which is held as `0`,
and returns nothing. -/
theorem GetSubdomainId_not_injective :
    ((0 : Int) < 65536 ∧ (0 : Int) < 2) ∧ ((0 : Int) ≤ 1 ∧ (1 : Int) < 2) ∧
    GetSubdomainId [65536, 65536, 2] [0, 0, 1] = 0 ∧
    GetSubdomainId [65536, 65536, 2] [0, 0, 0] = 0 ∧
    GetSubdomainijk (GetSubdomainId [65536, 65536, 2] [0, 0, 1]) [65536, 65536, 2] = none ∧
    GetSubdomainijk (GetSubdomainId [65536, 65536, 2] [0, 0, 1]) [65536, 65536, 2]
      ≠ some [0, 0, 1] ∧
    ([0, 0, 1] : List Int) ≠ [0, 0, 0] := by
  decide

/-- C2 (amended): for a grid shape with three positive entries whose product
`nxyz[0]*nxyz[1]*nxyz[2]` is at most `INT_MAX = 2147483647`, and a three-component
coordinate `(i,j,k)` inside the grid, `GetSubdomainijk` applied to
`GetSubdomainId(nxyz,(i,j,k))` returns `(i,j,k)`; hence two coordinates inside the grid
with the same id are equal. -/
theorem GetSubdomainijk_GetSubdomainId (nx ny nz i j k : Int)
    (hx : 0 < nx) (hy : 0 < ny) (hz : 0 < nz) (hprod : nx * ny * nz ≤ 2147483647)
    (hi : 0 ≤ i ∧ i < nx) (hj : 0 ≤ j ∧ j < ny) (hk : 0 ≤ k ∧ k < nz) :
    GetSubdomainijk (GetSubdomainId [nx, ny, nz] [i, j, k]) [nx, ny, nz]
      = some [i, j, k] ∧
    ∀ i2 j2 k2 : Int, (0 ≤ i2 ∧ i2 < nx) → (0 ≤ j2 ∧ j2 < ny) → (0 ≤ k2 ∧ k2 < nz) →
      GetSubdomainId [nx, ny, nz] [i, j, k] = GetSubdomainId [nx, ny, nz] [i2, j2, k2] →
      [i, j, k] = [i2, j2, k2] := by
  refine ⟨GetSubdomainijk_of_valid nx ny nz i j k hprod hi hj hk, ?_⟩
  intro i2 j2 k2 hi2 hj2 hk2 hid
  have h1 := GetSubdomainijk_of_valid nx ny nz i j k hprod hi hj hk
  have h2 := GetSubdomainijk_of_valid nx ny nz i2 j2 k2 hprod hi2 hj2 hk2
  rw [hid, h2] at h1
  exact (Option.some.inj h1).symm

/-- Witness of C2 (amended): coordinate (1,2,3) in a 2 x 3 x 4 grid. -/
theorem GetSubdomainijk_GetSubdomainId_witness :
    GetSubdomainijk (GetSubdomainId [2, 3, 4] [1, 2, 3]) [2, 3, 4] = some [1, 2, 3] ∧
    ∀ i2 j2 k2 : Int, (0 ≤ i2 ∧ i2 < 2) → (0 ≤ j2 ∧ j2 < 3) → (0 ≤ k2 ∧ k2 < 4) →
      GetSubdomainId [2, 3, 4] [1, 2, 3] = GetSubdomainId [2, 3, 4] [i2, j2, k2] →
      [1, 2, 3] = [i2, j2, k2] :=
  GetSubdomainijk_GetSubdomainId 2 3 4 1 2 3 (by decide) (by decide) (by decide)
    (by decide) (by decide) (by decide) (by decide)

/-- C3: `GetDirectionijk` maps every id `d` in `0..26` to a direction with components in
`{-1,0,1}` that `GetDirectionId` maps back to `d`; and `GetDirectionId` maps every
three-component direction `(di,dj,dk)` with components in `{-1,0,1}` to
`(dk+1)*9+(dj+1)*3+(di+1)`, which lies in `0..26` and which `GetDirectionijk` maps back
to `(di,dj,dk)`. -/
theorem GetDirectionId_GetDirectionijk_inverse :
    (∀ d : Int, 0 ≤ d → d ≤ 26 →
      (∃ di dj dk : Int, GetDirectionijk d = [di, dj, dk] ∧
        (di = -1 ∨ di = 0 ∨ di = 1) ∧ (dj = -1 ∨ dj = 0 ∨ dj = 1) ∧
        (dk = -1 ∨ dk = 0 ∨ dk = 1)) ∧
      GetDirectionId (GetDirectionijk d) = d) ∧
    (∀ di dj dk : Int, (di = -1 ∨ di = 0 ∨ di = 1) → (dj = -1 ∨ dj = 0 ∨ dj = 1) →
      (dk = -1 ∨ dk = 0 ∨ dk = 1) →
      GetDirectionId [di, dj, dk] = (dk + 1) * 9 + (dj + 1) * 3 + (di + 1) ∧
      (0 ≤ GetDirectionId [di, dj, dk] ∧ GetDirectionId [di, dj, dk] ≤ 26) ∧
      GetDirectionijk (GetDirectionId [di, dj, dk]) = [di, dj, dk]) := by
  constructor
  · intro d h0 h1
    interval_cases d <;> exact ⟨⟨_, _, _, rfl, by decide, by decide, by decide⟩, by decide⟩
  · intro di dj dk hi hj hk
    rcases hi with rfl | rfl | rfl <;> rcases hj with rfl | rfl | rfl <;>
      rcases hk with rfl | rfl | rfl <;> decide

/-- Witness of C3: id 5 and direction (1,0,-1). -/
theorem GetDirectionId_GetDirectionijk_inverse_witness :
    ((∃ di dj dk : Int, GetDirectionijk 5 = [di, dj, dk] ∧
        (di = -1 ∨ di = 0 ∨ di = 1) ∧ (dj = -1 ∨ dj = 0 ∨ dj = 1) ∧
        (dk = -1 ∨ dk = 0 ∨ dk = 1)) ∧
      GetDirectionId (GetDirectionijk 5) = 5) ∧
    (GetDirectionId [1, 0, -1] = ((-1 : Int) + 1) * 9 + (0 + 1) * 3 + (1 + 1) ∧
      (0 ≤ GetDirectionId [1, 0, -1] ∧ GetDirectionId [1, 0, -1] ≤ 26) ∧
      GetDirectionijk (GetDirectionId [1, 0, -1]) = [1, 0, -1]) :=
  ⟨GetDirectionId_GetDirectionijk_inverse.1 5 (by decide) (by decide),
    GetDirectionId_GetDirectionijk_inverse.2 1 0 (-1) (by decide) (by decide) (by decide)⟩

/-! ### Counted loops and `int`-indexed access -/

theorem forLoop_zero {σ : Type} (body : Nat → σ → Option σ) (s : σ) :
    forLoop 0 body s = some s := rfl

theorem forLoop_succ {σ : Type} (n : Nat) (body : Nat → σ → Option σ) (s : σ) :
    forLoop (n + 1) body s = (forLoop n body s).bind (body n) := by
  simp only [forLoop, List.range_succ, List.foldlM_append, List.foldlM_cons, List.foldlM_nil,
    Option.bind_eq_bind, Option.pure_def]
  cases List.foldlM (fun s i => body i s) s (List.range n) with
  | none => rfl
  | some t => simp

/-- Two loop bodies that agree on the indices below `n` give the same loop. -/
theorem forLoop_congr {σ : Type} (n : Nat) (b1 b2 : Nat → σ → Option σ)
    (h : ∀ i, i < n → ∀ s, b1 i s = b2 i s) (s : σ) :
    forLoop n b1 s = forLoop n b2 s := by
  induction n with
  | zero => rfl
  | succ n ih =>
    rw [forLoop_succ, forLoop_succ, ih (fun i hi => h i (Nat.lt_succ_of_lt hi))]
    cases forLoop n b2 s with
    | none => rfl
    | some t => exact h n (Nat.lt_succ_self n) t

/-- A counted loop that reads entry `i` of a list at step `i` is a fold over the list. -/
theorem forLoop_list {σ β : Type} (l : List β) (f : β → σ → Option σ) (s : σ) :
    forLoop l.length (fun i s => (l[i]?).bind (fun a => f a s)) s =
      l.foldlM (fun s a => f a s) s := by
  induction l using List.reverseRecOn with
  | nil => rfl
  | append_singleton l a ih =>
    rw [List.length_append, List.length_singleton, forLoop_succ, List.foldlM_append, ← ih]
    have hc : forLoop l.length (fun i s => ((l ++ [a])[i]?).bind (fun a => f a s)) s =
        forLoop l.length (fun i s => (l[i]?).bind (fun a => f a s)) s := by
      apply forLoop_congr
      intro i hi t
      rw [List.getElem?_append_left hi]
    rw [hc]
    cases forLoop l.length (fun i s => (l[i]?).bind (fun a => f a s)) s with
    | none => rfl
    | some t => simp

theorem getI?_eq_some {α : Type} (a : List α) (i : Int) (v : α) :
    getI? a i = some v ↔ 0 ≤ i ∧ a[i.toNat]? = some v := by
  unfold getI?
  split <;> simp [*]

theorem getI?_natCast {α : Type} (a : List α) (n : Nat) : getI? a (n : Int) = a[n]? := by
  simp [getI?]

theorem getI?_of_inRange {α : Type} (a : List α) (i : Int) (h0 : 0 ≤ i)
    (h1 : i < (a.length : Int)) : ∃ v, getI? a i = some v := by
  have hlt : i.toNat < a.length := (Int.toNat_lt h0).2 h1
  exact ⟨a[i.toNat], by simp [getI?, h0, List.getElem?_eq_getElem hlt]⟩

theorem setI?_eq_some {α : Type} (a : List α) (i : Int) (v : α) (b : List α) :
    setI? a i v = some b ↔ (0 ≤ i ∧ i.toNat < a.length) ∧ b = a.set i.toNat v := by
  unfold setI?
  split
  · simp [*, eq_comm]
  · simp [*]

theorem setI?_of_inRange {α : Type} (a : List α) (i : Int) (v : α) (h0 : 0 ≤ i)
    (h1 : i < (a.length : Int)) : setI? a i v = some (a.set i.toNat v) := by
  have hlt : i.toNat < a.length := (Int.toNat_lt h0).2 h1
  simp [setI?, h0, hlt]

/-- After `a[i] = v`, an `int` index `k` reads `v` at `i` and the old value elsewhere. -/
theorem getI?_set {α : Type} (a : List α) (i k : Int) (v : α) (h0 : 0 ≤ i)
    (h1 : i < (a.length : Int)) :
    getI? (a.set i.toNat v) k = if k = i then some v else getI? a k := by
  have hlt : i.toNat < a.length := (Int.toNat_lt h0).2 h1
  by_cases hk : k = i
  · subst hk
    simp [getI?, h0, List.getElem?_set_self hlt]
  · simp only [hk, if_false]
    unfold getI?
    split
    · rename_i hk0
      have hne : i.toNat ≠ k.toNat := by
        intro h
        apply hk
        rw [← Int.toNat_of_nonneg hk0, ← Int.toNat_of_nonneg h0, h]
      rw [List.getElem?_set_ne hne]
    · rfl

theorem getElem?_zip_bind {β γ δ : Type} (l1 : List β) (l2 : List γ) (i : Nat)
    (F : β → γ → Option δ) :
    ((l1.zip l2)[i]?).bind (fun p => F p.1 p.2) =
      (l1[i]?).bind (fun j => (l2[i]?).bind (fun k => F j k)) := by
  rw [List.zip, List.getElem?_zipWith]
  cases l1[i]? <;> cases l2[i]? <;> rfl

/-! ### The branches of `TransferToNeighbor` as folds -/

/-- The same-rank loop as a fold over the pairs `(tdofs0[i], tdofs1[i])`. -/
theorem sameRankBranch_eq_foldlM {α : Type} [Zero α] (n1 : Nat) (tdofs0 tdofs1 : List Int)
    (x0 : List α) (hlen : tdofs0.length = tdofs1.length) :
    sameRankBranch n1 tdofs0 tdofs1 x0 =
      (tdofs0.zip tdofs1).foldlM
        (fun x1 p => (getI? x0 p.1).bind (fun v => setI? x1 p.2 v))
        (List.replicate n1 (0 : α)) := by
  have hz : tdofs0.length = (tdofs0.zip tdofs1).length := by simp [hlen]
  rw [← forLoop_list (tdofs0.zip tdofs1)
    (fun p x1 => (getI? x0 p.1).bind (fun v => setI? x1 p.2 v)), ← hz]
  unfold sameRankBranch
  apply forLoop_congr
  intro i _ s
  rw [getElem?_zip_bind tdofs0 tdofs1 i (fun j k => (getI? x0 j).bind (fun v => setI? s k v))]
  rfl

/-- The scatter loop of `SetSubVector` as a fold over the pairs `(dofs[i], elemvect[i])`. -/
theorem SetSubVector_eq_foldlM {α : Type} (x : List α) (dofs : List Int) (elemvect : List α)
    (hlen : elemvect.length = dofs.length) :
    SetSubVector x dofs elemvect =
      (dofs.zip elemvect).foldlM (fun x p => setI? x p.1 p.2) x := by
  have hz : dofs.length = (dofs.zip elemvect).length := by simp [hlen]
  rw [← forLoop_list (dofs.zip elemvect) (fun p x => setI? x p.1 p.2), ← hz]
  unfold SetSubVector
  apply forLoop_congr
  intro i _ s
  rw [getElem?_zip_bind dofs elemvect i (fun k v => setI? s k v)]
  rfl

theorem GetSubVector_nil {α : Type} (x : List α) : GetSubVector x [] = some [] := by
  simp only [GetSubVector, List.mapM_nil, Option.pure_def]

theorem GetSubVector_cons {α : Type} (x : List α) (j : Int) (t : List Int) :
    GetSubVector x (j :: t) =
      (getI? x j).bind (fun v => (GetSubVector x t).bind (fun y => some (v :: y))) := by
  simp only [GetSubVector, List.mapM_cons, Option.bind_eq_bind, Option.pure_def]

/-- The routine `GetSubVector` returns as many entries as there are indices. -/
theorem GetSubVector_length {α : Type} (x : List α) (dofs : List Int) (y : List α)
    (h : GetSubVector x dofs = some y) : y.length = dofs.length := by
  induction dofs generalizing y with
  | nil =>
    rw [GetSubVector_nil] at h
    simp [← Option.some.inj h]
  | cons j t ih =>
    rw [GetSubVector_cons] at h
    cases hj : getI? x j with
    | none => simp [hj] at h
    | some v =>
      cases ht : GetSubVector x t with
      | none => simp [hj, ht] at h
      | some y2 =>
        simp only [hj, ht, Option.some_bind, Option.some.injEq] at h
        subst h
        simp [ih y2 ht]

/-- Packing with `GetSubVector` and scattering with a fold is the pairwise copy. -/
theorem scatter_gather_eq {α : Type} (x0 : List α) (tdofs0 tdofs1 : List Int)
    (hlen : tdofs0.length = tdofs1.length) (x1 : List α) :
    (GetSubVector x0 tdofs0).bind
        (fun y => (tdofs1.zip y).foldlM (fun x p => setI? x p.1 p.2) x1) =
      (tdofs0.zip tdofs1).foldlM
        (fun x1 p => (getI? x0 p.1).bind (fun v => setI? x1 p.2 v)) x1 := by
  induction tdofs0 generalizing tdofs1 x1 with
  | nil =>
    cases tdofs1 with
    | nil => simp [GetSubVector_nil]
    | cons k t1 => simp at hlen
  | cons j t0 ih =>
    cases tdofs1 with
    | nil => simp at hlen
    | cons k t1 =>
      have hlen2 : t0.length = t1.length := by simpa using hlen
      rw [GetSubVector_cons]
      simp only [List.zip_cons_cons, List.foldlM_cons, Option.bind_eq_bind]
      cases hj : getI? x0 j with
      | none => simp
      | some v =>
        simp only [Option.some_bind]
        cases hs : setI? x1 k v with
        | none =>
          cases GetSubVector x0 t0 <;> simp [hs]
        | some x1a =>
          simp only [Option.some_bind]
          rw [← ih t1 hlen2 x1a]
          cases GetSubVector x0 t0 <;> simp [hs]

/-- The pairwise copy `x1[tdofs1[i]] = x0[tdofs0[i]]` with all indices in range:
it runs to the end, keeps the size of `x1`, leaves the entries outside `tdofs1` alone
and, when `tdofs1` has no repeated entry, ends with `x1[tdofs1[i]] = x0[tdofs0[i]]`. -/
theorem copy_fold_spec {α : Type} (x0 : List α) (tdofs0 tdofs1 : List Int)
    (hlen : tdofs0.length = tdofs1.length) (x1 : List α)
    (h0 : ∀ j ∈ tdofs0, 0 ≤ j ∧ j < (x0.length : Int))
    (h1 : ∀ k ∈ tdofs1, 0 ≤ k ∧ k < (x1.length : Int)) :
    ∃ r, (tdofs0.zip tdofs1).foldlM
          (fun x1 p => (getI? x0 p.1).bind (fun v => setI? x1 p.2 v)) x1 = some r ∧
      r.length = x1.length ∧
      (∀ k : Int, k ∉ tdofs1 → getI? r k = getI? x1 k) ∧
      (tdofs1.Nodup → ∀ (i : Nat) (j k : Int), tdofs0[i]? = some j → tdofs1[i]? = some k →
        ∃ v, getI? x0 j = some v ∧ getI? r k = some v) := by
  induction tdofs0 generalizing tdofs1 x1 with
  | nil =>
    cases tdofs1 with
    | nil => exact ⟨x1, rfl, rfl, fun _ _ => rfl, fun _ i j k hj _ => by simp at hj⟩
    | cons k t1 => simp at hlen
  | cons j t0 ih =>
    cases tdofs1 with
    | nil => simp at hlen
    | cons k t1 =>
      have hlen2 : t0.length = t1.length := by simpa using hlen
      obtain ⟨hj0, hj1⟩ := h0 j (List.mem_cons_self _ _)
      obtain ⟨hk0, hk1⟩ := h1 k (List.mem_cons_self _ _)
      obtain ⟨v, hv⟩ := getI?_of_inRange x0 j hj0 hj1
      have hset := setI?_of_inRange x1 k v hk0 hk1
      have hlenA : (x1.set k.toNat v).length = x1.length := List.length_set _ _ _
      obtain ⟨r, hr, hrl, hout, hpos⟩ := ih t1 hlen2 (x1.set k.toNat v)
        (fun j2 hj2 => h0 j2 (List.mem_cons_of_mem _ hj2))
        (fun k2 hk2 => by rw [hlenA]; exact h1 k2 (List.mem_cons_of_mem _ hk2))
      refine ⟨r, ?_, by rw [hrl, hlenA], ?_, ?_⟩
      · simp only [List.zip_cons_cons, List.foldlM_cons, hv, Option.some_bind, hset,
          Option.bind_eq_bind]
        exact hr
      · intro k2 hk2
        have hne : k2 ≠ k := fun h => hk2 (h ▸ List.mem_cons_self _ _)
        have hnt : k2 ∉ t1 := fun h => hk2 (List.mem_cons_of_mem _ h)
        rw [hout k2 hnt, getI?_set x1 k k2 v hk0 hk1, if_neg hne]
      · intro hnd i j2 k2 hj2 hk2
        obtain ⟨hkt, hnd2⟩ := List.nodup_cons.1 hnd
        cases i with
        | zero =>
          simp only [List.getElem?_cons_zero, Option.some.injEq] at hj2 hk2
          subst hj2
          subst hk2
          refine ⟨v, hv, ?_⟩
          rw [hout _ hkt, getI?_set x1 _ _ v hk0 hk1, if_pos rfl]
        | succ i =>
          simp only [List.getElem?_cons_succ] at hj2 hk2
          exact hpos hnd2 i j2 k2 hj2 hk2

/-- The same-rank branch with all indices in range. -/
theorem sameRankBranch_spec {α : Type} [Zero α] (n1 : Nat) (tdofs0 tdofs1 : List Int)
    (x0 : List α) (hlen : tdofs0.length = tdofs1.length)
    (h0 : ∀ j ∈ tdofs0, 0 ≤ j ∧ j < (x0.length : Int))
    (h1 : ∀ k ∈ tdofs1, 0 ≤ k ∧ k < (n1 : Int)) :
    ∃ r, sameRankBranch n1 tdofs0 tdofs1 x0 = some r ∧ r.length = n1 ∧
      (∀ k : Int, k ∉ tdofs1 → 0 ≤ k → k < (n1 : Int) → getI? r k = some 0) ∧
      (tdofs1.Nodup → ∀ (i : Nat) (j k : Int), tdofs0[i]? = some j → tdofs1[i]? = some k →
        ∃ v, getI? x0 j = some v ∧ getI? r k = some v) := by
  obtain ⟨r, hr, hrl, hout, hpos⟩ := copy_fold_spec x0 tdofs0 tdofs1 hlen
    (List.replicate n1 (0 : α)) h0 (by simpa using h1)
  refine ⟨r, ?_, by simpa using hrl, ?_, hpos⟩
  · rw [sameRankBranch_eq_foldlM n1 tdofs0 tdofs1 x0 hlen]
    exact hr
  · intro k hk hk0 hk1
    rw [hout k hk]
    have hlt : k.toNat < n1 := (Int.toNat_lt hk0).2 hk1
    simp [getI?, hk0, List.getElem?_replicate, hlt]

/-- The same-rank case of `TransferToNeighbor`: when the calling rank owns `i0` and the
neighbour `i1`, the lists have equal length and the indices are in range, the call
does the local copy. -/
theorem TransferToNeighbor_sameRank {K α : Type} [Zero α] (M : DofMaps K) (i0 i1 : Int)
    (direction0 : List Int) (x0 x1 incoming : List α) (tdofs0 tdofs1 : List Int)
    (hi1 : neighborId M i0 direction0 = some i1)
    (hr0 : getI? M.subdomain_rank i0 = some M.myid)
    (hr1 : getI? M.subdomain_rank i1 = some M.myid)
    (hT0 : OvlpTDofsAt M i0 (GetDirectionId direction0) = some tdofs0)
    (hT1 : OvlpTDofsAt M i1
      (GetDirectionId (oppositeDirection M.dim direction0)) = some tdofs1)
    (hlen : tdofs0.length = tdofs1.length)
    (h0 : ∀ j ∈ tdofs0, 0 ≤ j ∧ j < (x0.length : Int))
    (h1 : ∀ k ∈ tdofs1, 0 ≤ k ∧ k < (M.TrueVSize i1 : Int)) :
    ∃ r, TransferToNeighbor M i0 direction0 x0 x1 incoming = some (r, Exchange.copied) ∧
      r.length = M.TrueVSize i1 ∧
      (∀ k : Int, k ∉ tdofs1 → 0 ≤ k → k < (M.TrueVSize i1 : Int) →
        getI? r k = some 0) ∧
      (tdofs1.Nodup → ∀ (i : Nat) (j k : Int), tdofs0[i]? = some j → tdofs1[i]? = some k →
        ∃ v, getI? x0 j = some v ∧ getI? r k = some v) := by
  obtain ⟨r, hr, hrest⟩ := sameRankBranch_spec (M.TrueVSize i1)
    tdofs0 tdofs1 x0 hlen h0 h1
  refine ⟨r, ?_, hrest⟩
  simp [TransferToNeighbor, hi1, hr0, hr1, hT0, hT1, hr]

/-- C5: same-rank case of `TransferToNeighbor`.  When `i1` is the neighbour id that the
call computes from `i0` and `direction0`, the calling rank owns `i0` and `i1`, the
source list `T0 = OvlpTDofs[i0][id(direction0)]` and the destination
list `T1 = OvlpTDofs[i1][id(direction1)]` have equal length, `T1` has no repeated entry
and the lists hold true-dof indices of their subdomains (indices of `x0`, respectively
below the true-vector size of `i1`), the call returns by the local copy an `x1` of
length `TrueVSize(i1)` with `x1[T1[i]] = x0[T0[i]]` at every position `i`, and with
every entry whose index is not in `T1` equal to `0`. -/
theorem TransferToNeighbor_sameRank_copy {K α : Type} [Zero α] (M : DofMaps K)
    (i0 i1 : Int) (direction0 : List Int) (x0 x1 incoming : List α) (T0 T1 : List Int)
    (hi1 : neighborId M i0 direction0 = some i1)
    (hr0 : getI? M.subdomain_rank i0 = some M.myid)
    (hr1 : getI? M.subdomain_rank i1 = some M.myid)
    (hT0 : OvlpTDofsAt M i0 (GetDirectionId direction0) = some T0)
    (hT1 : OvlpTDofsAt M i1
      (GetDirectionId (oppositeDirection M.dim direction0)) = some T1)
    (hlen : T0.length = T1.length) (hnd : T1.Nodup)
    (h0 : ∀ j ∈ T0, 0 ≤ j ∧ j < (x0.length : Int))
    (h1 : ∀ k ∈ T1, 0 ≤ k ∧ k < (M.TrueVSize i1 : Int)) :
    ∃ r, TransferToNeighbor M i0 direction0 x0 x1 incoming = some (r, Exchange.copied) ∧
      r.length = M.TrueVSize i1 ∧
      (∀ (i : Nat) (j k : Int), T0[i]? = some j → T1[i]? = some k →
        ∃ v, getI? x0 j = some v ∧ getI? r k = some v) ∧
      (∀ k : Int, k ∉ T1 → 0 ≤ k → k < (M.TrueVSize i1 : Int) →
        getI? r k = some 0) := by
  obtain ⟨r, hr, hrl, hout, hpos⟩ := TransferToNeighbor_sameRank M i0 i1 direction0 x0 x1
    incoming T0 T1 hi1 hr0 hr1 hT0 hT1 hlen h0 h1
  exact ⟨r, hr, hrl, hpos hnd, hout⟩

/-- Witness of C5: subdomain 0 of `exampleMaps` sends to its right neighbour. -/
theorem TransferToNeighbor_sameRank_copy_witness :
    ∃ r, TransferToNeighbor exampleMaps 0 [1, 0, -1] exampleVector [] [] =
        some (r, Exchange.copied) ∧
      r.length = exampleMaps.TrueVSize 1 ∧
      (∀ (i : Nat) (j k : Int), [3, 4, 5][i]? = some j → [0, 1, 2][i]? = some k →
        ∃ v, getI? exampleVector j = some v ∧ getI? r k = some v) ∧
      (∀ k : Int, k ∉ [0, 1, 2] → 0 ≤ k →
        k < (exampleMaps.TrueVSize 1 : Int) →
        getI? r k = some 0) :=
  TransferToNeighbor_sameRank_copy exampleMaps 0 1 [1, 0, -1] exampleVector [] []
    [3, 4, 5] [0, 1, 2] (by decide) (by decide) (by decide) (by decide) (by decide)
    (by decide) (by decide) (by decide) (by decide)

/-- C6: cross-rank exchange equals same-rank exchange.  For equal-length overlap lists
`T0` (source) and `T1` (destination) and every `x0`, the vector that the receiving
branch builds from the buffer that the sending branch packs, delivered unchanged, is
the `x1` of the same-rank branch; and when the indices are in range both are defined:
the buffer has `|T0|` entries and the two vectors are the same list. -/
theorem crossRank_eq_sameRank {α : Type} [Zero α] (n1 : Nat) (T0 T1 : List Int)
    (x0 : List α) (hlen : T0.length = T1.length) :
    (sendBranch T0 x0).bind (fun y0 => recvBranch n1 T1 y0) = sameRankBranch n1 T0 T1 x0 ∧
    ((∀ j ∈ T0, 0 ≤ j ∧ j < (x0.length : Int)) → (∀ k ∈ T1, 0 ≤ k ∧ k < (n1 : Int)) →
      ∃ y0 r, sendBranch T0 x0 = some y0 ∧ y0.length = T0.length ∧
        recvBranch n1 T1 y0 = some r ∧ sameRankBranch n1 T0 T1 x0 = some r) := by
  have key : (sendBranch T0 x0).bind (fun y0 => recvBranch n1 T1 y0) =
      sameRankBranch n1 T0 T1 x0 := by
    rw [sameRankBranch_eq_foldlM n1 T0 T1 x0 hlen,
      ← scatter_gather_eq x0 T0 T1 hlen (List.replicate n1 (0 : α))]
    unfold sendBranch
    cases hy : GetSubVector x0 T0 with
    | none => rfl
    | some y =>
      have hyl : y.length = T1.length := by rw [GetSubVector_length x0 T0 y hy, hlen]
      simp only [Option.some_bind, recvBranch, hyl, if_true]
      exact SetSubVector_eq_foldlM _ T1 y hyl
  refine ⟨key, ?_⟩
  intro h0 h1
  obtain ⟨r, hr, _⟩ := sameRankBranch_spec n1 T0 T1 x0 hlen h0 h1
  rw [hr] at key
  cases hy : sendBranch T0 x0 with
  | none => simp [hy] at key
  | some y0 =>
    rw [hy] at key
    exact ⟨y0, r, rfl, GetSubVector_length x0 T0 y0 hy, key, hr⟩

/-- Witness of C6: the lists and the vector of `exampleMaps`. -/
theorem crossRank_eq_sameRank_witness :
    (sendBranch [3, 4, 5] exampleVector).bind (fun y0 => recvBranch 10 [0, 1, 2] y0) =
      sameRankBranch 10 [3, 4, 5] [0, 1, 2] exampleVector ∧
    ((∀ j ∈ [3, 4, 5], 0 ≤ j ∧ j < (exampleVector.length : Int)) →
      (∀ k ∈ [0, 1, 2], 0 ≤ k ∧ k < ((10 : Nat) : Int)) →
      ∃ y0 r, sendBranch [3, 4, 5] exampleVector = some y0 ∧ y0.length = [3, 4, 5].length ∧
        recvBranch 10 [0, 1, 2] y0 = some r ∧
        sameRankBranch 10 [3, 4, 5] [0, 1, 2] exampleVector = some r) :=
  crossRank_eq_sameRank 10 [3, 4, 5] [0, 1, 2] exampleVector (by decide)

/-! ### The round trip through `TransferToNeighbor` -/

/-- Only the first three entries of the flag arrays are read. -/
theorem AddElementDirIds_flags (dim : Nat) (neg pos : List Bool) :
    AddElementDirIds dim neg pos =
      AddElementDirIds dim [neg.getD 0 false, neg.getD 1 false, neg.getD 2 false]
        [pos.getD 0 false, pos.getD 1 false, pos.getD 2 false] := rfl

/-- In two dimensions the ids lie in `0..8` and differ from `4`. -/
theorem AddElementDirIds_range_two :
    ∀ n0 n1 n2 p0 p1 p2 : Bool, ∀ D ∈ AddElementDirIds 2 [n0, n1, n2] [p0, p1, p2],
      0 ≤ D ∧ D < 9 ∧ D ≠ 4 := by
  decide

/-- In three dimensions the ids lie in `0..26` and differ from `13`. -/
theorem AddElementDirIds_range_three :
    ∀ n0 n1 n2 p0 p1 p2 : Bool, ∀ D ∈ AddElementDirIds 3 [n0, n1, n2] [p0, p1, p2],
      0 ≤ D ∧ D < 27 ∧ D ≠ 13 := by
  decide

/-- The ids of an element that is near no face with a neighbour: none. -/
theorem AddElementDirIds_noFlags :
    AddElementDirIds 2 [false, false, false] [false, false, false] = [] ∧
    AddElementDirIds 3 [false, false, false] [false, false, false] = [] := by
  decide

/-- The ids of an element near exactly the three low faces in three dimensions: the
ids of the seven directions in `{-1,0}^3` other than zero. -/
theorem AddElementDirIds_lowCorner :
    AddElementDirIds 3 [true, true, true] [false, false, false] = [0, 1, 3, 4, 9, 10, 12] := by
  decide

/-- In two dimensions the id of a direction `(δ0, δ1, -1)` with `(δ0, δ1) ≠ (0, 0)` is
reached once when the flags allow the direction and not at all otherwise. -/
theorem AddElementDirIds_count_two :
    ∀ n0 n1 n2 p0 p1 p2 : Bool, ∀ δ0 ∈ [(-1 : Int), 0, 1], ∀ δ1 ∈ [(-1 : Int), 0, 1],
      ¬ (δ0 = 0 ∧ δ1 = 0) →
      (AddElementDirIds 2 [n0, n1, n2] [p0, p1, p2]).count (GetDirectionId [δ0, δ1, -1]) =
        if (δ0 = -1 → n0 = true) ∧ (δ0 = 1 → p0 = true) ∧
            (δ1 = -1 → n1 = true) ∧ (δ1 = 1 → p1 = true) then 1 else 0 := by
  decide

/-- In three dimensions the id of a non-zero direction is reached once when the flags
allow the direction and not at all otherwise. -/
theorem AddElementDirIds_count_three :
    ∀ n0 n1 n2 p0 p1 p2 : Bool, ∀ δ0 ∈ [(-1 : Int), 0, 1], ∀ δ1 ∈ [(-1 : Int), 0, 1],
      ∀ δ2 ∈ [(-1 : Int), 0, 1], ¬ (δ0 = 0 ∧ δ1 = 0 ∧ δ2 = 0) →
      (AddElementDirIds 3 [n0, n1, n2] [p0, p1, p2]).count (GetDirectionId [δ0, δ1, δ2]) =
        if (δ0 = -1 → n0 = true) ∧ (δ0 = 1 → p0 = true) ∧
            (δ1 = -1 → n1 = true) ∧ (δ1 = 1 → p1 = true) ∧
            (δ2 = -1 → n2 = true) ∧ (δ2 = 1 → p2 = true) then 1 else 0 := by
  decide

/-- In two dimensions every id reached decodes to a direction whose first two
components are allowed by the flags. -/
theorem AddElementDirIds_dir_two :
    ∀ n0 n1 n2 p0 p1 p2 : Bool, ∀ D ∈ AddElementDirIds 2 [n0, n1, n2] [p0, p1, p2],
      (aget (GetDirectionijk D) 0 = -1 ∧ n0 = true ∨ aget (GetDirectionijk D) 0 = 0 ∨
        aget (GetDirectionijk D) 0 = 1 ∧ p0 = true) ∧
      (aget (GetDirectionijk D) 1 = -1 ∧ n1 = true ∨ aget (GetDirectionijk D) 1 = 0 ∨
        aget (GetDirectionijk D) 1 = 1 ∧ p1 = true) := by
  decide

/-- In three dimensions every id reached decodes to a direction whose components are
allowed by the flags. -/
theorem AddElementDirIds_dir_three :
    ∀ n0 n1 n2 p0 p1 p2 : Bool, ∀ D ∈ AddElementDirIds 3 [n0, n1, n2] [p0, p1, p2],
      (aget (GetDirectionijk D) 0 = -1 ∧ n0 = true ∨ aget (GetDirectionijk D) 0 = 0 ∨
        aget (GetDirectionijk D) 0 = 1 ∧ p0 = true) ∧
      (aget (GetDirectionijk D) 1 = -1 ∧ n1 = true ∨ aget (GetDirectionijk D) 1 = 0 ∨
        aget (GetDirectionijk D) 1 = 1 ∧ p1 = true) ∧
      (aget (GetDirectionijk D) 2 = -1 ∧ n2 = true ∨ aget (GetDirectionijk D) 2 = 0 ∨
        aget (GetDirectionijk D) 2 = 1 ∧ p2 = true) := by
  decide

/-! ### The bucket table built by `ComputeOvlpElems` -/

/-- Appending `iel` to the buckets listed in `ids` (all within the table) succeeds and
extends bucket `D` by as many copies of `iel` as `D` occurs in `ids`. -/
theorem appendAt_fold_spec (ids : List Int) (iel : Int) (buckets : List (List Int))
    (h : ∀ D ∈ ids, 0 ≤ D ∧ D < (buckets.length : Int)) :
    ∃ b, ids.foldlM (fun b D => appendAt b D iel) buckets = some b ∧
      b.length = buckets.length ∧
      ∀ D : Int, getI? b D =
        (getI? buckets D).map (fun row => row ++ List.replicate (ids.count D) iel) := by
  induction ids generalizing buckets with
  | nil =>
    refine ⟨buckets, rfl, rfl, fun D => ?_⟩
    cases getI? buckets D <;> simp
  | cons D0 t ih =>
    obtain ⟨h0, h1⟩ := h D0 (List.mem_cons_self _ _)
    obtain ⟨row, hrow⟩ := getI?_of_inRange buckets D0 h0 h1
    have hset := setI?_of_inRange buckets D0 (row ++ [iel]) h0 h1
    have hlenA : (buckets.set D0.toNat (row ++ [iel])).length = buckets.length :=
      List.length_set _ _ _
    obtain ⟨b, hb, hbl, hbD⟩ := ih (buckets.set D0.toNat (row ++ [iel]))
      (fun D hD => by rw [hlenA]; exact h D (List.mem_cons_of_mem _ hD))
    refine ⟨b, ?_, by rw [hbl, hlenA], fun D => ?_⟩
    · simp only [List.foldlM_cons, appendAt, hrow, hset, Option.bind_eq_bind,
        Option.some_bind]
      exact hb
    · rw [hbD D, getI?_set buckets D0 D _ h0 h1]
      by_cases hD : D = D0
      · subst hD
        simp [hrow, List.replicate_succ]
      · have hne : ¬ (D0 = D) := fun h => hD h.symm
        simp [hD, List.count_cons, hne]

/-- Every id reached lies within the `3^dim` buckets allocated for the subdomain. -/
theorem AddElementDirIds_lt_pow (dim : Nat) (hdim : dim = 2 ∨ dim = 3) (neg pos : List Bool) :
    ∀ D ∈ AddElementDirIds dim neg pos, 0 ≤ D ∧ D < ((3 ^ dim : Nat) : Int) := by
  intro D hD
  rw [AddElementDirIds_flags] at hD
  rcases hdim with h | h
  · subst h
    obtain ⟨h0, h1, _⟩ := AddElementDirIds_range_two _ _ _ _ _ _ D hD
    exact ⟨h0, by norm_num; exact h1⟩
  · subst h
    obtain ⟨h0, h1, _⟩ := AddElementDirIds_range_three _ _ _ _ _ _ D hD
    exact ⟨h0, by norm_num; exact h1⟩

/-- Division of `int`s is defined when the divisor is neither `0` nor `-1`. -/
theorem div32_of_ne (a b : Int) (hb : b ≠ 0) (ha : a ≠ -2147483648) :
    div32 a b = some (Int.tdiv a b) := by
  unfold div32
  rw [if_neg]
  omega

/-- The call `GetSubdomainijk(ip, nxyz, ijk)` is defined for `ip ≥ 0` as soon as it does
not divide by zero: `nxyz[0]` is positive and the product `nxyz[0]*nxyz[1]`, as the
`int` that holds it, is not zero. -/
theorem GetSubdomainijk_defined (ip : Int) (nxyz : List Int) (h0 : 0 ≤ ip)
    (hnx : 0 < aget nxyz 0) (hnxy : wrap32 (aget nxyz 0 * aget nxyz 1) ≠ 0) :
    ∃ ijk, GetSubdomainijk ip nxyz = some ijk := by
  have hip : ip ≠ -2147483648 := by omega
  simp only [GetSubdomainijk, div32_of_ne ip _ hnxy hip, div32_of_pos _ _ hnx,
    mod32_of_pos _ _ hnx, Option.bind_eq_bind, Option.some_bind, Option.pure_def]
  exact ⟨_, rfl⟩

/-- The buckets of an owned subdomain after its element loop: bucket `D` lists the
elements in increasing order, each as often as `D` occurs among its direction ids. -/
theorem subdomainOvlpElems_spec {K : Type} [LinearOrderedCommRing K] (M : DofMaps K)
    (hdim : M.dim = 2 ∨ M.dim = 3) (hnx : 0 < aget M.nxyz 0)
    (hnxy : wrap32 (aget M.nxyz 0 * aget M.nxyz 1) ≠ 0) (l : Nat) :
    ∃ b, subdomainOvlpElems M l = some b ∧ b.length = 3 ^ M.dim ∧
      ∀ D : Int, 0 ≤ D → D < ((3 ^ M.dim : Nat) : Int) →
        getI? b D = some ((List.range (M.subdomain_mesh l).NE).flatMap
          (fun e => List.replicate ((elementDirIds M l e).count D) (e : Int))) := by
  obtain ⟨ijk, hijk⟩ := GetSubdomainijk_defined (l : Int) M.nxyz (Int.natCast_nonneg l)
    hnx hnxy
  have hel : ∀ e : Nat, elementDirIds M l e = AddElementDirIds M.dim
      (negFlags M ijk (M.subdomain_mesh l) e) (posFlags M ijk (M.subdomain_mesh l) e) := by
    intro e
    simp only [elementDirIds, subdomainijk, hijk, Option.getD_some]
  unfold subdomainOvlpElems
  simp only [hijk, Option.bind_eq_bind, Option.some_bind, hel]
  generalize (M.subdomain_mesh l).NE = n
  induction n with
  | zero =>
    refine ⟨List.replicate (3 ^ M.dim) [], rfl, by simp, fun D h0 h1 => ?_⟩
    have hlt : D.toNat < 3 ^ M.dim := (Int.toNat_lt h0).2 h1
    simp [getI?, h0, List.getElem?_replicate, hlt]
  | succ n ih =>
    obtain ⟨b, hb, hbl, hbD⟩ := ih
    obtain ⟨b2, hb2, hb2l, hb2D⟩ := appendAt_fold_spec (AddElementDirIds M.dim
        (negFlags M ijk (M.subdomain_mesh l) n) (posFlags M ijk (M.subdomain_mesh l) n))
      (n : Int) b
      (fun D hD => by rw [hbl]; exact AddElementDirIds_lt_pow M.dim hdim _ _ D hD)
    refine ⟨b2, ?_, by rw [hb2l, hbl], fun D h0 h1 => ?_⟩
    · rw [forLoop_succ, hb, Option.some_bind]
      exact hb2
    · rw [hb2D D, hbD D h0 h1]
      simp [List.range_succ, List.flatMap_append]

/-- Running a fallible function over a list succeeds when it succeeds on every entry,
and the results are listed position by position. -/
theorem mapM_option_spec {β γ : Type} (f : β → Option γ) (l : List β)
    (h : ∀ a ∈ l, ∃ b, f a = some b) :
    ∃ r, l.mapM f = some r ∧ r.length = l.length ∧
      ∀ (i : Nat) (a : β), l[i]? = some a → ∃ b, f a = some b ∧ r[i]? = some b := by
  induction l with
  | nil =>
    exact ⟨[], by simp only [List.mapM_nil, Option.pure_def], rfl,
      fun i a ha => by simp at ha⟩
  | cons a t ih =>
    obtain ⟨b, hb⟩ := h a (List.mem_cons_self _ _)
    obtain ⟨r, hr, hrl, hri⟩ := ih (fun a2 ha2 => h a2 (List.mem_cons_of_mem _ ha2))
    refine ⟨b :: r, ?_, by simp [hrl], fun i a2 ha2 => ?_⟩
    · simp only [List.mapM_cons, hb, hr, Option.bind_eq_bind, Option.some_bind,
        Option.pure_def]
    · cases i with
      | zero =>
        simp only [List.getElem?_cons_zero, Option.some.injEq] at ha2
        subst ha2
        exact ⟨b, hb, by simp⟩
      | succ i =>
        simp only [List.getElem?_cons_succ] at ha2 ⊢
        exact hri i a2 ha2

/-- The table that `ComputeOvlpElems` builds: defined as soon as `dim` is 2 or 3,
`subdomain_rank` covers the subdomains and `GetSubdomainijk` does not divide by zero;
the entry of an owned subdomain holds its `3^dim` buckets. -/
theorem ComputeOvlpElems_spec {K : Type} [LinearOrderedCommRing K] (M : DofMaps K)
    (hdim : M.dim = 2 ∨ M.dim = 3) (hranks : M.nrsubdomains ≤ M.subdomain_rank.length)
    (hnx : 0 < aget M.nxyz 0) (hnxy : wrap32 (aget M.nxyz 0 * aget M.nxyz 1) ≠ 0) :
    ∃ E, ComputeOvlpElems M = some E ∧ E.length = M.nrsubdomains ∧
      ∀ l : Nat, l < M.nrsubdomains → getI? M.subdomain_rank (l : Int) = some M.myid →
        ∃ b, E[l]? = some b ∧ b.length = 3 ^ M.dim ∧
          ∀ D : Int, 0 ≤ D → D < ((3 ^ M.dim : Nat) : Int) →
            getI? b D = some ((List.range (M.subdomain_mesh l).NE).flatMap
              (fun e => List.replicate ((elementDirIds M l e).count D) (e : Int))) := by
  have hall : ∀ l ∈ List.range M.nrsubdomains, ∃ b,
      (do
        let rank ← getI? M.subdomain_rank (l : Int)
        if M.myid = rank then subdomainOvlpElems M l else pure []) = some b := by
    intro l hl
    have hl2 : l < M.subdomain_rank.length := lt_of_lt_of_le (List.mem_range.1 hl) hranks
    rw [getI?_natCast, List.getElem?_eq_getElem hl2]
    by_cases hown : M.myid = M.subdomain_rank[l]
    · obtain ⟨b, hb, _⟩ := subdomainOvlpElems_spec M hdim hnx hnxy l
      exact ⟨b, by simp [hown, hb]⟩
    · exact ⟨[], by simp [hown]⟩
  obtain ⟨E, hE, hEl, hEi⟩ := mapM_option_spec _ _ hall
  refine ⟨E, hE, by simpa using hEl, fun l hl hown => ?_⟩
  obtain ⟨b, hb, hbE⟩ := hEi l l (List.getElem?_range hl)
  obtain ⟨b2, hb2, hb2l, hb2D⟩ := subdomainOvlpElems_spec M hdim hnx hnxy l
  rw [hown] at hb
  simp only [Option.bind_eq_bind, Option.some_bind, if_true] at hb
  rw [hb2] at hb
  obtain rfl := Option.some.inj hb
  exact ⟨b2, hbE, hb2l, hb2D⟩

/-- Entry `a` of the computed array `neg` is set exactly when `a < dim` and the element
is near the low face with a lower neighbour. -/
theorem negFlags_getD {K : Type} [LinearOrderedCommRing K] (M : DofMaps K) (l e a : Nat) :
    (negFlags M (subdomainijk M l) (M.subdomain_mesh l) e).getD a false = true ↔
      a < M.dim ∧ nearLow M l e a := by
  have hthr : M.MeshSize * (2 * (M.OvlpNlayers : K)) =
      2 * (M.OvlpNlayers : K) * M.MeshSize := by
    ring
  unfold negFlags nearLow
  by_cases ha : a < M.dim
  · simp [List.getD, List.getElem?_map, List.getElem?_range ha, ha, hthr]
  · have hnone : (List.range M.dim)[a]? = none := by
      simp [List.getElem?_eq_none_iff]
      omega
    simp [List.getD, List.getElem?_map, hnone, ha]

/-- Entry `a` of the computed array `pos` is set exactly when `a < dim` and the element
is near the high face with a higher neighbour. -/
theorem posFlags_getD {K : Type} [LinearOrderedCommRing K] (M : DofMaps K) (l e a : Nat) :
    (posFlags M (subdomainijk M l) (M.subdomain_mesh l) e).getD a false = true ↔
      a < M.dim ∧ nearHigh M l e a := by
  have hthr : M.MeshSize * (2 * (M.OvlpNlayers : K)) =
      2 * (M.OvlpNlayers : K) * M.MeshSize := by
    ring
  unfold posFlags nearHigh
  by_cases ha : a < M.dim
  · simp [List.getD, List.getElem?_map, List.getElem?_range ha, ha, hthr]
  · have hnone : (List.range M.dim)[a]? = none := by
      simp [List.getElem?_eq_none_iff]
      omega
    simp [List.getD, List.getElem?_map, hnone, ha]

/-- An element occurs in the listing of a bucket as often as the bucket id occurs
among its direction ids. -/
theorem count_bucket_listing (ids : Nat → List Int) (D : Int) (n e : Nat) :
    ((List.range n).flatMap (fun e2 => List.replicate ((ids e2).count D) (e2 : Int))).count
        (e : Int) = if e < n then (ids e).count D else 0 := by
  induction n with
  | zero => simp
  | succ n ih =>
    rw [List.range_succ, List.flatMap_append, List.count_append, ih]
    simp only [List.flatMap_cons, List.flatMap_nil, List.append_nil, List.count_replicate,
      beq_iff_eq, Nat.cast_inj]
    by_cases h1 : e < n
    · have h2 : ¬ (n = e) := by omega
      have h3 : e < n + 1 := by omega
      simp [h1, h2, h3]
    · by_cases h2 : n = e
      · subst h2
        simp
      · have h3 : ¬ (e < n + 1) := by omega
        simp [h1, h2, h3]

/-- The id of a direction with components in `{-1,0,1}` lies in `0..26`, and in `0..8`
when the third component is `-1`. -/
theorem GetDirectionId_range (δ0 δ1 δ2 : Int) (h0 : δ0 = -1 ∨ δ0 = 0 ∨ δ0 = 1)
    (h1 : δ1 = -1 ∨ δ1 = 0 ∨ δ1 = 1) (h2 : δ2 = -1 ∨ δ2 = 0 ∨ δ2 = 1) :
    0 ≤ GetDirectionId [δ0, δ1, δ2] ∧ GetDirectionId [δ0, δ1, δ2] < 27 ∧
      (δ2 = -1 → GetDirectionId [δ0, δ1, δ2] < 9) := by
  rcases h0 with rfl | rfl | rfl <;> rcases h1 with rfl | rfl | rfl <;>
    rcases h2 with rfl | rfl | rfl <;> decide

theorem mem_dirValues (δ : Int) (h : δ = -1 ∨ δ = 0 ∨ δ = 1) : δ ∈ [(-1 : Int), 0, 1] := by
  rcases h with rfl | rfl | rfl <;> decide

/-- On an axis below `dim`, the computed flags allow a direction component exactly when
the element is near the corresponding face with a neighbour behind it. -/
theorem flagsAllow_iff {K : Type} [LinearOrderedCommRing K] (M : DofMaps K) (l e a : Nat)
    (ha : a < M.dim) (δ : Int) :
    ((δ = -1 → (negFlags M (subdomainijk M l) (M.subdomain_mesh l) e).getD a
          false = true) ∧
      (δ = 1 → (posFlags M (subdomainijk M l) (M.subdomain_mesh l) e).getD a
          false = true)) ↔
      ((δ = -1 → nearLow M l e a) ∧ (δ = 1 → nearHigh M l e a)) := by
  rw [negFlags_getD, posFlags_getD]
  simp [ha]

/-- How often the id of a non-zero direction occurs among the direction ids of an
element: once when every axis allows the direction, never otherwise. -/
theorem elementDirIds_count {K : Type} [LinearOrderedCommRing K] (M : DofMaps K)
    (hdim : M.dim = 2 ∨ M.dim = 3) (l e : Nat) (δ0 δ1 δ2 : Int)
    (h0 : δ0 = -1 ∨ δ0 = 0 ∨ δ0 = 1) (h1 : δ1 = -1 ∨ δ1 = 0 ∨ δ1 = 1)
    (h2 : δ2 = -1 ∨ δ2 = 0 ∨ δ2 = 1) (h2d : M.dim = 2 → δ2 = -1)
    (hnz : ¬ (δ0 = 0 ∧ δ1 = 0 ∧ (M.dim = 3 → δ2 = 0))) :
    ((∀ a : Nat, a < M.dim → (aget [δ0, δ1, δ2] a = -1 → nearLow M l e a) ∧
        (aget [δ0, δ1, δ2] a = 1 → nearHigh M l e a)) →
      (elementDirIds M l e).count (GetDirectionId [δ0, δ1, δ2]) = 1) ∧
    (¬ (∀ a : Nat, a < M.dim → (aget [δ0, δ1, δ2] a = -1 → nearLow M l e a) ∧
        (aget [δ0, δ1, δ2] a = 1 → nearHigh M l e a)) →
      (elementDirIds M l e).count (GetDirectionId [δ0, δ1, δ2]) = 0) := by
  unfold elementDirIds
  simp only []
  rw [AddElementDirIds_flags]
  rcases hdim with h | h
  · have hδ2 := h2d h
    subst hδ2
    have hnz2 : ¬ (δ0 = 0 ∧ δ1 = 0) := fun hc => hnz ⟨hc.1, hc.2, fun h3 => by omega⟩
    have hcount := AddElementDirIds_count_two
      ((negFlags M (subdomainijk M l) (M.subdomain_mesh l) e).getD 0 false)
      ((negFlags M (subdomainijk M l) (M.subdomain_mesh l) e).getD 1 false)
      ((negFlags M (subdomainijk M l) (M.subdomain_mesh l) e).getD 2 false)
      ((posFlags M (subdomainijk M l) (M.subdomain_mesh l) e).getD 0 false)
      ((posFlags M (subdomainijk M l) (M.subdomain_mesh l) e).getD 1 false)
      ((posFlags M (subdomainijk M l) (M.subdomain_mesh l) e).getD 2 false)
      δ0 (mem_dirValues δ0 h0) δ1 (mem_dirValues δ1 h1) hnz2
    have hA0 := flagsAllow_iff M l e 0 (by omega) δ0
    have hA1 := flagsAllow_iff M l e 1 (by omega) δ1
    have hall : (∀ a : Nat, a < M.dim → (aget [δ0, δ1, -1] a = -1 → nearLow M l e a) ∧
        (aget [δ0, δ1, -1] a = 1 → nearHigh M l e a)) ↔
        ((δ0 = -1 → nearLow M l e 0) ∧ (δ0 = 1 → nearHigh M l e 0)) ∧
        ((δ1 = -1 → nearLow M l e 1) ∧ (δ1 = 1 → nearHigh M l e 1)) := by
      rw [h]
      constructor
      · intro hh
        exact ⟨hh 0 (by omega), hh 1 (by omega)⟩
      · rintro ⟨hh0, hh1⟩ a ha
        interval_cases a
        · exact hh0
        · exact hh1
    rw [hall, ← hA0, ← hA1, h, hcount]
    constructor
    · intro hh
      rw [if_pos ⟨hh.1.1, hh.1.2, hh.2.1, hh.2.2⟩]
    · intro hh
      rw [if_neg (fun hc => hh ⟨⟨hc.1, hc.2.1⟩, ⟨hc.2.2.1, hc.2.2.2⟩⟩)]
  · have hnz3 : ¬ (δ0 = 0 ∧ δ1 = 0 ∧ δ2 = 0) := fun hc => hnz ⟨hc.1, hc.2.1, fun _ => hc.2.2⟩
    have hcount := AddElementDirIds_count_three
      ((negFlags M (subdomainijk M l) (M.subdomain_mesh l) e).getD 0 false)
      ((negFlags M (subdomainijk M l) (M.subdomain_mesh l) e).getD 1 false)
      ((negFlags M (subdomainijk M l) (M.subdomain_mesh l) e).getD 2 false)
      ((posFlags M (subdomainijk M l) (M.subdomain_mesh l) e).getD 0 false)
      ((posFlags M (subdomainijk M l) (M.subdomain_mesh l) e).getD 1 false)
      ((posFlags M (subdomainijk M l) (M.subdomain_mesh l) e).getD 2 false)
      δ0 (mem_dirValues δ0 h0) δ1 (mem_dirValues δ1 h1) δ2 (mem_dirValues δ2 h2) hnz3
    have hA0 := flagsAllow_iff M l e 0 (by omega) δ0
    have hA1 := flagsAllow_iff M l e 1 (by omega) δ1
    have hA2 := flagsAllow_iff M l e 2 (by omega) δ2
    have hall : (∀ a : Nat, a < M.dim → (aget [δ0, δ1, δ2] a = -1 → nearLow M l e a) ∧
        (aget [δ0, δ1, δ2] a = 1 → nearHigh M l e a)) ↔
        ((δ0 = -1 → nearLow M l e 0) ∧ (δ0 = 1 → nearHigh M l e 0)) ∧
        ((δ1 = -1 → nearLow M l e 1) ∧ (δ1 = 1 → nearHigh M l e 1)) ∧
        ((δ2 = -1 → nearLow M l e 2) ∧ (δ2 = 1 → nearHigh M l e 2)) := by
      rw [h]
      constructor
      · intro hh
        exact ⟨hh 0 (by omega), hh 1 (by omega), hh 2 (by omega)⟩
      · rintro ⟨hh0, hh1, hh2⟩ a ha
        interval_cases a
        · exact hh0
        · exact hh1
        · exact hh2
    rw [hall, ← hA0, ← hA1, ← hA2, h, hcount]
    constructor
    · intro hh
      rw [if_pos ⟨hh.1.1, hh.1.2, hh.2.1.1, hh.2.1.2, hh.2.2.1, hh.2.2.2⟩]
    · intro hh
      rw [if_neg (fun hc => hh ⟨⟨hc.1, hc.2.1⟩, ⟨hc.2.2.1, hc.2.2.2.1⟩,
        ⟨hc.2.2.2.2.1, hc.2.2.2.2.2⟩⟩)]

/-- Membership in the listing of a bucket. -/
theorem mem_bucket_listing (ids : Nat → List Int) (D : Int) (n e : Nat) :
    (e : Int) ∈ (List.range n).flatMap
        (fun e2 => List.replicate ((ids e2).count D) (e2 : Int)) ↔
      e < n ∧ D ∈ ids e := by
  rw [← List.count_pos_iff, count_bucket_listing, ← List.count_pos_iff]
  by_cases h : e < n <;> simp [h]

/-- Every entry of the listing of a bucket is an element index below `n` that has the
bucket id among its direction ids. -/
theorem exists_of_mem_bucket_listing (ids : Nat → List Int) (D : Int) (n : Nat) (x : Int)
    (hx : x ∈ (List.range n).flatMap
      (fun e2 => List.replicate ((ids e2).count D) (e2 : Int))) :
    ∃ e : Nat, e < n ∧ D ∈ ids e := by
  obtain ⟨e, he, hxe⟩ := List.mem_flatMap.1 hx
  refine ⟨e, List.mem_range.1 he, ?_⟩
  have hpos : (ids e).count D ≠ 0 := by
    intro h0
    rw [h0] at hxe
    simp at hxe
  exact List.count_pos_iff.1 (Nat.pos_of_ne_zero hpos)

/-- C8: bucket membership.  When `GetSubdomainijk` does not divide by zero (`nxyz[0]`
is positive and the product `nxyz[0]*nxyz[1]`, as the `int` that holds it, is not
zero), `ComputeOvlpElems` returns a table in which, for every owned
subdomain `l` with grid coordinate `ijk`, every element `e` and every direction `delta` with components in
`{-1,0,1}` that is non-zero on the `dim` axes (third component `-1` when `dim == 2`),
the bucket `GetDirectionId(delta)` holds `e` exactly once if on every axis `a < dim`,
`delta[a] == -1` implies `ijk[a] > 0` and `c[a] < pmin[a] + 2*OvlpNlayers*h`, and
`delta[a] == +1` implies `ijk[a] < nxyz[a]-1` and `c[a] > pmax[a] - 2*OvlpNlayers*h`;
and does not hold `e` otherwise.  An element with no axis within `2*OvlpNlayers*h` of a
border is in no bucket, and in three dimensions an element near exactly the three low
faces, all with lower neighbours, is in exactly the seven buckets of the directions
in `{-1,0}^3` other than zero. -/
theorem ComputeOvlpElems_bucket_membership {K : Type} [LinearOrderedCommRing K]
    (M : DofMaps K) (hdim : M.dim = 2 ∨ M.dim = 3)
    (hranks : M.nrsubdomains ≤ M.subdomain_rank.length)
    (hnx : 0 < aget M.nxyz 0) (hnxy : wrap32 (aget M.nxyz 0 * aget M.nxyz 1) ≠ 0) :
    ∃ E, ComputeOvlpElems M = some E ∧
      ∀ l : Nat, l < M.nrsubdomains → getI? M.subdomain_rank (l : Int) = some M.myid →
        ∃ b, E[l]? = some b ∧ b.length = 3 ^ M.dim ∧
          (∀ e : Nat, e < (M.subdomain_mesh l).NE → ∀ δ0 δ1 δ2 : Int,
            (δ0 = -1 ∨ δ0 = 0 ∨ δ0 = 1) → (δ1 = -1 ∨ δ1 = 0 ∨ δ1 = 1) →
            (δ2 = -1 ∨ δ2 = 0 ∨ δ2 = 1) → (M.dim = 2 → δ2 = -1) →
            ¬ (δ0 = 0 ∧ δ1 = 0 ∧ (M.dim = 3 → δ2 = 0)) →
            ∃ bucket, getI? b (GetDirectionId [δ0, δ1, δ2]) = some bucket ∧
              ((∀ a : Nat, a < M.dim →
                  (aget [δ0, δ1, δ2] a = -1 → nearLow M l e a) ∧
                  (aget [δ0, δ1, δ2] a = 1 → nearHigh M l e a)) →
                bucket.count (e : Int) = 1) ∧
              (¬ (∀ a : Nat, a < M.dim →
                  (aget [δ0, δ1, δ2] a = -1 → nearLow M l e a) ∧
                  (aget [δ0, δ1, δ2] a = 1 → nearHigh M l e a)) →
                bucket.count (e : Int) = 0)) ∧
          (∀ e : Nat, e < (M.subdomain_mesh l).NE →
            (∀ a : Nat, a < M.dim →
              ¬ ((M.subdomain_mesh l).center e a <
                (M.subdomain_mesh l).pmin a + 2 * (M.OvlpNlayers : K) * M.MeshSize) ∧
              ¬ ((M.subdomain_mesh l).center e a >
                (M.subdomain_mesh l).pmax a - 2 * (M.OvlpNlayers : K) * M.MeshSize)) →
            ∀ (D : Int) (bucket : List Int), getI? b D = some bucket → (e : Int) ∉ bucket) ∧
          (M.dim = 3 → ∀ e : Nat, e < (M.subdomain_mesh l).NE →
            (∀ a : Nat, a < 3 → nearLow M l e a ∧
              ¬ ((M.subdomain_mesh l).center e a >
                (M.subdomain_mesh l).pmax a - 2 * (M.OvlpNlayers : K) * M.MeshSize)) →
            ∀ (D : Int) (bucket : List Int), getI? b D = some bucket →
              ((e : Int) ∈ bucket ↔
                ∃ δ0 δ1 δ2 : Int, (δ0 = -1 ∨ δ0 = 0) ∧ (δ1 = -1 ∨ δ1 = 0) ∧
                  (δ2 = -1 ∨ δ2 = 0) ∧ ¬ (δ0 = 0 ∧ δ1 = 0 ∧ δ2 = 0) ∧
                  D = GetDirectionId [δ0, δ1, δ2])) := by
  obtain ⟨E, hE, _, hspec⟩ := ComputeOvlpElems_spec M hdim hranks hnx hnxy
  refine ⟨E, hE, fun l hl hown => ?_⟩
  obtain ⟨b, hb, hbl, hbD⟩ := hspec l hl hown
  have hbucket : ∀ (D : Int) (bucket : List Int), getI? b D = some bucket →
      bucket = (List.range (M.subdomain_mesh l).NE).flatMap
        (fun e => List.replicate ((elementDirIds M l e).count D) (e : Int)) := by
    intro D bucket hDb
    obtain ⟨hD0, hDget⟩ := (getI?_eq_some b D bucket).1 hDb
    have hDlt : D.toNat < b.length := (List.getElem?_eq_some.1 hDget).1
    have hD1 : D < ((3 ^ M.dim : Nat) : Int) := by
      rw [← hbl]
      exact (Int.toNat_lt hD0).1 hDlt
    have := hbD D hD0 hD1
    rw [hDb] at this
    exact Option.some.inj this
  refine ⟨b, hb, hbl, ?_, ?_, ?_⟩
  · intro e he δ0 δ1 δ2 h0 h1 h2 h2d hnz
    obtain ⟨hr0, hr1, hr2⟩ := GetDirectionId_range δ0 δ1 δ2 h0 h1 h2
    have hlt : GetDirectionId [δ0, δ1, δ2] < ((3 ^ M.dim : Nat) : Int) := by
      rcases hdim with h | h
      · rw [h]
        have := hr2 (h2d h)
        norm_num
        exact this
      · rw [h]
        norm_num
        exact hr1
    refine ⟨_, hbD _ hr0 hlt, ?_⟩
    rw [count_bucket_listing, if_pos he]
    exact elementDirIds_count M hdim l e δ0 δ1 δ2 h0 h1 h2 h2d hnz
  · intro e he hfar D bucket hDb
    rw [hbucket D bucket hDb, mem_bucket_listing]
    rintro ⟨_, hmem⟩
    have hneg : ∀ a : Nat, (negFlags M (subdomainijk M l)
        (M.subdomain_mesh l) e).getD a false = false := by
      intro a
      rw [Bool.eq_false_iff]
      intro hc
      obtain ⟨ha, hnear⟩ := (negFlags_getD M l e a).1 hc
      exact (hfar a ha).1 hnear.2
    have hpos : ∀ a : Nat, (posFlags M (subdomainijk M l)
        (M.subdomain_mesh l) e).getD a false = false := by
      intro a
      rw [Bool.eq_false_iff]
      intro hc
      obtain ⟨ha, hnear⟩ := (posFlags_getD M l e a).1 hc
      exact (hfar a ha).2 hnear.2
    unfold elementDirIds at hmem
    simp only [] at hmem
    rw [AddElementDirIds_flags, hneg 0, hneg 1, hneg 2, hpos 0, hpos 1, hpos 2] at hmem
    rcases hdim with h | h
    · rw [h, AddElementDirIds_noFlags.1] at hmem
      simp at hmem
    · rw [h, AddElementDirIds_noFlags.2] at hmem
      simp at hmem
  · intro h3 e he hcorner D bucket hDb
    rw [hbucket D bucket hDb, mem_bucket_listing]
    have hneg : ∀ a : Nat, a < 3 → (negFlags M (subdomainijk M l)
        (M.subdomain_mesh l) e).getD a false = true := by
      intro a ha
      exact (negFlags_getD M l e a).2 ⟨by omega, (hcorner a ha).1⟩
    have hpos : ∀ a : Nat, a < 3 → (posFlags M (subdomainijk M l)
        (M.subdomain_mesh l) e).getD a false = false := by
      intro a ha
      rw [Bool.eq_false_iff]
      intro hc
      exact (hcorner a ha).2 ((posFlags_getD M l e a).1 hc).2.2
    have hids : elementDirIds M l e = [0, 1, 3, 4, 9, 10, 12] := by
      unfold elementDirIds
      simp only []
      rw [AddElementDirIds_flags, hneg 0 (by omega), hneg 1 (by omega), hneg 2 (by omega),
        hpos 0 (by omega), hpos 1 (by omega), hpos 2 (by omega), h3]
      exact AddElementDirIds_lowCorner
    rw [hids]
    constructor
    · rintro ⟨_, hD⟩
      simp only [List.mem_cons, List.mem_singleton, List.not_mem_nil, or_false] at hD
      rcases hD with rfl | rfl | rfl | rfl | rfl | rfl | rfl
      · exact ⟨-1, -1, -1, by decide⟩
      · exact ⟨0, -1, -1, by decide⟩
      · exact ⟨-1, 0, -1, by decide⟩
      · exact ⟨0, 0, -1, by decide⟩
      · exact ⟨-1, -1, 0, by decide⟩
      · exact ⟨0, -1, 0, by decide⟩
      · exact ⟨-1, 0, 0, by decide⟩
    · rintro ⟨δ0, δ1, δ2, h0, h1, h2, hnz, rfl⟩
      refine ⟨he, ?_⟩
      rcases h0 with rfl | rfl <;> rcases h1 with rfl | rfl <;> rcases h2 with rfl | rfl <;>
        first
          | decide
          | exact absurd ⟨rfl, rfl, rfl⟩ hnz

/-- Witness of C8: the 2 x 2 x 2 configuration `exampleMaps3`. -/
theorem ComputeOvlpElems_bucket_membership_witness :
    ∃ E, ComputeOvlpElems exampleMaps3 = some E ∧
      ∀ l : Nat, l < exampleMaps3.nrsubdomains → getI? exampleMaps3.subdomain_rank (l : Int) = some exampleMaps3.myid →
        ∃ b, E[l]? = some b ∧ b.length = 3 ^ exampleMaps3.dim ∧
          (∀ e : Nat, e < (exampleMaps3.subdomain_mesh l).NE → ∀ δ0 δ1 δ2 : Int,
            (δ0 = -1 ∨ δ0 = 0 ∨ δ0 = 1) → (δ1 = -1 ∨ δ1 = 0 ∨ δ1 = 1) →
            (δ2 = -1 ∨ δ2 = 0 ∨ δ2 = 1) → (exampleMaps3.dim = 2 → δ2 = -1) →
            ¬ (δ0 = 0 ∧ δ1 = 0 ∧ (exampleMaps3.dim = 3 → δ2 = 0)) →
            ∃ bucket, getI? b (GetDirectionId [δ0, δ1, δ2]) = some bucket ∧
              ((∀ a : Nat, a < exampleMaps3.dim →
                  (aget [δ0, δ1, δ2] a = -1 → nearLow exampleMaps3 l e a) ∧
                  (aget [δ0, δ1, δ2] a = 1 → nearHigh exampleMaps3 l e a)) →
                bucket.count (e : Int) = 1) ∧
              (¬ (∀ a : Nat, a < exampleMaps3.dim →
                  (aget [δ0, δ1, δ2] a = -1 → nearLow exampleMaps3 l e a) ∧
                  (aget [δ0, δ1, δ2] a = 1 → nearHigh exampleMaps3 l e a)) →
                bucket.count (e : Int) = 0)) ∧
          (∀ e : Nat, e < (exampleMaps3.subdomain_mesh l).NE →
            (∀ a : Nat, a < exampleMaps3.dim →
              ¬ ((exampleMaps3.subdomain_mesh l).center e a <
                (exampleMaps3.subdomain_mesh l).pmin a + 2 * exampleMaps3.OvlpNlayers * exampleMaps3.MeshSize) ∧
              ¬ ((exampleMaps3.subdomain_mesh l).center e a >
                (exampleMaps3.subdomain_mesh l).pmax a - 2 * exampleMaps3.OvlpNlayers * exampleMaps3.MeshSize)) →
            ∀ (D : Int) (bucket : List Int), getI? b D = some bucket → (e : Int) ∉ bucket) ∧
          (exampleMaps3.dim = 3 → ∀ e : Nat, e < (exampleMaps3.subdomain_mesh l).NE →
            (∀ a : Nat, a < 3 → nearLow exampleMaps3 l e a ∧
              ¬ ((exampleMaps3.subdomain_mesh l).center e a >
                (exampleMaps3.subdomain_mesh l).pmax a - 2 * exampleMaps3.OvlpNlayers * exampleMaps3.MeshSize)) →
            ∀ (D : Int) (bucket : List Int), getI? b D = some bucket →
              ((e : Int) ∈ bucket ↔
                ∃ δ0 δ1 δ2 : Int, (δ0 = -1 ∨ δ0 = 0) ∧ (δ1 = -1 ∨ δ1 = 0) ∧
                  (δ2 = -1 ∨ δ2 = 0) ∧ ¬ (δ0 = 0 ∧ δ1 = 0 ∧ δ2 = 0) ∧
                  D = GetDirectionId [δ0, δ1, δ2])) :=
  ComputeOvlpElems_bucket_membership exampleMaps3 (by decide) (by decide) (by decide)
    (by decide)

/-- On an axis where the flags allow the decoded direction component, the neighbour
coordinate stays inside the grid. -/
theorem neighbour_axis_inside {K : Type} [LinearOrderedCommRing K] (M : DofMaps K)
    (l e a : Nat) (δ : Int)
    (hijk : 0 ≤ aget (subdomainijk M l) a ∧
      aget (subdomainijk M l) a < aget M.nxyz a)
    (hδ : δ = -1 ∧ (negFlags M (subdomainijk M l) (M.subdomain_mesh l) e).getD a
          false = true ∨ δ = 0 ∨
      δ = 1 ∧ (posFlags M (subdomainijk M l) (M.subdomain_mesh l) e).getD a
          false = true) :
    0 ≤ aget (subdomainijk M l) a + δ ∧
      aget (subdomainijk M l) a + δ < aget M.nxyz a := by
  rcases hδ with ⟨rfl, hflag⟩ | rfl | ⟨rfl, hflag⟩
  · have hlow := ((negFlags_getD M l e a).1 hflag).2.1
    constructor <;> omega
  · simpa using hijk
  · have hhigh := ((posFlags_getD M l e a).1 hflag).2.1
    constructor <;> omega

/-- Counterexample to C9 as stated: `exampleOverflow3D` is a three-dimensional grid of
641 x 6700417 x 1 subdomains, whose number `2^32 + 1` does not fit in an `int`; the
calling rank owns the subdomains 0 and 1.  For `l = 1`, `GetSubdomainijk` divides by
`nxyz[0]*nxyz[1]`, which is held as `1`, and returns `ijk = (0,0,1)`.  The bucket
`D = 14` of the direction `(1,0,0)` is not empty after `ComputeOvlpElems`, and on the
axis `a = 2` the neighbour coordinate `ijk[2] + delta[2] = 1` is not below
`nxyz[2] = 1`. -/
theorem ComputeOvlpElems_neighbour_outside_grid :
    exampleOverflow3D.dim = 3 ∧ exampleOverflow3D.nxyz = [641, 6700417, 1] ∧
    (exampleOverflow3D.nrsubdomains : Int) ≤ 641 * 6700417 * 1 ∧
    getI? exampleOverflow3D.subdomain_rank 1 = some exampleOverflow3D.myid ∧
    GetSubdomainijk 1 exampleOverflow3D.nxyz = some [0, 0, 1] ∧
    GetDirectionijk 14 = [1, 0, 0] ∧
    ((ComputeOvlpElems exampleOverflow3D).bind
      (fun E => (E[1]?).bind (fun row => getI? row 14))) = some [1, 3, 5, 7] ∧
    ¬ (aget [0, 0, 1] 2 + aget (GetDirectionijk 14) 2 < aget exampleOverflow3D.nxyz 2) := by
  decide

/-- C9 (amended): global-boundary exclusion.  In a grid `nxyz` of positive entries whose
product `nxyz[0]*nxyz[1]*nxyz[2]` is at most `INT_MAX = 2147483647` and whose ids cover
the subdomains, `ComputeOvlpElems` returns a table in which, for every owned subdomain
`l` with coordinate `ijk = GetSubdomainijk(l)` and every bucket id `D` whose list
`OvlpElems[l][D]` is non-empty, the neighbour coordinate `ijk[a] + GetDirectionijk(D)[a]`
satisfies `0 <= ijk[a] + delta[a] < nxyz[a]` on every axis `a < dim`. -/
theorem ComputeOvlpElems_neighbour_exists {K : Type} [LinearOrderedCommRing K]
    (M : DofMaps K) (nx ny nz : Int) (hn : M.nxyz = [nx, ny, nz])
    (hx : 0 < nx) (hy : 0 < ny) (hz : 0 < nz) (hprod : nx * ny * nz ≤ 2147483647)
    (hdim : M.dim = 2 ∨ M.dim = 3)
    (hranks : M.nrsubdomains ≤ M.subdomain_rank.length)
    (hgrid : (M.nrsubdomains : Int) ≤ nx * ny * nz) :
    ∃ E, ComputeOvlpElems M = some E ∧
      ∀ l : Nat, l < M.nrsubdomains → getI? M.subdomain_rank (l : Int) = some M.myid →
        ∃ ijk, GetSubdomainijk (l : Int) M.nxyz = some ijk ∧
        ∀ (D : Int) (bucket : List Int),
          (E[l]?).bind (fun row => getI? row D) = some bucket → bucket ≠ [] →
          ∀ a : Nat, a < M.dim →
            0 ≤ aget ijk a + aget (GetDirectionijk D) a ∧
            aget ijk a + aget (GetDirectionijk D) a < aget M.nxyz a := by
  have hxy : 0 < nx * ny := mul_pos hx hy
  have hxyz : nx * ny ≤ nx * ny * nz := by nlinarith
  have hnx : 0 < aget M.nxyz 0 := by
    rw [hn]
    exact hx
  have hnxy : wrap32 (aget M.nxyz 0 * aget M.nxyz 1) ≠ 0 := by
    rw [hn]
    simp only [aget, List.getD_cons_zero, List.getD_cons_succ]
    rw [wrap32_of_range _ (by linarith) (by linarith)]
    exact hxy.ne'
  obtain ⟨E, hE, _, hspec⟩ := ComputeOvlpElems_spec M hdim hranks hnx hnxy
  refine ⟨E, hE, fun l hl hown => ?_⟩
  have hlgrid : ((l : Nat) : Int) < nx * ny * nz :=
    lt_of_lt_of_le (by exact_mod_cast hl) hgrid
  obtain ⟨i, j, k, hijk, hi, hj, hk, _⟩ :=
    GetSubdomainijk_spec nx ny nz (l : Int) hx hy hz hprod (by positivity) hlgrid
  have hsub : subdomainijk M l = [i, j, k] := by
    simp only [subdomainijk, hn, hijk, Option.getD_some]
  refine ⟨[i, j, k], by rw [hn, hijk], fun D bucket hDb hne a ha => ?_⟩
  obtain ⟨b, hb, hbl, hbD⟩ := hspec l hl hown
  rw [hb, Option.some_bind] at hDb
  obtain ⟨hD0, hDget⟩ := (getI?_eq_some b D bucket).1 hDb
  have hDlt : D.toNat < b.length := (List.getElem?_eq_some.1 hDget).1
  have hD1 : D < ((3 ^ M.dim : Nat) : Int) := by
    rw [← hbl]
    exact (Int.toNat_lt hD0).1 hDlt
  have hlist := hbD D hD0 hD1
  rw [hDb] at hlist
  have hbucket := Option.some.inj hlist
  obtain ⟨x, hxmem⟩ := List.exists_mem_of_ne_nil bucket hne
  rw [hbucket] at hxmem
  obtain ⟨e, _, hmem⟩ := exists_of_mem_bucket_listing _ D _ x hxmem
  unfold elementDirIds at hmem
  simp only [] at hmem
  rw [AddElementDirIds_flags] at hmem
  have hin : ∀ a : Nat, a < 3 → 0 ≤ aget (subdomainijk M l) a ∧
      aget (subdomainijk M l) a < aget M.nxyz a := by
    intro a ha3
    rw [hn, hsub]
    interval_cases a
    · simpa [aget] using hi
    · simpa [aget] using hj
    · simpa [aget] using hk
  rw [← hsub]
  rcases hdim with h | h
  · rw [h] at hmem ha
    obtain ⟨hd0, hd1⟩ := AddElementDirIds_dir_two _ _ _ _ _ _ D hmem
    interval_cases a
    · exact neighbour_axis_inside M l e 0 _ (hin 0 (by omega)) hd0
    · exact neighbour_axis_inside M l e 1 _ (hin 1 (by omega)) hd1
  · rw [h] at hmem ha
    obtain ⟨hd0, hd1, hd2⟩ := AddElementDirIds_dir_three _ _ _ _ _ _ D hmem
    interval_cases a
    · exact neighbour_axis_inside M l e 0 _ (hin 0 (by omega)) hd0
    · exact neighbour_axis_inside M l e 1 _ (hin 1 (by omega)) hd1
    · exact neighbour_axis_inside M l e 2 _ (hin 2 (by omega)) hd2

/-- Witness of C9 (amended): the 2 x 2 x 2 configuration `exampleMaps3`. -/
theorem ComputeOvlpElems_neighbour_exists_witness :
    ∃ E, ComputeOvlpElems exampleMaps3 = some E ∧
      ∀ l : Nat, l < exampleMaps3.nrsubdomains →
        getI? exampleMaps3.subdomain_rank (l : Int) = some exampleMaps3.myid →
        ∃ ijk, GetSubdomainijk (l : Int) exampleMaps3.nxyz = some ijk ∧
        ∀ (D : Int) (bucket : List Int),
          (E[l]?).bind (fun row => getI? row D) = some bucket → bucket ≠ [] →
          ∀ a : Nat, a < exampleMaps3.dim →
            0 ≤ aget ijk a + aget (GetDirectionijk D) a ∧
            aget ijk a + aget (GetDirectionijk D) a < aget exampleMaps3.nxyz a :=
  ComputeOvlpElems_neighbour_exists exampleMaps3 2 2 2 rfl (by decide) (by decide) (by decide)
    (by decide) (by decide) (by decide) (by decide)
/-! ### Deduplication in `ComputeOvlpTdofs` -/

theorem decodeDof_eq_specDecode (e : Int) : decodeDof e = specDecode e := by
  unfold decodeDof specDecode
  split
  · rfl
  · rename_i h
    rw [abs_of_neg (not_le.1 h)]

theorem mem_keepFirst (l : List Int) (x : Int) : x ∈ keepFirst l ↔ x ∈ l := by
  induction l with
  | nil => simp [keepFirst]
  | cons y t ih =>
    simp only [keepFirst, List.mem_cons, List.mem_filter, ih, decide_eq_true_eq]
    constructor
    · rintro (h | ⟨h, _⟩)
      · exact Or.inl h
      · exact Or.inr h
    · rintro (h | h)
      · exact Or.inl h
      · by_cases hxy : x = y
        · exact Or.inl hxy
        · exact Or.inr ⟨h, hxy⟩

theorem nodup_keepFirst (l : List Int) : (keepFirst l).Nodup := by
  induction l with
  | nil => simp [keepFirst]
  | cons y t ih =>
    simp only [keepFirst, List.nodup_cons, List.mem_filter, decide_eq_true_eq]
    exact ⟨fun h => h.2 rfl, ih.filter _⟩

/-- Scanning from the left and appending the entries not yet collected gives the
entries collected so far followed by the new first occurrences. -/
theorem scan_eq_keepFirst (ds acc : List Int) :
    ds.foldl (fun acc x => if x ∈ acc then acc else acc ++ [x]) acc =
      acc ++ (keepFirst ds).filter (fun y => decide (y ∉ acc)) := by
  induction ds generalizing acc with
  | nil => simp [keepFirst]
  | cons x xs ih =>
    rw [List.foldl_cons, ih]
    by_cases hx : x ∈ acc
    · simp only [hx, if_true, keepFirst, List.filter_cons, not_true_eq_false, decide_False,
        Bool.false_eq_true, if_false, List.filter_filter]
      congr 1
      apply List.filter_congr
      intro y _
      by_cases hy : y ∈ acc
      · simp [hy]
      · have hne : y ≠ x := fun h => hy (h ▸ hx)
        simp [hy, hne]
    · simp only [hx, if_false, keepFirst, List.filter_cons, not_false_eq_true, decide_True,
        if_true, List.filter_filter, List.append_assoc, List.singleton_append]
      congr 2
      apply List.filter_congr
      intro y _
      by_cases hy : y ∈ acc
      · simp [hy]
      · by_cases hyx : y = x
        · simp [hyx]
        · simp [hy, hyx]
/-- The loop over the dofs of one element as a fold over `ElemDofs`. -/
theorem markElementDofs_eq_foldlM (ElemDofs : List Int) (st : List Int × List Int) :
    markElementDofs ElemDofs st =
      ElemDofs.foldlM
        (fun st dof_ => (getI? st.2 (decodeDof dof_)).bind (fun marked =>
          if marked = 0 then
            (setI? st.2 (decodeDof dof_) 1).bind
              (fun marker => some (st.1 ++ [decodeDof dof_], marker))
          else some st)) st := by
  rw [← forLoop_list ElemDofs (fun dof_ st => (getI? st.2 (decodeDof dof_)).bind
    (fun marked =>
      if marked = 0 then
        (setI? st.2 (decodeDof dof_) 1).bind
          (fun marker => some (st.1 ++ [decodeDof dof_], marker))
      else some st))]
  rfl

/-- Marking the dofs of one element, all decoding into the marker array: the loop runs
to the end, `tdoflist` grows by the dofs not collected before, in the order in which
they are met, and `tdof_marker` stays in step with `tdoflist`. -/
theorem markElementDofs_spec (N : Nat) (ds acc marker : List Int)
    (hlen : marker.length = N)
    (hinv : ∀ k : Int, 0 ≤ k → k < (N : Int) →
      ∃ m, getI? marker k = some m ∧ (m = 0 ↔ k ∉ acc))
    (hr : ∀ x ∈ ds, 0 ≤ decodeDof x ∧ decodeDof x < (N : Int)) :
    ∃ marker2, markElementDofs ds (acc, marker) =
        some ((ds.map decodeDof).foldl (fun acc x => if x ∈ acc then acc else acc ++ [x]) acc,
          marker2) ∧
      marker2.length = N ∧
      ∀ k : Int, 0 ≤ k → k < (N : Int) → ∃ m, getI? marker2 k = some m ∧
        (m = 0 ↔ k ∉ (ds.map decodeDof).foldl
          (fun acc x => if x ∈ acc then acc else acc ++ [x]) acc) := by
  rw [markElementDofs_eq_foldlM]
  induction ds generalizing acc marker with
  | nil => exact ⟨marker, rfl, hlen, hinv⟩
  | cons x xs ih =>
    obtain ⟨hk0, hk1⟩ := hr x (List.mem_cons_self _ _)
    obtain ⟨m, hm, hmiff⟩ := hinv (decodeDof x) hk0 hk1
    have hr2 : ∀ y ∈ xs, 0 ≤ decodeDof y ∧ decodeDof y < (N : Int) :=
      fun y hy => hr y (List.mem_cons_of_mem _ hy)
    by_cases hm0 : m = 0
    · have hnot : decodeDof x ∉ acc := hmiff.1 hm0
      have hset := setI?_of_inRange marker (decodeDof x) 1 hk0 (by rw [hlen]; exact hk1)
      obtain ⟨marker2, h2, h2l, h2inv⟩ := ih (acc ++ [decodeDof x])
        (marker.set (decodeDof x).toNat 1) (by rw [List.length_set]; exact hlen)
        (fun k hk0b hk1b => by
          rw [getI?_set marker (decodeDof x) k 1 hk0 (by rw [hlen]; exact hk1)]
          by_cases hkx : k = decodeDof x
          · subst hkx
            exact ⟨1, by simp, by simp⟩
          · obtain ⟨m2, hm2, hm2iff⟩ := hinv k hk0b hk1b
            exact ⟨m2, by simp [hkx, hm2], by simp [hm2iff, hkx]⟩) hr2
      refine ⟨marker2, ?_, h2l, ?_⟩
      · simp only [List.foldlM_cons, hm, hm0, hset, Option.some_bind, if_true,
          Option.bind_eq_bind, List.map_cons, List.foldl_cons, hnot, if_false]
        exact h2
      · simpa only [List.map_cons, List.foldl_cons, hnot, if_false] using h2inv
    · have hin : decodeDof x ∈ acc := by
        by_contra hc
        exact hm0 (hmiff.2 hc)
      obtain ⟨marker2, h2, h2l, h2inv⟩ := ih acc marker hlen hinv hr2
      refine ⟨marker2, ?_, h2l, ?_⟩
      · simp only [List.foldlM_cons, hm, hm0, Option.some_bind, if_false,
          Option.bind_eq_bind, List.map_cons, List.foldl_cons, hin, if_true]
        exact h2
      · simpa only [List.map_cons, List.foldl_cons, hin, if_true] using h2inv

/-- The element loop of one bucket, with all dofs decoding into the marker array. -/
theorem bucket_fold_spec (N : Nat) (ElementDofs : Int → List Int) (Elems acc marker : List Int)
    (hlen : marker.length = N)
    (hinv : ∀ k : Int, 0 ≤ k → k < (N : Int) →
      ∃ m, getI? marker k = some m ∧ (m = 0 ↔ k ∉ acc))
    (hr : ∀ jel ∈ Elems, ∀ x ∈ ElementDofs jel, 0 ≤ decodeDof x ∧ decodeDof x < (N : Int)) :
    ∃ marker2, Elems.foldlM (fun st jel => markElementDofs (ElementDofs jel) st) (acc, marker) =
        some ((Elems.flatMap (fun jel => (ElementDofs jel).map decodeDof)).foldl
          (fun acc x => if x ∈ acc then acc else acc ++ [x]) acc, marker2) := by
  induction Elems generalizing acc marker with
  | nil => exact ⟨marker, rfl⟩
  | cons jel t ih =>
    obtain ⟨m1, h1, h1l, h1inv⟩ := markElementDofs_spec N (ElementDofs jel) acc marker hlen hinv
      (hr jel (List.mem_cons_self _ _))
    obtain ⟨m2, h2⟩ := ih _ m1 h1l h1inv (fun j hj => hr j (List.mem_cons_of_mem _ hj))
    refine ⟨m2, ?_⟩
    simp only [List.foldlM_cons, h1, Option.bind_eq_bind, Option.some_bind, List.flatMap_cons,
      List.foldl_append]
    exact h2

/-- The list assigned to `OvlpTDofs[l][d]`: the first occurrences of the decoded dofs
of the elements of the bucket. -/
theorem bucketTDofs_spec (N : Nat) (ElementDofs : Int → List Int) (Elems : List Int)
    (hr : ∀ jel ∈ Elems, ∀ x ∈ ElementDofs jel, 0 ≤ decodeDof x ∧ decodeDof x < (N : Int)) :
    bucketTDofs N ElementDofs Elems =
      some (keepFirst (Elems.flatMap (fun jel => (ElementDofs jel).map specDecode))) := by
  have hfold : forLoop Elems.length
      (fun iel st => (Elems[iel]?).bind (fun jel => markElementDofs (ElementDofs jel) st))
      (([] : List Int), List.replicate N (0 : Int)) =
      Elems.foldlM (fun st jel => markElementDofs (ElementDofs jel) st)
        (([] : List Int), List.replicate N (0 : Int)) :=
    forLoop_list Elems (fun jel st => markElementDofs (ElementDofs jel) st) _
  obtain ⟨m2, h2⟩ := bucket_fold_spec N ElementDofs Elems [] (List.replicate N 0)
    (by simp)
    (fun k hk0 hk1 => by
      have hlt : k.toNat < N := (Int.toNat_lt hk0).2 hk1
      exact ⟨0, by simp [getI?, hk0, List.getElem?_replicate, hlt], by simp⟩) hr
  have hdec : (fun jel => (ElementDofs jel).map decodeDof) =
      (fun jel => (ElementDofs jel).map specDecode) := by
    funext jel
    exact List.map_congr_left (fun x _ => decodeDof_eq_specDecode x)
  unfold bucketTDofs
  change (forLoop Elems.length
      (fun iel st => (Elems[iel]?).bind (fun jel => markElementDofs (ElementDofs jel) st))
      (([] : List Int), List.replicate N (0 : Int))).bind (fun st => some st.1) = _
  rw [hfold, h2, Option.some_bind, scan_eq_keepFirst, hdec]
  simp
/-- Every entry of the listing of a bucket is the index of an element of the mesh. -/
theorem cast_of_mem_bucket_listing (ids : Nat → List Int) (D : Int) (n : Nat) (x : Int)
    (hx : x ∈ (List.range n).flatMap
      (fun e2 => List.replicate ((ids e2).count D) (e2 : Int))) :
    ∃ e : Nat, e < n ∧ x = (e : Int) := by
  obtain ⟨e, he, hxe⟩ := List.mem_flatMap.1 hx
  exact ⟨e, List.mem_range.1 he, (List.mem_replicate.1 hxe).2⟩

/-- The direction loop of `ComputeOvlpTdofs` for an owned subdomain whose buckets hold
element indices of its mesh and whose element dofs decode into the true-dof range. -/
theorem subdomainOvlpTDofs_spec {K : Type} (M : DofMaps K) (E : List (List (List Int)))
    (l : Nat) (b : List (List Int)) (hb : E[l]? = some b) (hbl : b.length = 3 ^ M.dim)
    (hr : ∀ (d : Nat) (Elems : List Int), b[d]? = some Elems → ∀ jel ∈ Elems,
      ∀ x ∈ M.ElementDofs l jel,
        0 ≤ decodeDof x ∧ decodeDof x < (M.TrueVSize (l : Int) : Int)) :
    ∃ t, subdomainOvlpTDofs M E l = some t ∧ t.length = 3 ^ M.dim ∧
      ∀ d : Nat, d < 3 ^ M.dim → ∃ Elems, b[d]? = some Elems ∧
        t[d]? = some (keepFirst (Elems.flatMap
          (fun jel => (M.ElementDofs l jel).map specDecode))) := by
  have hall : ∀ d ∈ List.range (3 ^ M.dim), ∃ r,
      (do
        let row ← E[l]?
        let Elems ← row[d]?
        bucketTDofs (M.TrueVSize (l : Int)) (M.ElementDofs l) Elems) = some r := by
    intro d hd
    have hdlt : d < b.length := by rw [hbl]; exact List.mem_range.1 hd
    refine ⟨keepFirst (b[d].flatMap (fun jel => (M.ElementDofs l jel).map specDecode)), ?_⟩
    rw [hb]
    simp only [Option.bind_eq_bind, Option.some_bind, List.getElem?_eq_getElem hdlt]
    exact bucketTDofs_spec _ _ _ (hr d b[d] (List.getElem?_eq_getElem hdlt))
  obtain ⟨t, ht, htl, hti⟩ := mapM_option_spec _ _ hall
  refine ⟨t, ht, by simpa using htl, fun d hd => ?_⟩
  have hdlt : d < b.length := by rw [hbl]; exact hd
  obtain ⟨r, hr1, hr2⟩ := hti d d (List.getElem?_range hd)
  refine ⟨b[d], List.getElem?_eq_getElem hdlt, ?_⟩
  rw [hb] at hr1
  simp only [Option.bind_eq_bind, Option.some_bind, List.getElem?_eq_getElem hdlt] at hr1
  rw [bucketTDofs_spec _ _ _ (hr d b[d] (List.getElem?_eq_getElem hdlt))] at hr1
  rw [hr2, ← Option.some.inj hr1]

/-- C7: when `GetSubdomainijk` does not divide by zero (`nxyz[0]` is positive and the
product `nxyz[0]*nxyz[1]`, as the `int` that holds it, is not zero), `ComputeOvlpTdofs`
returns, for every owned subdomain `l` and every direction bucket `d`, the list obtained by scanning the elements of `OvlpElems[l][d]` in order,
decoding each element dof `e` as `e` when `e >= 0` and as `-e-1` when `e < 0`, and
keeping only the first occurrence of each decoded index: `OvlpTDofs[l][d]` has no
repeated entry, holds exactly the decoded dofs of the elements of the bucket, and is
ordered by first occurrence.  The element dofs of the owned subdomains are assumed to
decode into the true-dof range of their space, which is the size of `tdof_marker`. -/
theorem ComputeOvlpTdofs_keepFirst {K : Type} [LinearOrderedCommRing K] (M : DofMaps K)
    (hdim : M.dim = 2 ∨ M.dim = 3) (hranks : M.nrsubdomains ≤ M.subdomain_rank.length)
    (hnx : 0 < aget M.nxyz 0) (hnxy : wrap32 (aget M.nxyz 0 * aget M.nxyz 1) ≠ 0)
    (hdofs : ∀ l : Nat, l < M.nrsubdomains →
      getI? M.subdomain_rank (l : Int) = some M.myid →
      ∀ e : Nat, e < (M.subdomain_mesh l).NE → ∀ x ∈ M.ElementDofs l (e : Int),
        0 ≤ specDecode x ∧ specDecode x < (M.TrueVSize (l : Int) : Int)) :
    ∃ E T, ComputeOvlpTdofs M = some (E, T) ∧ ComputeOvlpElems M = some E ∧
      ∀ l : Nat, l < M.nrsubdomains → getI? M.subdomain_rank (l : Int) = some M.myid →
        ∀ d : Nat, d < 3 ^ M.dim →
          ∃ Elems tdofs, (E[l]?).bind (fun row => row[d]?) = some Elems ∧
            (T[l]?).bind (fun row => row[d]?) = some tdofs ∧
            tdofs = keepFirst (Elems.flatMap
              (fun jel => (M.ElementDofs l jel).map specDecode)) ∧
            tdofs.Nodup ∧
            ∀ x : Int, x ∈ tdofs ↔
              ∃ jel ∈ Elems, ∃ e ∈ M.ElementDofs l jel, x = specDecode e := by
  obtain ⟨E, hE, _, hspec⟩ := ComputeOvlpElems_spec M hdim hranks hnx hnxy
  have hrange : ∀ l : Nat, l < M.nrsubdomains →
      getI? M.subdomain_rank (l : Int) = some M.myid →
      ∀ b, E[l]? = some b → ∀ (d : Nat) (Elems : List Int), b[d]? = some Elems →
        ∀ jel ∈ Elems, ∀ x ∈ M.ElementDofs l jel,
          0 ≤ decodeDof x ∧ decodeDof x < (M.TrueVSize (l : Int) : Int) := by
    intro l hl hown b hb d Elems hd jel hjel x hx
    obtain ⟨b2, hb2, hb2l, hb2D⟩ := hspec l hl hown
    rw [hb] at hb2
    obtain rfl := Option.some.inj hb2
    have hdlt : d < b.length := (List.getElem?_eq_some.1 hd).1
    have hlist := hb2D (d : Int) (by positivity) (by rw [← hb2l]; exact_mod_cast hdlt)
    rw [getI?_natCast, hd] at hlist
    rw [Option.some.inj hlist] at hjel
    obtain ⟨e, he, rfl⟩ := cast_of_mem_bucket_listing _ _ _ jel hjel
    rw [decodeDof_eq_specDecode]
    exact hdofs l hl hown e he x hx
  have hall : ∀ l ∈ List.range M.nrsubdomains, ∃ t,
      (do
        let rank ← getI? M.subdomain_rank (l : Int)
        if M.myid = rank then subdomainOvlpTDofs M E l else pure []) = some t := by
    intro l hl
    have hl1 := List.mem_range.1 hl
    have hl2 : l < M.subdomain_rank.length := lt_of_lt_of_le hl1 hranks
    by_cases hown : M.myid = M.subdomain_rank[l]
    · have hown2 : getI? M.subdomain_rank (l : Int) = some M.myid := by
        rw [getI?_natCast, List.getElem?_eq_getElem hl2, hown]
      obtain ⟨b, hb, hbl, _⟩ := hspec l hl1 hown2
      obtain ⟨t, ht, _⟩ := subdomainOvlpTDofs_spec M E l b hb hbl (hrange l hl1 hown2 b hb)
      exact ⟨t, by simp [hown2, ht]⟩
    · exact ⟨[], by simp [getI?_natCast, List.getElem?_eq_getElem hl2, hown]⟩
  obtain ⟨T, hT, _, hTi⟩ := mapM_option_spec _ _ hall
  refine ⟨E, T, ?_, hE, fun l hl hown d hd => ?_⟩
  · unfold ComputeOvlpTdofs
    rw [hE]
    simp only [Option.bind_eq_bind, Option.some_bind] at hT ⊢
    rw [hT]
    rfl
  · obtain ⟨b, hb, hbl, _⟩ := hspec l hl hown
    obtain ⟨t, ht, _, htd⟩ := subdomainOvlpTDofs_spec M E l b hb hbl (hrange l hl hown b hb)
    obtain ⟨Elems, hElems, htdofs⟩ := htd d hd
    obtain ⟨t2, ht2, hTl⟩ := hTi l l (List.getElem?_range hl)
    rw [hown] at ht2
    simp only [Option.bind_eq_bind, Option.some_bind, if_true] at ht2
    rw [ht] at ht2
    obtain rfl := Option.some.inj ht2
    refine ⟨Elems, _, by rw [hb, Option.some_bind, hElems],
      by rw [hTl, Option.some_bind, htdofs], rfl, nodup_keepFirst _, fun x => ?_⟩
    rw [mem_keepFirst, List.mem_flatMap]
    constructor
    · rintro ⟨jel, hjel, hx⟩
      obtain ⟨e, he, rfl⟩ := List.mem_map.1 hx
      exact ⟨jel, hjel, e, he, rfl⟩
    · rintro ⟨jel, hjel, e, he, rfl⟩
      exact ⟨jel, hjel, List.mem_map.2 ⟨e, he, rfl⟩⟩

/-- Witness of C7: the two-subdomain configuration `exampleMaps`. -/
theorem ComputeOvlpTdofs_keepFirst_witness :
    ∃ E T, ComputeOvlpTdofs exampleMaps = some (E, T) ∧ ComputeOvlpElems exampleMaps = some E ∧
      ∀ l : Nat, l < exampleMaps.nrsubdomains →
        getI? exampleMaps.subdomain_rank (l : Int) = some exampleMaps.myid →
        ∀ d : Nat, d < 3 ^ exampleMaps.dim →
          ∃ Elems tdofs, (E[l]?).bind (fun row => row[d]?) = some Elems ∧
            (T[l]?).bind (fun row => row[d]?) = some tdofs ∧
            tdofs = keepFirst (Elems.flatMap
              (fun jel => (exampleMaps.ElementDofs l jel).map specDecode)) ∧
            tdofs.Nodup ∧
            ∀ x : Int, x ∈ tdofs ↔
              ∃ jel ∈ Elems, ∃ e ∈ exampleMaps.ElementDofs l jel, x = specDecode e :=
  ComputeOvlpTdofs_keepFirst exampleMaps (by decide) (by decide) (by decide) (by decide)
    (by decide)

/-! ### The case dispatch of `TransferToNeighbor` -/

/-- Packing with indices in range succeeds. -/
theorem GetSubVector_of_inRange {α : Type} (x : List α) (dofs : List Int)
    (h : ∀ j ∈ dofs, 0 ≤ j ∧ j < (x.length : Int)) :
    ∃ y, GetSubVector x dofs = some y ∧ y.length = dofs.length := by
  induction dofs with
  | nil => exact ⟨[], GetSubVector_nil x, rfl⟩
  | cons j t ih =>
    obtain ⟨hj0, hj1⟩ := h j (List.mem_cons_self _ _)
    obtain ⟨v, hv⟩ := getI?_of_inRange x j hj0 hj1
    obtain ⟨y, hy, hyl⟩ := ih (fun k hk => h k (List.mem_cons_of_mem _ hk))
    exact ⟨v :: y, by rw [GetSubVector_cons, hv, Option.some_bind, hy, Option.some_bind],
      by simp [hyl]⟩

/-- Scattering with indices in range succeeds and keeps the size of the vector. -/
theorem scatter_fold_defined {α : Type} (dofs : List Int) (vals x : List α)
    (h : ∀ k ∈ dofs, 0 ≤ k ∧ k < (x.length : Int)) :
    ∃ r, (dofs.zip vals).foldlM (fun x p => setI? x p.1 p.2) x = some r ∧
      r.length = x.length := by
  induction dofs generalizing vals x with
  | nil => exact ⟨x, rfl, rfl⟩
  | cons k t ih =>
    cases vals with
    | nil => exact ⟨x, rfl, rfl⟩
    | cons v vs =>
      obtain ⟨hk0, hk1⟩ := h k (List.mem_cons_self _ _)
      have hset := setI?_of_inRange x k v hk0 hk1
      have hlenA : (x.set k.toNat v).length = x.length := List.length_set _ _ _
      obtain ⟨r, hr, hrl⟩ := ih vs (x.set k.toNat v)
        (fun k2 hk2 => by rw [hlenA]; exact h k2 (List.mem_cons_of_mem _ hk2))
      refine ⟨r, ?_, by rw [hrl, hlenA]⟩
      simp only [List.zip_cons_cons, List.foldlM_cons, hset, Option.bind_eq_bind,
        Option.some_bind]
      exact hr

/-- The receiving branch, given a message of the expected length and indices in range,
returns a vector of the size of the destination space. -/
theorem recvBranch_defined {α : Type} [Zero α] (n1 : Nat) (tdofs1 : List Int) (y1 : List α)
    (hlen : y1.length = tdofs1.length) (h : ∀ k ∈ tdofs1, 0 ≤ k ∧ k < (n1 : Int)) :
    ∃ r, recvBranch n1 tdofs1 y1 = some r ∧ r.length = n1 := by
  obtain ⟨r, hr, hrl⟩ := scatter_fold_defined tdofs1 y1 (List.replicate n1 (0 : α))
    (by simpa using h)
  refine ⟨r, ?_, by simpa using hrl⟩
  unfold recvBranch
  rw [if_pos hlen, SetSubVector_eq_foldlM _ tdofs1 y1 hlen]
  exact hr

/-- C15: case dispatch of `TransferToNeighbor`.  With `i1` the neighbour id that the
call computes from `i0` and `direction0`, `r0 = subdomain_rank[i0]` and
`r1 = subdomain_rank[i1]`, and with the overlap lists that the calling rank reads
holding indices in range (of equal length in the local case, the incoming message
having the length of the destination list in the receiving case), the call does
exactly one of four things: the local positional copy iff `myid == r0` and
`myid == r1`; a send of `|OvlpTDofs[i0][id(direction0)]|` packed values to rank `r1`
with tag `i0` iff `myid == r0` and `myid != r1`; a receive of
`|OvlpTDofs[i1][id(direction1)]|` values from rank `r0` with tag `i0` iff `myid != r0`
and `myid == r1`; and nothing iff `myid` differs from both, in which case `x1` is left
exactly as it was. -/
theorem TransferToNeighbor_dispatch {K α : Type} [Zero α] (M : DofMaps K) (i0 i1 : Int)
    (direction0 : List Int) (x0 x1 incoming : List α) (r0 r1 : Int) (T0 T1 : List Int)
    (hi1 : neighborId M i0 direction0 = some i1)
    (hr0 : getI? M.subdomain_rank i0 = some r0)
    (hr1 : getI? M.subdomain_rank i1 = some r1)
    (hT0 : M.myid = r0 → OvlpTDofsAt M i0 (GetDirectionId direction0) = some T0 ∧
      ∀ j ∈ T0, 0 ≤ j ∧ j < (x0.length : Int))
    (hT1 : M.myid = r1 → OvlpTDofsAt M i1
        (GetDirectionId (oppositeDirection M.dim direction0)) = some T1 ∧
      ∀ k ∈ T1, 0 ≤ k ∧ k < (M.TrueVSize i1 : Int))
    (hcopy : M.myid = r0 → M.myid = r1 → T0.length = T1.length)
    (hrecv : M.myid ≠ r0 → M.myid = r1 → incoming.length = T1.length) :
    ∃ y act, TransferToNeighbor M i0 direction0 x0 x1 incoming = some (y, act) ∧
      (act = Exchange.copied ↔ M.myid = r0 ∧ M.myid = r1) ∧
      ((∃ buf, act = Exchange.sent r1 i0 T0.length buf ∧ GetSubVector x0 T0 = some buf) ↔
        M.myid = r0 ∧ M.myid ≠ r1) ∧
      (act = Exchange.received r0 i0 T1.length ↔ M.myid ≠ r0 ∧ M.myid = r1) ∧
      (act = Exchange.idle ↔ M.myid ≠ r0 ∧ M.myid ≠ r1) ∧
      ((∃ dest tag count buf, act = Exchange.sent dest tag count buf) →
        M.myid = r0 ∧ M.myid ≠ r1) ∧
      ((∃ src tag count, act = Exchange.received src tag count) →
        M.myid ≠ r0 ∧ M.myid = r1) ∧
      (M.myid ≠ r0 → M.myid ≠ r1 → y = x1) := by
  by_cases h0 : M.myid = r0
  · obtain ⟨hT0a, hT0b⟩ := hT0 h0
    by_cases h1 : M.myid = r1
    · obtain ⟨hT1a, hT1b⟩ := hT1 h1
      obtain ⟨r, hr, _⟩ := sameRankBranch_spec (M.TrueVSize i1)
        T0 T1 x0 (hcopy h0 h1) hT0b hT1b
      subst h0
      subst h1
      refine ⟨r, Exchange.copied, ?_, ?_⟩
      · simp [TransferToNeighbor, hi1, hr0, hr1, hT0a, hT1a, hr]
      · simp
    · obtain ⟨buf, hbuf, _⟩ := GetSubVector_of_inRange x0 T0 hT0b
      subst h0
      refine ⟨x1, Exchange.sent r1 i0 T0.length buf, ?_, ?_⟩
      · simp [TransferToNeighbor, hi1, hr0, hr1, h1, hT0a, sendBranch, hbuf]
      · simp [h1, hbuf]
  · by_cases h1 : M.myid = r1
    · obtain ⟨hT1a, hT1b⟩ := hT1 h1
      obtain ⟨r, hr, _⟩ := recvBranch_defined (M.TrueVSize i1)
        T1 incoming (hrecv h0 h1) hT1b
      subst h1
      refine ⟨r, Exchange.received r0 i0 T1.length, ?_, ?_⟩
      · simp [TransferToNeighbor, hi1, hr0, hr1, h0, hT1a, hr]
      · simp [h0]
    · refine ⟨x1, Exchange.idle, ?_, ?_⟩
      · simp [TransferToNeighbor, hi1, hr0, hr1, h0, h1]
      · simp [h0, h1]

/-- Witness of C15: subdomain 0 of `exampleMaps`, whose neighbour is on the same rank. -/
theorem TransferToNeighbor_dispatch_witness :
    ∃ y act, TransferToNeighbor exampleMaps 0 [1, 0, -1] exampleVector [] [] = some (y, act) ∧
      (act = Exchange.copied ↔ exampleMaps.myid = 0 ∧ exampleMaps.myid = 0) ∧
      ((∃ buf, act = Exchange.sent 0 0 [3, 4, 5].length buf ∧
          GetSubVector exampleVector [3, 4, 5] = some buf) ↔
        exampleMaps.myid = 0 ∧ exampleMaps.myid ≠ 0) ∧
      (act = Exchange.received 0 0 [0, 1, 2].length ↔
        exampleMaps.myid ≠ 0 ∧ exampleMaps.myid = 0) ∧
      (act = Exchange.idle ↔ exampleMaps.myid ≠ 0 ∧ exampleMaps.myid ≠ 0) ∧
      ((∃ dest tag count buf, act = Exchange.sent dest tag count buf) →
        exampleMaps.myid = 0 ∧ exampleMaps.myid ≠ 0) ∧
      ((∃ src tag count, act = Exchange.received src tag count) →
        exampleMaps.myid ≠ 0 ∧ exampleMaps.myid = 0) ∧
      (exampleMaps.myid ≠ 0 → exampleMaps.myid ≠ 0 → y = []) :=
  TransferToNeighbor_dispatch exampleMaps 0 1 [1, 0, -1] exampleVector [] [] 0 0
    [3, 4, 5] [0, 1, 2] (by decide) (by decide) (by decide) (by decide) (by decide)
    (by decide) (by decide)

/-! ### How many buckets hold an element -/

/-- In three dimensions an element is given at most 26 direction ids, all different,
and at most 7 when on no axis both flags are set. -/
theorem AddElementDirIds_count_buckets :
    ∀ n0 n1 n2 p0 p1 p2 : Bool,
      (List.range 27).countP
          (fun (D : Nat) => decide ((D : Int) ∈ AddElementDirIds 3 [n0, n1, n2] [p0, p1, p2])) ≤ 26 ∧
      ((n0 && p0) = false → (n1 && p1) = false → (n2 && p2) = false →
        (List.range 27).countP
          (fun (D : Nat) => decide ((D : Int) ∈ AddElementDirIds 3 [n0, n1, n2] [p0, p1, p2])) ≤ 7) := by
  decide

/-- The number of buckets that hold an element, for a table whose bucket `D` holds the
element exactly when `D` is one of the ids `ids`. -/
theorem bucketsContaining_eq (b : List (List Int)) (n : Nat) (hbl : b.length = n)
    (ids : List Int) (e : Int)
    (hb : ∀ D : Nat, D < n → ∃ bucket, b[D]? = some bucket ∧ (e ∈ bucket ↔ (D : Int) ∈ ids)) :
    bucketsContaining b e = (List.range n).countP (fun (D : Nat) => decide ((D : Int) ∈ ids)) := by
  subst hbl
  unfold bucketsContaining
  induction b using List.reverseRecOn with
  | nil => rfl
  | append_singleton t last ih =>
    rw [List.length_append, List.length_singleton, List.range_succ, List.countP_append,
      List.countP_append]
    have hprefix : ∀ D : Nat, D < t.length →
        ∃ bucket, t[D]? = some bucket ∧ (e ∈ bucket ↔ (D : Int) ∈ ids) := by
      intro D hD
      obtain ⟨bucket, hbk, hiff⟩ := hb D (by rw [List.length_append]; omega)
      rw [List.getElem?_append_left hD] at hbk
      exact ⟨bucket, hbk, hiff⟩
    rw [ih hprefix]
    congr 1
    obtain ⟨bucket, hbk, hiff⟩ := hb t.length (by rw [List.length_append]; simp)
    rw [List.getElem?_concat_length] at hbk
    obtain rfl := Option.some.inj hbk
    by_cases hD : (t.length : Int) ∈ ids
    · simp [hD, hiff.2 hD]
    · have hnot : e ∉ last := fun h => hD (hiff.1 h)
      simp [hD, hnot]

/-- Counterexample to C17 as stated: element 0 of the middle subdomain of `exampleThin`
lies within two mesh sizes of all six faces and is placed in 26 buckets. -/
theorem ComputeOvlpElems_thin_subdomain_26_buckets :
    (ComputeOvlpElems exampleThin).bind
        (fun E => (E[13]?).map (fun b => bucketsContaining b 0)) = some 26 ∧
    ¬ (26 ≤ 7) := by
  decide

/-- C17 (amended): in three dimensions `ComputeOvlpElems` places every element of every
owned subdomain in at most 26 directional overlap buckets, and in at most 7 when on no
axis the element is near both the low face and the high face with a neighbour behind
each.  The call is defined when `GetSubdomainijk` does not divide by zero: `nxyz[0]` is
positive and the product `nxyz[0]*nxyz[1]`, as the `int` that holds it, is not zero. -/
theorem ComputeOvlpElems_bucket_count {K : Type} [LinearOrderedCommRing K] (M : DofMaps K)
    (hdim : M.dim = 3) (hranks : M.nrsubdomains ≤ M.subdomain_rank.length)
    (hnx : 0 < aget M.nxyz 0) (hnxy : wrap32 (aget M.nxyz 0 * aget M.nxyz 1) ≠ 0) :
    ∃ E, ComputeOvlpElems M = some E ∧
      ∀ l : Nat, l < M.nrsubdomains → getI? M.subdomain_rank (l : Int) = some M.myid →
        ∃ b, E[l]? = some b ∧
          ∀ e : Nat, e < (M.subdomain_mesh l).NE →
            bucketsContaining b (e : Int) ≤ 26 ∧
            ((∀ a : Nat, a < 3 → ¬ (nearLow M l e a ∧ nearHigh M l e a)) →
              bucketsContaining b (e : Int) ≤ 7) := by
  obtain ⟨E, hE, _, hspec⟩ := ComputeOvlpElems_spec M (Or.inr hdim) hranks hnx hnxy
  refine ⟨E, hE, fun l hl hown => ?_⟩
  obtain ⟨b, hb, hbl, hbD⟩ := hspec l hl hown
  rw [hdim] at hbl hbD
  refine ⟨b, hb, fun e he => ?_⟩
  have hcount : bucketsContaining b (e : Int) = (List.range 27).countP
      (fun (D : Nat) => decide ((D : Int) ∈ elementDirIds M l e)) := by
    apply bucketsContaining_eq b 27 (by rw [hbl]; norm_num)
    intro D hD
    refine ⟨(List.range (M.subdomain_mesh l).NE).flatMap
      (fun e2 => List.replicate ((elementDirIds M l e2).count (D : Int)) (e2 : Int)), ?_, ?_⟩
    · rw [← getI?_natCast]
      exact hbD (D : Int) (by positivity) (by norm_num; exact_mod_cast hD)
    · rw [mem_bucket_listing]
      exact ⟨fun h => h.2, fun h => ⟨he, h⟩⟩
  rw [hcount]
  unfold elementDirIds
  simp only []
  rw [AddElementDirIds_flags, hdim]
  obtain ⟨h26, h7⟩ := AddElementDirIds_count_buckets
    ((negFlags M (subdomainijk M l) (M.subdomain_mesh l) e).getD 0 false)
    ((negFlags M (subdomainijk M l) (M.subdomain_mesh l) e).getD 1 false)
    ((negFlags M (subdomainijk M l) (M.subdomain_mesh l) e).getD 2 false)
    ((posFlags M (subdomainijk M l) (M.subdomain_mesh l) e).getD 0 false)
    ((posFlags M (subdomainijk M l) (M.subdomain_mesh l) e).getD 1 false)
    ((posFlags M (subdomainijk M l) (M.subdomain_mesh l) e).getD 2 false)
  refine ⟨h26, fun hnot => ?_⟩
  have hflag : ∀ a : Nat, a < 3 →
      ((negFlags M (subdomainijk M l) (M.subdomain_mesh l) e).getD a false &&
        (posFlags M (subdomainijk M l) (M.subdomain_mesh l) e).getD a false) =
        false := by
    intro a ha
    rw [Bool.and_eq_false_iff]
    by_contra hcon
    push_neg at hcon
    have hn := (negFlags_getD M l e a).1 (by simpa using hcon.1)
    have hp := (posFlags_getD M l e a).1 (by simpa using hcon.2)
    exact hnot a ha ⟨hn.2, hp.2⟩
  exact h7 (hflag 0 (by omega)) (hflag 1 (by omega)) (hflag 2 (by omega))

/-- Witness of C17 (amended): the 2 x 2 x 2 configuration `exampleMaps3`. -/
theorem ComputeOvlpElems_bucket_count_witness :
    ∃ E, ComputeOvlpElems exampleMaps3 = some E ∧
      ∀ l : Nat, l < exampleMaps3.nrsubdomains →
        getI? exampleMaps3.subdomain_rank (l : Int) = some exampleMaps3.myid →
        ∃ b, E[l]? = some b ∧
          ∀ e : Nat, e < (exampleMaps3.subdomain_mesh l).NE →
            bucketsContaining b (e : Int) ≤ 26 ∧
            ((∀ a : Nat, a < 3 → ¬ (nearLow exampleMaps3 l e a ∧ nearHigh exampleMaps3 l e a)) →
              bucketsContaining b (e : Int) ≤ 7) :=
  ComputeOvlpElems_bucket_count exampleMaps3 (by decide) (by decide) (by decide) (by decide)

/-! ### The bucket ids of `AddElementToOvlpLists` -/

/-- A bucket whose id is reached for no element stays empty. -/
theorem bucket_listing_nil (ids : Nat → List Int) (D : Int) (n : Nat)
    (h : ∀ e : Nat, D ∉ ids e) :
    (List.range n).flatMap (fun e => List.replicate ((ids e).count D) (e : Int)) = [] := by
  rw [List.flatMap_eq_nil_iff]
  intro e _
  rw [List.count_eq_zero.2 (h e)]
  rfl

/-- C18: bucket ids are always valid and never the self bucket.  For every pair of flag
arrays `neg`, `pos`, every bucket id that `AddElementToOvlpLists` appends to lies in
`0..8` and differs from `4` when `dim == 2`, and lies in `0..26` and differs from `13`
when `dim == 3`; so on a table of `3^dim` buckets every append is within the table and
`AddElementToOvlpLists` returns a table of the same size, and in the table that
`ComputeOvlpElems` builds the self bucket of every owned subdomain is empty
(`ComputeOvlpElems` being defined when `GetSubdomainijk` does not divide by zero:
`nxyz[0]` is positive and the product `nxyz[0]*nxyz[1]`, as the `int` that holds it, is
not zero). -/
theorem AddElementToOvlpLists_bucket_ids {K : Type} [LinearOrderedCommRing K] (M : DofMaps K)
    (hdim : M.dim = 2 ∨ M.dim = 3) (hranks : M.nrsubdomains ≤ M.subdomain_rank.length) :
    (∀ neg pos : List Bool, ∀ D ∈ AddElementDirIds 2 neg pos,
      (0 ≤ D ∧ D ≤ 8) ∧ D ≠ 4 ∧ D < ((3 ^ 2 : Nat) : Int)) ∧
    (∀ neg pos : List Bool, ∀ D ∈ AddElementDirIds 3 neg pos,
      (0 ≤ D ∧ D ≤ 26) ∧ D ≠ 13 ∧ D < ((3 ^ 3 : Nat) : Int)) ∧
    (∀ (neg pos : List Bool) (buckets : List (List Int)) (iel : Int),
      buckets.length = 3 ^ M.dim →
      ∃ b, AddElementToOvlpLists M.dim buckets iel neg pos = some b ∧
        b.length = 3 ^ M.dim) ∧
    (0 < aget M.nxyz 0 → wrap32 (aget M.nxyz 0 * aget M.nxyz 1) ≠ 0 →
      ∃ E, ComputeOvlpElems M = some E ∧
      ∀ l : Nat, l < M.nrsubdomains → getI? M.subdomain_rank (l : Int) = some M.myid →
        ∃ b, E[l]? = some b ∧ b.length = 3 ^ M.dim ∧
          (M.dim = 2 → getI? b 4 = some []) ∧ (M.dim = 3 → getI? b 13 = some [])) := by
  have h2 : ∀ neg pos : List Bool, ∀ D ∈ AddElementDirIds 2 neg pos,
      0 ≤ D ∧ D < 9 ∧ D ≠ 4 := by
    intro neg pos D hD
    rw [AddElementDirIds_flags] at hD
    exact AddElementDirIds_range_two _ _ _ _ _ _ D hD
  have h3 : ∀ neg pos : List Bool, ∀ D ∈ AddElementDirIds 3 neg pos,
      0 ≤ D ∧ D < 27 ∧ D ≠ 13 := by
    intro neg pos D hD
    rw [AddElementDirIds_flags] at hD
    exact AddElementDirIds_range_three _ _ _ _ _ _ D hD
  refine ⟨?_, ?_, ?_, ?_⟩
  · intro neg pos D hD
    obtain ⟨ha, hb, hc⟩ := h2 neg pos D hD
    exact ⟨⟨ha, by omega⟩, hc, by norm_num; exact hb⟩
  · intro neg pos D hD
    obtain ⟨ha, hb, hc⟩ := h3 neg pos D hD
    exact ⟨⟨ha, by omega⟩, hc, by norm_num; exact hb⟩
  · intro neg pos buckets iel hlen
    obtain ⟨b, hb, hbl, _⟩ := appendAt_fold_spec (AddElementDirIds M.dim neg pos) iel buckets
      (fun D hD => by rw [hlen]; exact AddElementDirIds_lt_pow M.dim hdim neg pos D hD)
    exact ⟨b, hb, by rw [hbl, hlen]⟩
  · intro hnx hnxy
    obtain ⟨E, hE, _, hspec⟩ := ComputeOvlpElems_spec M hdim hranks hnx hnxy
    refine ⟨E, hE, fun l hl hown => ?_⟩
    obtain ⟨b, hb, hbl, hbD⟩ := hspec l hl hown
    refine ⟨b, hb, hbl, fun hd => ?_, fun hd => ?_⟩
    · rw [hbD 4 (by norm_num) (by rw [hd]; norm_num), bucket_listing_nil]
      intro e hmem
      unfold elementDirIds at hmem
      simp only [] at hmem
      rw [hd] at hmem
      exact (h2 _ _ 4 hmem).2.2 rfl
    · rw [hbD 13 (by norm_num) (by rw [hd]; norm_num), bucket_listing_nil]
      intro e hmem
      unfold elementDirIds at hmem
      simp only [] at hmem
      rw [hd] at hmem
      exact (h3 _ _ 13 hmem).2.2 rfl

/-- Witness of C18: the 2 x 2 x 2 configuration `exampleMaps3`. -/
theorem AddElementToOvlpLists_bucket_ids_witness :
    (∀ neg pos : List Bool, ∀ D ∈ AddElementDirIds 2 neg pos,
      (0 ≤ D ∧ D ≤ 8) ∧ D ≠ 4 ∧ D < ((3 ^ 2 : Nat) : Int)) ∧
    (∀ neg pos : List Bool, ∀ D ∈ AddElementDirIds 3 neg pos,
      (0 ≤ D ∧ D ≤ 26) ∧ D ≠ 13 ∧ D < ((3 ^ 3 : Nat) : Int)) ∧
    (∀ (neg pos : List Bool) (buckets : List (List Int)) (iel : Int),
      buckets.length = 3 ^ exampleMaps3.dim →
      ∃ b, AddElementToOvlpLists exampleMaps3.dim buckets iel neg pos = some b ∧
        b.length = 3 ^ exampleMaps3.dim) ∧
    (∃ E, ComputeOvlpElems exampleMaps3 = some E ∧
      ∀ l : Nat, l < exampleMaps3.nrsubdomains →
        getI? exampleMaps3.subdomain_rank (l : Int) = some exampleMaps3.myid →
        ∃ b, E[l]? = some b ∧ b.length = 3 ^ exampleMaps3.dim ∧
          (exampleMaps3.dim = 2 → getI? b 4 = some []) ∧
          (exampleMaps3.dim = 3 → getI? b 13 = some [])) :=
  ⟨(AddElementToOvlpLists_bucket_ids exampleMaps3 (by decide) (by decide)).1,
    (AddElementToOvlpLists_bucket_ids exampleMaps3 (by decide) (by decide)).2.1,
    (AddElementToOvlpLists_bucket_ids exampleMaps3 (by decide) (by decide)).2.2.1,
    (AddElementToOvlpLists_bucket_ids exampleMaps3 (by decide) (by decide)).2.2.2
      (by decide) (by decide)⟩

end DofMapsDST

namespace BlkAMS

open DofMapsDST

/-! ## Theorems: the correction cycle -/

/-- A cycle step on a digit `0..4` at zero residual and zero correction leaves both at
zero, when the smoother, the operator and the four corrections map zero to zero. -/
theorem cycleStep_zero {K V : Type} [CommRing K] [AddCommGroup V] [Module K V]
    (S : Block_AMSSolver K V) (hD : S.D 0 = 0) (hA : S.A 0 = 0)
    (hG : GetCorrection S.cg S.G S.GtAG S.blkAMG_G 0 = 0)
    (hPx : GetCorrection S.cg S.Px S.PxtAPx S.blkAMG_Px 0 = 0)
    (hPy : GetCorrection S.cg S.Py S.PytAPy S.blkAMG_Py 0 = 0)
    (hPz : GetCorrection S.cg S.Pz S.PztAPz S.blkAMG_Pz 0 = 0)
    (i : Int) (hi : i = 0 ∨ i = 1 ∨ i = 2 ∨ i = 3 ∨ i = 4) :
    cycleStep S i ((0 : V), (0 : V)) = some (0, 0) := by
  rcases hi with rfl | rfl | rfl | rfl | rfl
  · simp [cycleStep, hD, hA]
  · simp [cycleStep, getI?, Tr_v, PtAP_v, blkAMG_v, hG, hA]
  · simp [cycleStep, getI?, Tr_v, PtAP_v, blkAMG_v, hPx, hA]
  · simp [cycleStep, getI?, Tr_v, PtAP_v, blkAMG_v, hPy, hA]
  · simp [cycleStep, getI?, Tr_v, PtAP_v, blkAMG_v, hPz, hA]

/-- A counted loop whose body fixes a state returns that state. -/
theorem forLoop_fixed {σ : Type} (n : Nat) (body : Nat → σ → Option σ) (s : σ)
    (h : ∀ i, i < n → body i s = some s) : forLoop n body s = some s := by
  induction n with
  | zero => rfl
  | succ n ih =>
    rw [forLoop_succ, ih (fun i hi => h i (Nat.lt_succ_of_lt hi)), Option.some_bind]
    exact h n (Nat.lt_succ_self n)

/-- The symbols of a cycle string over the digits `0..4` are the numbers `0..4`. -/
theorem cycleSymbols_digits (c : String)
    (hc : ∀ ch ∈ c.toList, ch = '0' ∨ ch = '1' ∨ ch = '2' ∨ ch = '3' ∨ ch = '4') :
    ∀ i ∈ cycleSymbols c, i = 0 ∨ i = 1 ∨ i = 2 ∨ i = 3 ∨ i = 4 := by
  intro i hi
  obtain ⟨ch, hch, rfl⟩ := List.mem_map.1 hi
  rcases hc ch hch with rfl | rfl | rfl | rfl | rfl <;> decide

/-- C10: zero residual gives zero correction.  If the smoother `D`, the system operator
`A` and each of the four auxiliary corrections map the zero vector to the zero vector,
then for every cycle string over the digits `0..4`, every `NumberOfCycles >= 1` and
every `theta`, `Mult` applied to `r = 0` returns `z = 0`, whatever `z` held on entry. -/
theorem Mult_zero_residual {K V : Type} [CommRing K] [AddCommGroup V] [Module K V]
    (S : Block_AMSSolver K V) (z0 : V) (hD : S.D 0 = 0) (hA : S.A 0 = 0)
    (hG : GetCorrection S.cg S.G S.GtAG S.blkAMG_G 0 = 0)
    (hPx : GetCorrection S.cg S.Px S.PxtAPx S.blkAMG_Px 0 = 0)
    (hPy : GetCorrection S.cg S.Py S.PytAPy S.blkAMG_Py 0 = 0)
    (hPz : GetCorrection S.cg S.Pz S.PztAPz S.blkAMG_Pz 0 = 0)
    (hc : ∀ ch ∈ S.cycle_type.toList,
      ch = '0' ∨ ch = '1' ∨ ch = '2' ∨ ch = '3' ∨ ch = '4')
    (hN : 1 ≤ S.NumberOfCycles) :
    ∃ out, Mult S 0 z0 = some (0, out) := by
  have hsym := cycleSymbols_digits S.cycle_type hc
  have hinner : forLoop (cycleSymbols S.cycle_type).length
      (fun j st => (cycleSymbols S.cycle_type)[j]?.bind (fun i => cycleStep S i st))
      ((0 : V), (0 : V)) = some (0, 0) := by
    apply forLoop_fixed
    intro j hj
    rw [List.getElem?_eq_getElem hj, Option.some_bind]
    exact cycleStep_zero S hD hA hG hPx hPy hPz _ (hsym _ (List.getElem_mem _))
  have houter : forLoop S.NumberOfCycles.toNat
      (fun _ st => forLoop (cycleSymbols S.cycle_type).length
        (fun j st => (cycleSymbols S.cycle_type)[j]?.bind (fun i => cycleStep S i st)) st)
      ((0 : V), (0 : V)) = some (0, 0) :=
    forLoop_fixed _ _ _ (fun _ _ => hinner)
  refine ⟨if S.Size 0 ≠ S.AHeight then ["Size inconsistency"] else [], ?_⟩
  unfold Mult
  change (forLoop S.NumberOfCycles.toNat
      (fun _ st => forLoop (cycleSymbols S.cycle_type).length
        (fun j st => (cycleSymbols S.cycle_type)[j]?.bind (fun i => cycleStep S i st)) st)
      ((0 : V), (0 : V))).bind (fun st => some (st.1, _)) = _
  rw [houter]
  rfl

/-- Witness of C10: the solver `exampleSolver` with cycle `"01234"` run twice. -/
theorem Mult_zero_residual_witness : ∃ out, Mult exampleSolver 0 7 = some (0, out) :=
  Mult_zero_residual exampleSolver 7 (by decide) (by decide) (by decide) (by decide)
    (by decide) (by decide) (by decide) (by decide)

/-! ### The two loops of `Mult` as one run over the schedule -/

theorem cycleRun_nil {K V : Type} [Add V] [Sub V] [SMul K V] (S : Block_AMSSolver K V)
    (st : V × V) : cycleRun S [] st = some st := rfl

theorem cycleRun_append {K V : Type} [Add V] [Sub V] [SMul K V] (S : Block_AMSSolver K V)
    (a b : List Int) (st : V × V) :
    cycleRun S (a ++ b) st = (cycleRun S a st).bind (cycleRun S b) := by
  unfold cycleRun
  rw [List.foldlM_append]
  rfl

theorem cycleRun_singleton {K V : Type} [Add V] [Sub V] [SMul K V] (S : Block_AMSSolver K V)
    (i : Int) (st : V × V) : cycleRun S [i] st = cycleStep S i st := by
  unfold cycleRun
  rw [List.foldlM_cons]
  simp only [List.foldlM_nil, Option.bind_eq_bind, Option.pure_def]
  cases cycleStep S i st <;> rfl

/-- The outer loop of `Mult` over the inner loop is one run over the schedule. -/
theorem forLoop_cycles {K V : Type} [Add V] [Sub V] [SMul K V] (S : Block_AMSSolver K V)
    (ii : List Int) (k : Nat) (st : V × V) :
    forLoop k (fun _ st => forLoop ii.length
      (fun j st => (ii[j]?).bind (fun i => cycleStep S i st)) st) st =
      cycleRun S (List.replicate k ii).flatten st := by
  induction k with
  | zero => rfl
  | succ k ih =>
    rw [forLoop_succ, ih, List.replicate_succ', List.flatten_append, cycleRun_append]
    cases cycleRun S (List.replicate k ii).flatten st with
    | none => rfl
    | some t =>
      simp only [Option.some_bind, List.flatten_cons, List.flatten_nil, List.append_nil]
      exact forLoop_list ii (fun i st => cycleStep S i st) t

/-- The result of `Mult` in terms of the run over the schedule. -/
theorem Mult_eq_cycleRun {K V : Type} [Zero V] [Add V] [Sub V] [SMul K V]
    (S : Block_AMSSolver K V) (r z : V) :
    Mult S r z = (cycleRun S (cycleSchedule S) ((0 : V), r)).bind
      (fun st => some (st.1,
        if S.Size r ≠ S.AHeight then ["Size inconsistency"] else [])) := by
  unfold cycleSchedule
  rw [← forLoop_cycles]
  rfl

/-- The state after all passes is the state that `Mult` ends with. -/
theorem stateAfter_length {K V : Type} [Zero V] [Add V] [Sub V] [SMul K V]
    (S : Block_AMSSolver K V) (r : V) :
    stateAfter S r (cycleSchedule S).length = cycleRun S (cycleSchedule S) ((0 : V), r) := by
  unfold stateAfter
  rw [List.take_length]

/-- One more pass of the inner loop body, for the symbol `s` at position `n` of the
schedule. -/
theorem stateAfter_succ {K V : Type} [Zero V] [Add V] [Sub V] [SMul K V]
    (S : Block_AMSSolver K V) (r : V) (n : Nat) (s : Int)
    (hs : (cycleSchedule S)[n]? = some s) :
    stateAfter S r (n + 1) = (stateAfter S r n).bind (cycleStep S s) := by
  unfold stateAfter
  rw [List.take_succ, hs, Option.toList_some, cycleRun_append]
  congr 1
  funext st
  exact cycleRun_singleton S s st

/-- Past the end of the schedule nothing more happens. -/
theorem stateAfter_succ_of_none {K V : Type} [Zero V] [Add V] [Sub V] [SMul K V]
    (S : Block_AMSSolver K V) (r : V) (n : Nat) (hs : (cycleSchedule S)[n]? = none) :
    stateAfter S r (n + 1) = stateAfter S r n := by
  unfold stateAfter
  rw [List.take_succ, hs, Option.toList_none, List.append_nil]

/-! ### The steps of the cycle -/

/-- On a digit `0..4` the body of the inner loop is the step of the specification. -/
theorem cycleStep_digit {K V : Type} [Add V] [Sub V] [SMul K V] (S : Block_AMSSolver K V)
    (i : Int) (hi : i = 0 ∨ i = 1 ∨ i = 2 ∨ i = 3 ∨ i = 4) (st : V × V) :
    cycleStep S i st = some (specStep S i.toNat st) := by
  rcases hi with rfl | rfl | rfl | rfl | rfl <;>
    simp [cycleStep, getI?, Tr_v, PtAP_v, blkAMG_v, specStep, specCorrection, GetCorrection]

/-- On a symbol other than `0..4` the body of the inner loop reads `Tr_v[i-1]` out of
range. -/
theorem cycleStep_bad {K V : Type} [Add V] [Sub V] [SMul K V] (S : Block_AMSSolver K V)
    (i : Int) (hi : ¬ (i = 0 ∨ i = 1 ∨ i = 2 ∨ i = 3 ∨ i = 4)) (st : V × V) :
    cycleStep S i st = none := by
  have h0 : i ≠ 0 := fun h => hi (Or.inl h)
  have hTr : getI? (Tr_v S) (i - 1) = none := by
    unfold getI?
    split
    · rename_i hge
      have hlen : (Tr_v S).length ≤ (i - 1).toNat := by
        simp only [Tr_v, List.length_cons, List.length_nil]
        omega
      exact List.getElem?_eq_none hlen
    · rfl
  simp [cycleStep, h0, hTr]

/-- A run over digits `0..4` is the fold of the steps of the specification. -/
theorem cycleRun_digits {K V : Type} [Add V] [Sub V] [SMul K V] (S : Block_AMSSolver K V)
    (syms : List Int) (hsyms : ∀ i ∈ syms, i = 0 ∨ i = 1 ∨ i = 2 ∨ i = 3 ∨ i = 4)
    (st : V × V) :
    cycleRun S syms st = some ((syms.map Int.toNat).foldl (fun st s => specStep S s st) st) := by
  induction syms generalizing st with
  | nil => rfl
  | cons i t ih =>
    have hc : cycleRun S (i :: t) st = (cycleStep S i st).bind (cycleRun S t) := by
      unfold cycleRun
      rw [List.foldlM_cons]
      rfl
    rw [hc, cycleStep_digit S i (hsyms i (List.mem_cons_self _ _)), Option.some_bind,
      ih (fun j hj => hsyms j (List.mem_cons_of_mem _ hj))]
    rfl

/-- The symbols of a cycle string, read as natural numbers, are its digits. -/
theorem cycleSymbols_toNat (c : String) : (cycleSymbols c).map Int.toNat = specDigits c := by
  unfold cycleSymbols specDigits
  rw [List.map_map]
  apply List.map_congr_left
  intro ch _
  simp only [Function.comp]
  omega

/-- A run over `k` repetitions of digits `0..4` is the `k`-fold cycle of the
specification. -/
theorem cycleRun_replicate {K V : Type} [Add V] [Sub V] [SMul K V] (S : Block_AMSSolver K V)
    (syms : List Int) (hsyms : ∀ i ∈ syms, i = 0 ∨ i = 1 ∨ i = 2 ∨ i = 3 ∨ i = 4)
    (k : Nat) (st : V × V) :
    cycleRun S (List.replicate k syms).flatten st =
      some (specCycle S (syms.map Int.toNat) k st) := by
  induction k with
  | zero => rfl
  | succ k ih =>
    rw [List.replicate_succ', List.flatten_append, cycleRun_append, ih, Option.some_bind]
    simp only [List.flatten_cons, List.flatten_nil, List.append_nil]
    rw [cycleRun_digits S syms hsyms]
    unfold specCycle
    rw [Function.iterate_succ_apply']

/-- For a cycle string over the digits `0..4`, `Mult` returns the `z` of the cycle of the
specification. -/
theorem Mult_eq_specCycle {K V : Type} [Zero V] [Add V] [Sub V] [SMul K V]
    (S : Block_AMSSolver K V) (r z : V)
    (hc : ∀ ch ∈ S.cycle_type.toList,
      ch = '0' ∨ ch = '1' ∨ ch = '2' ∨ ch = '3' ∨ ch = '4') :
    Mult S r z = some
      ((specCycle S (specDigits S.cycle_type) S.NumberOfCycles.toNat ((0 : V), r)).1,
        if S.Size r ≠ S.AHeight then ["Size inconsistency"] else []) := by
  rw [Mult_eq_cycleRun]
  unfold cycleSchedule
  rw [cycleRun_replicate S _ (cycleSymbols_digits S.cycle_type hc), cycleSymbols_toNat]
  rfl
/-- C11: cycle recurrence.  For every residual `r`, every cycle string over the digits
`0..4` and every `NumberOfCycles`, `Mult` returns the `z` produced by starting from
`z = 0`, `res = r` and, `NumberOfCycles` times over, for each digit `s` of the string in
order: `zaux = theta * D(res)` when `s == 0`, and otherwise `zaux = Tr(Solve(Tr^T res))`
with `(Tr, op, prec)` the `s`-th of `(G, GtAG, blkAMG_G)`, `(Px, PxtAPx, blkAMG_Px)`,
`(Py, PytAPy, blkAMG_Py)`, `(Pz, PztAPz, blkAMG_Pz)`; then `z += zaux` and
`res -= A*zaux`. -/
theorem Mult_cycle_recurrence {K V : Type} [Zero V] [Add V] [Sub V] [SMul K V]
    (S : Block_AMSSolver K V) (r z : V)
    (hc : ∀ ch ∈ S.cycle_type.toList,
      ch = '0' ∨ ch = '1' ∨ ch = '2' ∨ ch = '3' ∨ ch = '4') :
    ∃ out, Mult S r z = some
      ((specCycle S (specDigits S.cycle_type) S.NumberOfCycles.toNat ((0 : V), r)).1, out) :=
  ⟨_, Mult_eq_specCycle S r z hc⟩

/-- Witness of C11: the solver `exampleSolver` on the residual 3. -/
theorem Mult_cycle_recurrence_witness :
    ∃ out, Mult exampleSolver 3 7 = some
      ((specCycle exampleSolver (specDigits exampleSolver.cycle_type)
        exampleSolver.NumberOfCycles.toNat ((0 : Int), 3)).1, out) :=
  Mult_cycle_recurrence exampleSolver 3 7 (by decide)

/-- Counterexample to C12 as stated: with the empty cycle string, the residual 3 and
`z = 7` on entry, `Mult` returns `z = 0`, not 7. -/
theorem Mult_empty_cycle_changes_z :
    ∃ zout out, Mult exampleEmptyCycle 3 7 = some (zout, out) ∧ zout ≠ 7 :=
  ⟨0, [], by decide, by decide⟩

/-- C12 (amended): when `cycle_type` is the empty string, no smoother or correction step
is taken and `Mult(r, z)` returns the zero vector in `z`, for every `r`, every
`NumberOfCycles` and every value `z` holds on entry; `z` is left as it was exactly when
it was zero on entry. -/
theorem Mult_empty_cycle {K V : Type} [Zero V] [Add V] [Sub V] [SMul K V]
    (S : Block_AMSSolver K V) (r z : V) (hempty : S.cycle_type.toList = []) :
    cycleSchedule S = [] ∧
    ∃ out, Mult S r z = some (0, out) ∧ (Mult S r z = some (z, out) ↔ z = 0) := by
  have hsched : cycleSchedule S = [] := by
    unfold cycleSchedule cycleSymbols
    rw [hempty]
    simp
  have hM := Mult_eq_cycleRun S r z
  rw [hsched, cycleRun_nil, Option.some_bind] at hM
  refine ⟨hsched, _, hM, ?_⟩
  rw [hM]
  constructor
  · intro h
    exact ((Prod.mk.inj (Option.some.inj h)).1).symm
  · intro h
    rw [h]

/-- Witness of C12 (amended): the solver `exampleEmptyCycle`. -/
theorem Mult_empty_cycle_witness :
    cycleSchedule exampleEmptyCycle = [] ∧
    ∃ out, Mult exampleEmptyCycle 3 7 = some (0, out) ∧
      (Mult exampleEmptyCycle 3 7 = some (7, out) ↔ (7 : Int) = 0) :=
  Mult_empty_cycle exampleEmptyCycle 3 7 (by decide)

/-- Counterexample to C13 as stated: with the cycle string `"05"` and the residual 3, the
smoothing step for the symbol `0` has been applied (`z = 3`, `res = -3`) when the symbol
`5` is reached, where the call has no result. -/
theorem Mult_bad_symbol_after_step :
    stateAfter exampleBadCycle 3 0 = some (0, 3) ∧
    stateAfter exampleBadCycle 3 1 = some (3, -3) ∧
    stateAfter exampleBadCycle 3 2 = none ∧
    Mult exampleBadCycle 3 7 = none := by
  decide

/-- C13 (amended): `Mult` does not validate `cycle_type`.  For a cycle string whose
first character other than `'0'`..`'4'` follows the characters `pre`, and for
`NumberOfCycles >= 1`, the steps of the symbols of `pre` are applied to `(z, res)` as in
a valid cycle, and on the next pass the body reads `Tr_v[i-1]` out of range, so that
`Mult` has no result. -/
theorem Mult_bad_symbol {K V : Type} [Zero V] [Add V] [Sub V] [SMul K V]
    (S : Block_AMSSolver K V) (r z : V) (pre post : List Char) (bad : Char)
    (hsplit : S.cycle_type.toList = pre ++ bad :: post)
    (hpre : ∀ ch ∈ pre, ch = '0' ∨ ch = '1' ∨ ch = '2' ∨ ch = '3' ∨ ch = '4')
    (hbad : ¬ (bad = '0' ∨ bad = '1' ∨ bad = '2' ∨ bad = '3' ∨ bad = '4'))
    (hN : 1 ≤ S.NumberOfCycles) :
    stateAfter S r pre.length =
      some ((pre.map (fun ch => ch.toNat - 48)).foldl (fun st s => specStep S s st)
        ((0 : V), r)) ∧
    stateAfter S r (pre.length + 1) = none ∧
    Mult S r z = none := by
  have hbadsym : ¬ ((bad.toNat : Int) - 48 = 0 ∨ (bad.toNat : Int) - 48 = 1 ∨
      (bad.toNat : Int) - 48 = 2 ∨ (bad.toNat : Int) - 48 = 3 ∨
      (bad.toNat : Int) - 48 = 4) := by
    intro h
    apply hbad
    have hof := Char.ofNat_toNat bad
    rcases h with h | h | h | h | h
    · have h2 : bad.toNat = 48 := by omega
      rw [h2] at hof
      exact Or.inl hof.symm
    · have h2 : bad.toNat = 49 := by omega
      rw [h2] at hof
      exact Or.inr (Or.inl hof.symm)
    · have h2 : bad.toNat = 50 := by omega
      rw [h2] at hof
      exact Or.inr (Or.inr (Or.inl hof.symm))
    · have h2 : bad.toNat = 51 := by omega
      rw [h2] at hof
      exact Or.inr (Or.inr (Or.inr (Or.inl hof.symm)))
    · have h2 : bad.toNat = 52 := by omega
      rw [h2] at hof
      exact Or.inr (Or.inr (Or.inr (Or.inr hof.symm)))
  have hpresym : ∀ i ∈ pre.map (fun ch => (ch.toNat : Int) - 48),
      i = 0 ∨ i = 1 ∨ i = 2 ∨ i = 3 ∨ i = 4 := by
    intro i hi
    obtain ⟨ch, hch, rfl⟩ := List.mem_map.1 hi
    rcases hpre ch hch with rfl | rfl | rfl | rfl | rfl <;> decide
  obtain ⟨k, hk⟩ : ∃ k : Nat, S.NumberOfCycles.toNat = k + 1 :=
    ⟨S.NumberOfCycles.toNat - 1, by omega⟩
  obtain ⟨rest, hsched⟩ : ∃ rest : List Int, cycleSchedule S =
      pre.map (fun ch => (ch.toNat : Int) - 48) ++ (((bad.toNat : Int) - 48) :: rest) := by
    refine ⟨post.map (fun ch => (ch.toNat : Int) - 48) ++
      (List.replicate k (cycleSymbols S.cycle_type)).flatten, ?_⟩
    unfold cycleSchedule
    rw [hk, List.replicate_succ, List.flatten_cons]
    unfold cycleSymbols
    rw [hsplit]
    simp
  have hlen : (pre.map (fun ch => (ch.toNat : Int) - 48)).length = pre.length :=
    List.length_map _ _
  have hstate : stateAfter S r pre.length =
      some ((pre.map (fun ch => ch.toNat - 48)).foldl (fun st s => specStep S s st)
        ((0 : V), r)) := by
    unfold stateAfter
    rw [hsched, List.take_left' hlen, cycleRun_digits S _ hpresym, List.map_map]
    congr 3
    funext ch
    simp only [Function.comp]
    omega
  have hget : (cycleSchedule S)[pre.length]? = some ((bad.toNat : Int) - 48) := by
    rw [hsched, List.getElem?_append_right (by rw [hlen]), hlen, Nat.sub_self]
    exact List.getElem?_cons_zero
  refine ⟨hstate, ?_, ?_⟩
  · rw [stateAfter_succ S r pre.length _ hget, hstate, Option.some_bind]
    exact cycleStep_bad S _ hbadsym _
  · rw [Mult_eq_cycleRun, hsched, cycleRun_append, cycleRun_digits S _ hpresym,
      Option.some_bind]
    have hcons : ∀ st : V × V, cycleRun S (((bad.toNat : Int) - 48) :: rest) st = none := by
      intro st
      unfold cycleRun
      rw [List.foldlM_cons, cycleStep_bad S _ hbadsym st]
      rfl
    rw [hcons]
    rfl

/-- Witness of C13 (amended): the solver `exampleBadCycle` with the cycle string `"05"`. -/
theorem Mult_bad_symbol_witness :
    stateAfter exampleBadCycle 3 ['0'].length =
      some ((['0'].map (fun ch => ch.toNat - 48)).foldl
        (fun st s => specStep exampleBadCycle s st) ((0 : Int), 3)) ∧
    stateAfter exampleBadCycle 3 (['0'].length + 1) = none ∧
    Mult exampleBadCycle 3 7 = none :=
  Mult_bad_symbol exampleBadCycle 3 7 ['0'] [] '5' (by decide) (by decide) (by decide)
    (by decide)

/-- C14, the code at a residual whose size differs from the height of the operator: the
sizes differ, and `Mult` writes `Size inconsistency` and then runs the correction cycle
all the same, returning the `z` of the smoothing step. -/
theorem Mult_size_mismatch_runs_cycle :
    exampleMismatch.Size 3 ≠ exampleMismatch.AHeight ∧
    stateAfter exampleMismatch 3 1 = some (3, -3) ∧
    Mult exampleMismatch 3 7 = some (3, ["Size inconsistency"]) := by
  decide
/-! ### Linearity and the residual invariant -/

/-- The correction of a step is linear in the residual when the smoother and the four
auxiliary corrections are. -/
theorem specCorrection_linear {K V : Type} [CommRing K] [AddCommGroup V] [Module K V]
    (S : Block_AMSSolver K V)
    (hD : ∀ (a : K) (u v : V), S.D (a • u + v) = a • S.D u + S.D v)
    (hG : ∀ (a : K) (u v : V), GetCorrection S.cg S.G S.GtAG S.blkAMG_G (a • u + v) =
      a • GetCorrection S.cg S.G S.GtAG S.blkAMG_G u +
        GetCorrection S.cg S.G S.GtAG S.blkAMG_G v)
    (hPx : ∀ (a : K) (u v : V), GetCorrection S.cg S.Px S.PxtAPx S.blkAMG_Px (a • u + v) =
      a • GetCorrection S.cg S.Px S.PxtAPx S.blkAMG_Px u +
        GetCorrection S.cg S.Px S.PxtAPx S.blkAMG_Px v)
    (hPy : ∀ (a : K) (u v : V), GetCorrection S.cg S.Py S.PytAPy S.blkAMG_Py (a • u + v) =
      a • GetCorrection S.cg S.Py S.PytAPy S.blkAMG_Py u +
        GetCorrection S.cg S.Py S.PytAPy S.blkAMG_Py v)
    (hPz : ∀ (a : K) (u v : V), GetCorrection S.cg S.Pz S.PztAPz S.blkAMG_Pz (a • u + v) =
      a • GetCorrection S.cg S.Pz S.PztAPz S.blkAMG_Pz u +
        GetCorrection S.cg S.Pz S.PztAPz S.blkAMG_Pz v)
    (s : Nat) (a : K) (u v : V) :
    specCorrection S s (a • u + v) = a • specCorrection S s u + specCorrection S s v := by
  match s with
  | 0 =>
    simp only [specCorrection]
    rw [hD, smul_add, smul_comm]
  | 1 => exact hG a u v
  | 2 => exact hPx a u v
  | 3 => exact hPy a u v
  | _ + 4 => exact hPz a u v

/-- A step of the cycle is linear in the pair `(z, res)`. -/
theorem specStep_linear {K V : Type} [CommRing K] [AddCommGroup V] [Module K V]
    (S : Block_AMSSolver K V)
    (hA : ∀ (a : K) (u v : V), S.A (a • u + v) = a • S.A u + S.A v)
    (hcorr : ∀ (s : Nat) (a : K) (u v : V),
      specCorrection S s (a • u + v) = a • specCorrection S s u + specCorrection S s v)
    (s : Nat) (a : K) (st1 st2 : V × V) :
    specStep S s (a • st1.1 + st2.1, a • st1.2 + st2.2) =
      (a • (specStep S s st1).1 + (specStep S s st2).1,
        a • (specStep S s st1).2 + (specStep S s st2).2) := by
  simp only [specStep, hcorr, hA, smul_add, smul_sub]
  refine Prod.ext ?_ ?_
  · simp only []
    abel
  · simp only []
    abel

/-- The steps of a list of digits are linear in the pair `(z, res)`. -/
theorem specFold_linear {K V : Type} [CommRing K] [AddCommGroup V] [Module K V]
    (S : Block_AMSSolver K V)
    (hA : ∀ (a : K) (u v : V), S.A (a • u + v) = a • S.A u + S.A v)
    (hcorr : ∀ (s : Nat) (a : K) (u v : V),
      specCorrection S s (a • u + v) = a • specCorrection S s u + specCorrection S s v)
    (digits : List Nat) (a : K) (st1 st2 : V × V) :
    digits.foldl (fun st s => specStep S s st) (a • st1.1 + st2.1, a • st1.2 + st2.2) =
      (a • (digits.foldl (fun st s => specStep S s st) st1).1 +
          (digits.foldl (fun st s => specStep S s st) st2).1,
        a • (digits.foldl (fun st s => specStep S s st) st1).2 +
          (digits.foldl (fun st s => specStep S s st) st2).2) := by
  induction digits generalizing st1 st2 with
  | nil => rfl
  | cons s t ih =>
    simp only [List.foldl_cons]
    rw [specStep_linear S hA hcorr, ih]

/-- The whole cycle is linear in the pair `(z, res)`. -/
theorem specCycle_linear {K V : Type} [CommRing K] [AddCommGroup V] [Module K V]
    (S : Block_AMSSolver K V)
    (hA : ∀ (a : K) (u v : V), S.A (a • u + v) = a • S.A u + S.A v)
    (hcorr : ∀ (s : Nat) (a : K) (u v : V),
      specCorrection S s (a • u + v) = a • specCorrection S s u + specCorrection S s v)
    (digits : List Nat) (k : Nat) (a : K) (st1 st2 : V × V) :
    specCycle S digits k (a • st1.1 + st2.1, a • st1.2 + st2.2) =
      (a • (specCycle S digits k st1).1 + (specCycle S digits k st2).1,
        a • (specCycle S digits k st1).2 + (specCycle S digits k st2).2) := by
  induction k with
  | zero => rfl
  | succ k ih =>
    unfold specCycle at ih ⊢
    rw [Function.iterate_succ_apply', Function.iterate_succ_apply',
      Function.iterate_succ_apply', ih, specFold_linear S hA hcorr]

/-- C16: linearity of the cycle.  If the smoother `D`, the system operator `A` and each
of the four auxiliary corrections are linear maps, then for every cycle string over
the digits `0..4`, every `NumberOfCycles` and every `theta`, `Mult` is linear in the
residual: for all vectors `r1`, `r2` of the height of the operator and every scalar
`a`, the three calls return and `Mult(a*r1 + r2) = a*Mult(r1) + Mult(r2)`. -/
theorem Mult_linear {K V : Type} [CommRing K] [AddCommGroup V] [Module K V]
    (S : Block_AMSSolver K V) (a : K) (r1 r2 w1 w2 w3 : V)
    (hD : ∀ (a : K) (u v : V), S.D (a • u + v) = a • S.D u + S.D v)
    (hA : ∀ (a : K) (u v : V), S.A (a • u + v) = a • S.A u + S.A v)
    (hG : ∀ (a : K) (u v : V), GetCorrection S.cg S.G S.GtAG S.blkAMG_G (a • u + v) =
      a • GetCorrection S.cg S.G S.GtAG S.blkAMG_G u +
        GetCorrection S.cg S.G S.GtAG S.blkAMG_G v)
    (hPx : ∀ (a : K) (u v : V), GetCorrection S.cg S.Px S.PxtAPx S.blkAMG_Px (a • u + v) =
      a • GetCorrection S.cg S.Px S.PxtAPx S.blkAMG_Px u +
        GetCorrection S.cg S.Px S.PxtAPx S.blkAMG_Px v)
    (hPy : ∀ (a : K) (u v : V), GetCorrection S.cg S.Py S.PytAPy S.blkAMG_Py (a • u + v) =
      a • GetCorrection S.cg S.Py S.PytAPy S.blkAMG_Py u +
        GetCorrection S.cg S.Py S.PytAPy S.blkAMG_Py v)
    (hPz : ∀ (a : K) (u v : V), GetCorrection S.cg S.Pz S.PztAPz S.blkAMG_Pz (a • u + v) =
      a • GetCorrection S.cg S.Pz S.PztAPz S.blkAMG_Pz u +
        GetCorrection S.cg S.Pz S.PztAPz S.blkAMG_Pz v)
    (hc : ∀ ch ∈ S.cycle_type.toList,
      ch = '0' ∨ ch = '1' ∨ ch = '2' ∨ ch = '3' ∨ ch = '4')
    (hs1 : S.Size r1 = S.AHeight) (hs2 : S.Size r2 = S.AHeight)
    (hs3 : S.Size (a • r1 + r2) = S.AHeight) :
    ∃ z1 z2 z3, Mult S r1 w1 = some (z1, []) ∧ Mult S r2 w2 = some (z2, []) ∧
      Mult S (a • r1 + r2) w3 = some (z3, []) ∧ z3 = a • z1 + z2 := by
  have hcorr := specCorrection_linear S hD hG hPx hPy hPz
  have h1 := Mult_eq_specCycle S r1 w1 hc
  have h2 := Mult_eq_specCycle S r2 w2 hc
  have h3 := Mult_eq_specCycle S (a • r1 + r2) w3 hc
  simp only [hs1, hs2, hs3, ne_eq, not_true_eq_false, if_false] at h1 h2 h3
  refine ⟨_, _, _, h1, h2, h3, ?_⟩
  have hlin := specCycle_linear S hA hcorr (specDigits S.cycle_type) S.NumberOfCycles.toNat a
    ((0 : V), r1) ((0 : V), r2)
  simp only [smul_zero, add_zero] at hlin
  rw [hlin]

/-- Witness of C16: the solver `exampleSolver`, with `a = 2`, `r1 = 3`, `r2 = 5`. -/
theorem Mult_linear_witness :
    ∃ z1 z2 z3, Mult exampleSolver 3 0 = some (z1, []) ∧
      Mult exampleSolver 5 0 = some (z2, []) ∧
      Mult exampleSolver ((2 : Int) • (3 : Int) + 5) 0 = some (z3, []) ∧
      z3 = (2 : Int) • z1 + z2 :=
  Mult_linear exampleSolver 2 3 5 0 0 0
    (fun a u v => by simp [exampleSolver])
    (fun a u v => by simp [exampleSolver]; ring)
    (fun a u v => by simp [exampleSolver, GetCorrection])
    (fun a u v => by simp [exampleSolver, GetCorrection])
    (fun a u v => by simp [exampleSolver, GetCorrection])
    (fun a u v => by simp [exampleSolver, GetCorrection])
    (by decide) (by decide) (by decide) (by decide)
/-- Every symbol of the schedule of a cycle string over the digits `0..4` is one of the
numbers `0..4`. -/
theorem cycleSchedule_digits {K V : Type} (S : Block_AMSSolver K V)
    (hc : ∀ ch ∈ S.cycle_type.toList,
      ch = '0' ∨ ch = '1' ∨ ch = '2' ∨ ch = '3' ∨ ch = '4') :
    ∀ i ∈ cycleSchedule S, i = 0 ∨ i = 1 ∨ i = 2 ∨ i = 3 ∨ i = 4 := by
  intro i hi
  unfold cycleSchedule at hi
  obtain ⟨l, hl, hil⟩ := List.mem_flatten.1 hi
  rw [(List.mem_replicate.1 hl).2] at hil
  exact cycleSymbols_digits S.cycle_type hc i hil

/-- C19: residual invariant of the cycle.  If the system operator `A` is additive
(`A(u+v) = A u + A v`, `A(0) = 0`), then for every cycle string over the digits `0..4`,
every `NumberOfCycles`, every `theta` and every input `r`, after every pass through the
loop body the working residual is the true residual of the accumulated correction,
`res = r - A*z`; the correction of the next pass, for the symbol `s`, is computed from
`r - A*z`; and `Mult` returns the `z` of the last pass. -/
theorem Mult_residual_invariant {K V : Type} [CommRing K] [AddCommGroup V] [Module K V]
    (S : Block_AMSSolver K V) (r w : V)
    (hadd : ∀ u v : V, S.A (u + v) = S.A u + S.A v) (hzero : S.A 0 = 0)
    (hc : ∀ ch ∈ S.cycle_type.toList,
      ch = '0' ∨ ch = '1' ∨ ch = '2' ∨ ch = '3' ∨ ch = '4') :
    (∀ n : Nat, ∃ z, stateAfter S r n = some (z, r - S.A z)) ∧
    (∀ (n : Nat) (s : Int), (cycleSchedule S)[n]? = some s →
      ∃ z, stateAfter S r n = some (z, r - S.A z) ∧
        stateAfter S r (n + 1) =
          some (z + specCorrection S s.toNat (r - S.A z),
            r - S.A (z + specCorrection S s.toNat (r - S.A z)))) ∧
    (∃ z out, Mult S r w = some (z, out) ∧
      stateAfter S r (cycleSchedule S).length = some (z, r - S.A z)) := by
  have hdig := cycleSchedule_digits S hc
  have hstep : ∀ (n : Nat) (s : Int) (z : V), (cycleSchedule S)[n]? = some s →
      stateAfter S r n = some (z, r - S.A z) →
      stateAfter S r (n + 1) =
        some (z + specCorrection S s.toNat (r - S.A z),
          r - S.A (z + specCorrection S s.toNat (r - S.A z))) := by
    intro n s z hs hn
    have hsmem : s ∈ cycleSchedule S := by
      obtain ⟨hlt, hget⟩ := List.getElem?_eq_some.1 hs
      rw [← hget]
      exact List.getElem_mem hlt
    rw [stateAfter_succ S r n s hs, hn, Option.some_bind, cycleStep_digit S s (hdig s hsmem)]
    simp only [specStep, hadd]
    congr 2
    abel
  have hinv : ∀ n : Nat, ∃ z, stateAfter S r n = some (z, r - S.A z) := by
    intro n
    induction n with
    | zero =>
      refine ⟨0, ?_⟩
      unfold stateAfter
      rw [List.take_zero, cycleRun_nil, hzero, sub_zero]
    | succ n ih =>
      obtain ⟨z, hz⟩ := ih
      cases hs : (cycleSchedule S)[n]? with
      | none => exact ⟨z, by rw [stateAfter_succ_of_none S r n hs, hz]⟩
      | some s => exact ⟨_, hstep n s z hs hz⟩
  refine ⟨hinv, ?_, ?_⟩
  · intro n s hs
    obtain ⟨z, hz⟩ := hinv n
    exact ⟨z, hz, hstep n s z hs hz⟩
  · obtain ⟨z, hz⟩ := hinv (cycleSchedule S).length
    refine ⟨z, if S.Size r ≠ S.AHeight then ["Size inconsistency"] else [], ?_, hz⟩
    rw [Mult_eq_cycleRun, ← stateAfter_length, hz, Option.some_bind]

/-- Witness of C19: the solver `exampleSolver` on the residual 3. -/
theorem Mult_residual_invariant_witness :
    (∀ n : Nat, ∃ z, stateAfter exampleSolver 3 n = some (z, 3 - exampleSolver.A z)) ∧
    (∀ (n : Nat) (s : Int), (cycleSchedule exampleSolver)[n]? = some s →
      ∃ z, stateAfter exampleSolver 3 n = some (z, 3 - exampleSolver.A z) ∧
        stateAfter exampleSolver 3 (n + 1) =
          some (z + specCorrection exampleSolver s.toNat (3 - exampleSolver.A z),
            3 - exampleSolver.A
              (z + specCorrection exampleSolver s.toNat (3 - exampleSolver.A z)))) ∧
    (∃ z out, Mult exampleSolver 3 7 = some (z, out) ∧
      stateAfter exampleSolver 3 (cycleSchedule exampleSolver).length =
        some (z, 3 - exampleSolver.A z)) :=
  Mult_residual_invariant exampleSolver 3 7
    (fun u v => by simp [exampleSolver]; ring) (by decide) (by decide)

end BlkAMS
